import Mathlib

/-!
# A shallow embedding of the factor-expr streaming factor engine

This file embeds the core of the `factor-expr` engine (`src/native/src`) in
Lean 4 and proves properties of the embedded code.

Modelling conventions, compared with the Rust source:

* `f64` is modelled by `F64`: a rational number, `+inf`, `-inf` or `NaN`.
  Rational arithmetic is exact, so IEEE-754 rounding is not modelled; the
  NaN/infinity structure of every operation is modelled faithfully.  The
  model keeps a single zero (`0`), standing for IEEE `+0.0`; consequently
  `signum 0 = 1`, exactly as `0.0_f64.signum()` in Rust.
* Transcendental functions (`ln`, `sqrt`, `powf` at fractional exponents)
  cannot return exact rationals.  Where the source applies them the
  embedding returns the exact value whenever one exists (`ln 1 = 0`,
  perfect squares, integer exponents) and otherwise the value of an
  explicitly named stand-in function.  No theorem in this file depends on
  a value produced by a stand-in.
* Rust panics (`assert!`, `unwrap` on `None`, `unreachable!`) abort the
  process; returned `anyhow::Error`s are ordinary values.  The embedding
  threads both through `Except RtErr`, keeping the two distinguishable by
  the `RtErr` constructor, so "fails with a returned error" and "aborts"
  remain different outcomes.
* `usize` subtraction is modelled by truncated `Nat` subtraction.  The
  source wraps (release) or panics (debug) on underflow; the only places
  this matters are window size `0` corner cases that no theorem relies on.
* The `lexpr` S-expression reader and the `order_stats_tree` crate are
  external dependencies of the engine, not part of the repository.  They
  are modelled by a direct S-expression lexer/reader over the token
  shapes the engine emits and consumes, and by a sorted association list
  with the documented order-statistics interface.
-/

namespace FactorExpr

/-! ## The value model for `f64` -/

inductive F64 where
  | nan : F64
  | inf : F64
  | ninf : F64
  | num (q : ℚ) : F64
deriving DecidableEq, Repr

instance : Inhabited F64 := ⟨F64.nan⟩

def F64.isNan : F64 → Bool
  | .nan => true
  | _ => false

def F64.isInfinite : F64 → Bool
  | .inf => true
  | .ninf => true
  | _ => false

def F64.isFinite : F64 → Bool
  | .num _ => true
  | _ => false

/-- IEEE addition on the model: NaN propagates, `inf + -inf = NaN`. -/
def F64.add : F64 → F64 → F64
  | .nan, _ => .nan
  | _, .nan => .nan
  | .inf, .ninf => .nan
  | .ninf, .inf => .nan
  | .inf, _ => .inf
  | _, .inf => .inf
  | .ninf, _ => .ninf
  | _, .ninf => .ninf
  | .num a, .num b => .num (a + b)

/-- IEEE subtraction on the model: NaN propagates, `inf - inf = NaN`. -/
def F64.sub : F64 → F64 → F64
  | .nan, _ => .nan
  | _, .nan => .nan
  | .inf, .inf => .nan
  | .ninf, .ninf => .nan
  | .inf, _ => .inf
  | _, .inf => .ninf
  | .ninf, _ => .ninf
  | _, .ninf => .inf
  | .num a, .num b => .num (a - b)

/-- IEEE multiplication on the model: NaN propagates, `0 * inf = NaN`. -/
def F64.mul : F64 → F64 → F64
  | .nan, _ => .nan
  | _, .nan => .nan
  | .inf, .inf => .inf
  | .inf, .ninf => .ninf
  | .ninf, .inf => .ninf
  | .ninf, .ninf => .inf
  | .inf, .num b => if b = 0 then .nan else if 0 < b then .inf else .ninf
  | .num a, .inf => if a = 0 then .nan else if 0 < a then .inf else .ninf
  | .ninf, .num b => if b = 0 then .nan else if 0 < b then .ninf else .inf
  | .num a, .ninf => if a = 0 then .nan else if 0 < a then .ninf else .inf
  | .num a, .num b => .num (a * b)

/-- IEEE division on the model (single zero, standing for `+0.0`):
`0/0 = NaN`, `x/0 = ±inf`, `inf/inf = NaN`, exact on rationals. -/
def F64.div : F64 → F64 → F64
  | .nan, _ => .nan
  | _, .nan => .nan
  | .inf, .inf => .nan
  | .inf, .ninf => .nan
  | .ninf, .inf => .nan
  | .ninf, .ninf => .nan
  | .inf, .num b => if 0 ≤ b then .inf else .ninf
  | .ninf, .num b => if 0 ≤ b then .ninf else .inf
  | .num _, .inf => .num 0
  | .num _, .ninf => .num 0
  | .num a, .num b =>
    if b = 0 then (if a = 0 then .nan else if 0 < a then .inf else .ninf)
    else .num (a / b)

/-- `f64::signum`: `NaN → NaN`; the model's single `0` is `+0.0`, whose
signum is `1.0` in Rust. -/
def F64.signum : F64 → F64
  | .nan => .nan
  | .inf => .num 1
  | .ninf => .num (-1)
  | .num q => if q < 0 then .num (-1) else .num 1

def F64.neg : F64 → F64
  | .nan => .nan
  | .inf => .ninf
  | .ninf => .inf
  | .num q => .num (-q)

def F64.abs : F64 → F64
  | .nan => .nan
  | .inf => .inf
  | .ninf => .inf
  | .num q => .num |q|

/-- IEEE `<`: false whenever either side is NaN. -/
def F64.flt : F64 → F64 → Bool
  | .nan, _ => false
  | _, .nan => false
  | .inf, _ => false
  | .ninf, .ninf => false
  | .ninf, _ => true
  | .num _, .inf => true
  | .num _, .ninf => false
  | .num a, .num b => decide (a < b)

/-- IEEE `<=`: false whenever either side is NaN. -/
def F64.fle : F64 → F64 → Bool
  | .nan, _ => false
  | _, .nan => false
  | .inf, .inf => true
  | .inf, _ => false
  | .ninf, _ => true
  | .num _, .inf => true
  | .num _, .ninf => false
  | .num a, .num b => decide (a ≤ b)

def F64.fgt (a b : F64) : Bool := F64.flt b a

def F64.fge (a b : F64) : Bool := F64.fle b a

/-- IEEE `==`: false whenever either side is NaN. -/
def F64.feq : F64 → F64 → Bool
  | .nan, _ => false
  | _, .nan => false
  | .inf, .inf => true
  | .ninf, .ninf => true
  | .num a, .num b => decide (a = b)
  | _, _ => false

/-- Stand-in for the f64 value of `ln q` at a positive rational `q ≠ 1`;
see the module comment.  No theorem depends on its value. -/
def lnStandIn (_ : ℚ) : ℚ := 0

/-- `f64::ln`: NaN for negative arguments and `-inf`, `-inf` at `0`,
`inf` at `inf`, exact `0` at `1`, stand-in value elsewhere. -/
def F64.ln : F64 → F64
  | .nan => .nan
  | .inf => .inf
  | .ninf => .nan
  | .num q =>
    if q < 0 then .nan
    else if q = 0 then .ninf
    else if q = 1 then .num 0
    else .num (lnStandIn q)

/-- Stand-in for the f64 value of `sqrt q` when `q` is not a perfect
square of rationals.  No theorem depends on its value. -/
def sqrtStandIn (_ : ℚ) : ℚ := 0

/-- Exact rational square root when one exists, otherwise the stand-in. -/
def ratSqrt (q : ℚ) : ℚ :=
  let a := Nat.sqrt q.num.natAbs
  let b := Nat.sqrt q.den
  if a * a = q.num.natAbs ∧ b * b = q.den then (a : ℚ) / (b : ℚ) else sqrtStandIn q

/-- `f64::sqrt`: NaN below zero, `inf` at `inf`. -/
def F64.sqrt : F64 → F64
  | .nan => .nan
  | .inf => .inf
  | .ninf => .nan
  | .num q => if q < 0 then .nan else .num (ratSqrt q)

/-- Stand-in for `q.powf(r)` at a fractional exponent; see the module
comment.  No theorem depends on its value. -/
def powStandIn (_ _ : ℚ) : ℚ := 0

/-- `f64::powf`.  `x^0 = 1` for every `x`, NaN otherwise propagates;
integer exponents are computed exactly (with `0^negative = inf`),
fractional exponents of negative bases give NaN, fractional exponents of
positive bases use the stand-in. -/
def F64.powf : F64 → F64 → F64
  | _, .num 0 => .num 1
  | .nan, _ => .nan
  | _, .nan => .nan
  | .inf, .inf => .inf
  | .inf, .ninf => .num 0
  | .ninf, .inf => .inf
  | .ninf, .ninf => .num 0
  | .inf, .num r => if 0 < r then .inf else .num 0
  | .ninf, .num r =>
    if 0 < r then (if r.den = 1 ∧ r.num % 2 ≠ 0 then .ninf else .inf)
    else .num 0
  | .num q, .inf => if |q| < 1 then .num 0 else if |q| = 1 then .num 1 else .inf
  | .num q, .ninf => if |q| < 1 then .inf else if |q| = 1 then .num 1 else .num 0
  | .num q, .num r =>
    if r.den = 1 then
      if q = 0 then (if 0 < r then .num 0 else .inf)
      else .num (q ^ r.num)
    else
      if q < 0 then .nan
      else if q = 0 then (if 0 < r then .num 0 else .inf)
      else .num (powStandIn q r)

/-- `f64::EPSILON` (`2^-52`); used by the division guard and `LogAbs`. -/
def f64Epsilon : ℚ := 1 / 2 ^ 52

/-! ## The batch interface (`ticker_batch.rs`)

`TickerBatch` offers `index_of`, `values` and `len`.  A batch is a list
of named `f64` columns plus a row count. -/

structure Batch where
  cols : List (String × List F64)
  nrows : ℕ
deriving DecidableEq, Repr

def Batch.index_of (tb : Batch) (name : String) : Option ℕ :=
  tb.cols.findIdx? (fun c => c.1 = name)

def Batch.values (tb : Batch) (i : ℕ) : Option (List F64) :=
  (tb.cols.get? i).map (fun c => c.2)

def Batch.len (tb : Batch) : ℕ := tb.nrows

/-- A well-formed batch: every column holds one value per row. -/
def Batch.wf (tb : Batch) : Prop :=
  ∀ c ∈ tb.cols, c.2.length = tb.nrows

/-! ## The operator tree

One constructor per operator of the source, with the per-node mutable
state inlined (the Rust struct fields appear as constructor arguments in
source order).  The `impl_arithmetic_bivariate!`, `impl_arithmetic_univariate!`,
`impl_arithmetic_univariate_1arg!`, `impl_logic_bivariate!` and
`impl_minmax!` macros each expand to structurally identical types that
differ only in the name and the element function; they are embedded as a
single constructor carrying a kind tag. -/

inductive ArithBinKind where
  | add | sub | mul | div
deriving DecidableEq, Repr

inductive ArithUnKind where
  | logAbs | sign | abs | neg
deriving DecidableEq, Repr

inductive PowKind where
  | pow | spow
deriving DecidableEq, Repr

inductive LogicBinKind where
  | lt | lte | gt | gte | eq | and | or
deriving DecidableEq, Repr

inductive MinMaxKind where
  | tsMin | tsMax | tsArgMin | tsArgMax
deriving DecidableEq, Repr

inductive Op where
  | getter (name : String) (idx : Option ℕ)
  | constant (c : F64)
  | arith (k : ArithBinKind) (l r : Op) (i : ℕ)
  | arith1 (k : ArithUnKind) (inner : Op) (i : ℕ)
  | powOp (k : PowKind) (p : F64) (s : Op) (i : ℕ)
  | logic (k : LogicBinKind) (l r : Op) (i : ℕ)
  | notOp (inner : Op) (i : ℕ)
  | ifOp (cond btrue bfalse : Op) (i : ℕ)
  | tsSum (winSize : ℕ) (inner : Op) (window : List F64) (sum : F64) (i : ℕ)
  | tsMean (winSize : ℕ) (s : Op) (hist : List F64) (x : F64) (warmup : ℕ)
  | tsStdev (winSize : ℕ) (s : Op) (hist : List F64) (x : F64) (warmup : ℕ)
  | tsSkew (winSize : ℕ) (s : Op) (hist : List F64) (x : F64) (warmup : ℕ)
  | tsCorr (winSize : ℕ) (sx sy : Op) (hist : List (F64 × F64)) (x y : F64) (warmup : ℕ)
  | minmax (k : MinMaxKind) (winSize : ℕ) (s : Op) (hist : List (ℕ × F64)) (seq : ℕ)
      (warmup : ℕ)
  | delay (winSize : ℕ) (inner : Op) (window : List F64) (i : ℕ)
  | tsRank (winSize : ℕ) (s : Op) (hist : List F64) (ostree : List (F64 × ℕ)) (warmup : ℕ)
  | tsQuantile (winSize : ℕ) (quantile : F64) (r : ℕ) (s : Op) (hist : List F64)
      (ostree : List (F64 × ℕ)) (warmup : ℕ)
  | tsLogReturn (winSize : ℕ) (s : Op) (cache : List F64) (warmup : ℕ)
  | sma (inner : Op) (winSize : ℕ) (i : ℕ) (window : List F64) (sum : F64)
deriving DecidableEq, Repr

/-! ## `ready_offset` -/

/-- `Operator::ready_offset`, per node exactly as in the source.  In
particular `Not::ready_offset` returns `0` (`logic.rs`), and the window
operators return `child + N - 1` (`Delay`: `child + N`). -/
def Op.ready_offset : Op → ℕ
  | .getter _ _ => 0
  | .constant _ => 0
  | .arith _ l r _ => max l.ready_offset r.ready_offset
  | .arith1 _ inner _ => inner.ready_offset
  | .powOp _ _ s _ => s.ready_offset
  | .logic _ l r _ => max l.ready_offset r.ready_offset
  | .notOp _ _ => 0
  | .ifOp c t f _ => max (max c.ready_offset t.ready_offset) f.ready_offset
  | .tsSum n inner _ _ _ => inner.ready_offset + n - 1
  | .tsMean n s _ _ _ => s.ready_offset + n - 1
  | .tsStdev n s _ _ _ => s.ready_offset + n - 1
  | .tsSkew n s _ _ _ => s.ready_offset + n - 1
  | .tsCorr n sx sy _ _ _ _ => max sx.ready_offset sy.ready_offset + n - 1
  | .minmax _ n s _ _ _ => s.ready_offset + n - 1
  | .delay n inner _ _ => inner.ready_offset + n
  | .tsRank n s _ _ _ => s.ready_offset + n - 1
  | .tsQuantile n _ _ s _ _ _ => s.ready_offset + n - 1
  | .tsLogReturn n s _ _ => s.ready_offset + n - 1
  | .sma inner n _ _ _ => inner.ready_offset + n - 1

/-- `Operator::len`: total node count of the subtree. -/
def Op.len : Op → ℕ
  | .getter _ _ => 1
  | .constant _ => 1
  | .arith _ l r _ => l.len + r.len + 1
  | .arith1 _ inner _ => inner.len + 1
  | .powOp _ _ s _ => s.len + 1
  | .logic _ l r _ => l.len + r.len + 1
  | .notOp inner _ => inner.len + 1
  | .ifOp c t f _ => c.len + t.len + f.len + 1
  | .tsSum _ inner _ _ _ => inner.len + 1
  | .tsMean _ s _ _ _ => s.len + 1
  | .tsStdev _ s _ _ _ => s.len + 1
  | .tsSkew _ s _ _ _ => s.len + 1
  | .tsCorr _ sx sy _ _ _ _ => sx.len + sy.len + 1
  | .minmax _ _ s _ _ _ => s.len + 1
  | .delay _ inner _ _ => inner.len + 1
  | .tsRank _ s _ _ _ => s.len + 1
  | .tsQuantile _ _ _ s _ _ _ => s.len + 1
  | .tsLogReturn _ s _ _ => s.len + 1
  | .sma inner _ _ _ _ => inner.len + 1

/-! ## Decimal rendering (Rust `Display` for `usize` and `f64`)

`format!("{}", _)` prints integers in decimal and finite `f64`s as their
shortest decimal expansion, never in scientific notation.  The model
renders a rational with a `2^i * 5^j` denominator as its exact (shortest)
decimal expansion, which coincides with the source's output on the
decimal values the parser constructs. -/

/-- Little-endian base-10 digits, with explicit fuel (`fuel ≥ n` suffices). -/
def natDigitsAux : ℕ → ℕ → List ℕ
  | 0, _ => []
  | _ + 1, 0 => []
  | fuel + 1, n + 1 => ((n + 1) % 10) :: natDigitsAux fuel ((n + 1) / 10)

def natChars (n : ℕ) : List Char :=
  if n = 0 then ['0'] else ((natDigitsAux n n).map Nat.digitChar).reverse

def fmtNat (n : ℕ) : String := ⟨natChars n⟩

def fmtInt (m : ℤ) : String :=
  if m < 0 then "-" ++ fmtNat m.natAbs else fmtNat m.natAbs

/-- Number of factors `p` in `n` (0 when `n = 0`), with fuel. -/
def factorCountAux : ℕ → ℕ → ℕ → ℕ
  | 0, _, _ => 0
  | fuel + 1, p, n => if n ≠ 0 ∧ n % p = 0 then factorCountAux fuel p (n / p) + 1 else 0

def factorCount (p n : ℕ) : ℕ := factorCountAux n p n

/-- The least `k` with `d ∣ 10^k`, when one exists. -/
def decExp (d : ℕ) : Option ℕ :=
  let i := factorCount 2 d
  let j := factorCount 5 d
  if 2 ^ i * 5 ^ j = d then some (max i j) else none

/-- `m` printed as exactly `k` decimal digits, zero padded on the left. -/
def padZeros (k m : ℕ) : String :=
  let s := natChars m
  ⟨List.replicate (k - s.length) '0' ++ s⟩

/-- Shortest decimal rendering of a rational with decimal denominator;
rationals outside that range never occur in parser-built trees and get a
fallback rendering. -/
def fmtQ (q : ℚ) : String :=
  match decExp q.den with
  | some k =>
    if k = 0 then fmtInt q.num
    else
      let a := q.num.natAbs * (10 ^ k / q.den)
      (if q.num < 0 then "-" else "") ++ fmtNat (a / 10 ^ k) ++ "." ++ padZeros k (a % 10 ^ k)
  | none => fmtInt q.num ++ "/" ++ fmtNat q.den

def fmtF64 : F64 → String
  | .nan => "NaN"
  | .inf => "inf"
  | .ninf => "-inf"
  | .num q => fmtQ q

/-! ## `to_string` (canonical S-expression) -/

def ArithBinKind.name : ArithBinKind → String
  | .add => "+"
  | .sub => "-"
  | .mul => "*"
  | .div => "/"

def ArithUnKind.name : ArithUnKind → String
  | .logAbs => "LogAbs"
  | .sign => "Sign"
  | .abs => "Abs"
  | .neg => "Neg"

def PowKind.name : PowKind → String
  | .pow => "^"
  | .spow => "SPow"

def LogicBinKind.name : LogicBinKind → String
  | .lt => "<"
  | .lte => "<="
  | .gt => ">"
  | .gte => ">="
  | .eq => "=="
  | .and => "And"
  | .or => "Or"

def MinMaxKind.name : MinMaxKind → String
  | .tsMin => "TSMin"
  | .tsMax => "TSMax"
  | .tsArgMin => "TSArgMin"
  | .tsArgMax => "TSArgMax"

/-- `Operator::to_string`, per node exactly as in the source; note
`TSStdev`'s `NAME` is `"TSStd"`. -/
def Op.to_string : Op → String
  | .getter name _ => ":" ++ name
  | .constant c => fmtF64 c
  | .arith k l r _ => "(" ++ k.name ++ " " ++ l.to_string ++ " " ++ r.to_string ++ ")"
  | .arith1 k inner _ => "(" ++ k.name ++ " " ++ inner.to_string ++ ")"
  | .powOp k p s _ => "(" ++ k.name ++ " " ++ fmtF64 p ++ " " ++ s.to_string ++ ")"
  | .logic k l r _ => "(" ++ k.name ++ " " ++ l.to_string ++ " " ++ r.to_string ++ ")"
  | .notOp inner _ => "(! " ++ inner.to_string ++ ")"
  | .ifOp c t f _ =>
    "(If " ++ c.to_string ++ " " ++ t.to_string ++ " " ++ f.to_string ++ ")"
  | .tsSum n inner _ _ _ => "(TSSum " ++ fmtNat n ++ " " ++ inner.to_string ++ ")"
  | .tsMean n s _ _ _ => "(TSMean " ++ fmtNat n ++ " " ++ s.to_string ++ ")"
  | .tsStdev n s _ _ _ => "(TSStd " ++ fmtNat n ++ " " ++ s.to_string ++ ")"
  | .tsSkew n s _ _ _ => "(TSSkew " ++ fmtNat n ++ " " ++ s.to_string ++ ")"
  | .tsCorr n sx sy _ _ _ _ =>
    "(TSCorr " ++ fmtNat n ++ " " ++ sx.to_string ++ " " ++ sy.to_string ++ ")"
  | .minmax k n s _ _ _ => "(" ++ k.name ++ " " ++ fmtNat n ++ " " ++ s.to_string ++ ")"
  | .delay n inner _ _ => "(Delay " ++ fmtNat n ++ " " ++ inner.to_string ++ ")"
  | .tsRank n s _ _ _ => "(TSRank " ++ fmtNat n ++ " " ++ s.to_string ++ ")"
  | .tsQuantile n q _ s _ _ _ =>
    "(TSQuantile " ++ fmtNat n ++ " " ++ fmtF64 q ++ " " ++ s.to_string ++ ")"
  | .tsLogReturn n s _ _ => "(TSLogReturn " ++ fmtNat n ++ " " ++ s.to_string ++ ")"
  | .sma inner n _ _ _ => "(SMA " ++ fmtNat n ++ " " ++ inner.to_string ++ ")"

/-! ## `clone`

Every hand-written `Clone` impl rebuilds the node with `Self::new(…)`,
dropping the streaming state; `Getter` uses `#[derive(Clone)]`, which
copies the cached column index verbatim. -/

def Op.clone : Op → Op
  | .getter name idx => .getter name idx
  | .constant c => .constant c
  | .arith k l r _ => .arith k l.clone r.clone 0
  | .arith1 k inner _ => .arith1 k inner.clone 0
  | .powOp k p s _ => .powOp k p s.clone 0
  | .logic k l r _ => .logic k l.clone r.clone 0
  | .notOp inner _ => .notOp inner.clone 0
  | .ifOp c t f _ => .ifOp c.clone t.clone f.clone 0
  | .tsSum n inner _ _ _ => .tsSum n inner.clone [] (.num 0) 0
  | .tsMean n s _ _ _ => .tsMean n s.clone [] (.num 0) 0
  | .tsStdev n s _ _ _ => .tsStdev n s.clone [] (.num 0) 0
  | .tsSkew n s _ _ _ => .tsSkew n s.clone [] (.num 0) 0
  | .tsCorr n sx sy _ _ _ _ => .tsCorr n sx.clone sy.clone [] (.num 0) (.num 0) 0
  | .minmax k n s _ _ _ => .minmax k n s.clone [] 0 0
  | .delay n inner _ _ => .delay n inner.clone [] 0
  | .tsRank n s _ _ _ => .tsRank n s.clone [] [] 0
  | .tsQuantile n q r s _ _ _ => .tsQuantile n q r s.clone [] [] 0
  | .tsLogReturn n s _ _ => .tsLogReturn n s.clone [] 0
  | .sma inner n _ _ _ => .sma inner.clone n 0 [] (.num 0)

/-- The streaming state of every node is at its initial (`new`) value:
empty windows and deques, empty order-statistics trees, zero counters and
running sums.  `Getter`'s cached column index is a schema cache, not
streaming state, and is not constrained. -/
def Op.stream_fresh : Op → Bool
  | .getter _ _ => true
  | .constant _ => true
  | .arith _ l r i => i = 0 && l.stream_fresh && r.stream_fresh
  | .arith1 _ inner i => i = 0 && inner.stream_fresh
  | .powOp _ _ s i => i = 0 && s.stream_fresh
  | .logic _ l r i => i = 0 && l.stream_fresh && r.stream_fresh
  | .notOp inner i => i = 0 && inner.stream_fresh
  | .ifOp c t f i => i = 0 && (c.stream_fresh && t.stream_fresh && f.stream_fresh)
  | .tsSum _ inner window sum i =>
    window = [] && sum = .num 0 && i = 0 && inner.stream_fresh
  | .tsMean _ s hist x warmup => hist = [] && x = .num 0 && warmup = 0 && s.stream_fresh
  | .tsStdev _ s hist x warmup => hist = [] && x = .num 0 && warmup = 0 && s.stream_fresh
  | .tsSkew _ s hist x warmup => hist = [] && x = .num 0 && warmup = 0 && s.stream_fresh
  | .tsCorr _ sx sy hist x y warmup =>
    hist = [] && x = .num 0 && y = .num 0 && warmup = 0 && (sx.stream_fresh && sy.stream_fresh)
  | .minmax _ _ s hist seq warmup => hist = [] && seq = 0 && warmup = 0 && s.stream_fresh
  | .delay _ inner window i => window = [] && i = 0 && inner.stream_fresh
  | .tsRank _ s hist ostree warmup =>
    hist = [] && ostree = [] && warmup = 0 && s.stream_fresh
  | .tsQuantile _ _ _ s hist ostree warmup =>
    hist = [] && ostree = [] && warmup = 0 && s.stream_fresh
  | .tsLogReturn _ s cache warmup => cache = [] && warmup = 0 && s.stream_fresh
  | .sma inner _ i window sum => i = 0 && window = [] && sum = .num 0 && inner.stream_fresh

/-! ## Runtime errors

`anyhow::Error` values returned through `Result` are `RtErr.err`; process
aborts (`assert!`, `unwrap()` on `None`, `unreachable!`) are `RtErr.panic`.
The two must stay distinguishable: a caller can observe and store the
former, never the latter. -/

inductive RtErr where
  | err (msg : String)
  | panic (msg : String)
deriving DecidableEq, Repr

/-- `Operator::fchecked` (`ops/mod.rs`): fail on infinite and NaN values,
return the value otherwise.  The source's two messages are swapped
(`Infinite` reports "produced a NaN" and vice versa); the embedding keeps
the swap. -/
def fchecked (selfStr : String) : F64 → Except RtErr F64
  | .inf => .error (.err (selfStr ++ " produced a NaN"))
  | .ninf => .error (.err (selfStr ++ " produced a NaN"))
  | .nan => .error (.err (selfStr ++ " produced a inf"))
  | .num q => .ok (.num q)

/-- `for &v in col { fchecked(v)? }` in `Getter::update`. -/
def fcheckAll (selfStr : String) : List F64 → Except RtErr Unit
  | [] => .ok ()
  | v :: vs => do
    let _ ← fchecked selfStr v
    fcheckAll selfStr vs

/-! ## Element functions of the macro-generated operators -/

def ArithBinKind.func : ArithBinKind → F64 → F64 → F64
  | .add => F64.add
  | .sub => F64.sub
  | .mul => F64.mul
  | .div => fun l r =>
    (r.signum.mul l).div (if r.feq (.num 0) then .num f64Epsilon else r)

def ArithUnKind.func : ArithUnKind → F64 → F64
  | .logAbs => fun s => (s.abs.add (.num f64Epsilon)).ln
  | .sign => F64.signum
  | .abs => F64.abs
  | .neg => F64.neg

def PowKind.func : PowKind → F64 → F64 → F64
  | .pow => fun p s => s.powf p
  | .spow => fun p s => s.signum.mul (s.abs.powf p)

def LogicBinKind.func : LogicBinKind → F64 → F64 → Bool
  | .lt => F64.flt
  | .lte => F64.fle
  | .gt => F64.fgt
  | .gte => F64.fge
  | .eq => F64.feq
  | .and => fun l r => l.fgt (.num 0) && r.fgt (.num 0)
  | .or => fun l r => l.fgt (.num 0) || r.fgt (.num 0)

/-- `bool as u64 as f64`. -/
def boolToF64 (b : Bool) : F64 := .num (if b then 1 else 0)

/-! ## Elementwise update loops

Each mirrors the `for` loop in the corresponding `update`; the counter
`self.i` is incremented only in the warm-up branch, exactly as in the
source. -/

/-- Loop of `impl_arithmetic_bivariate!::update`. -/
def arithLoop (selfStr : String) (f : F64 → F64 → F64) (lro rro : ℕ) :
    List (F64 × F64) → ℕ → Except RtErr (List F64 × ℕ)
  | [], i => .ok ([], i)
  | (lval, rval) :: rest, i =>
    if i < lro ∨ i < rro then do
      let (out, i') ← arithLoop selfStr f lro rro rest (i + 1)
      pure (F64.nan :: out, i')
    else do
      let v ← fchecked selfStr (f lval rval)
      let (out, i') ← arithLoop selfStr f lro rro rest i
      pure (v :: out, i')

/-- Loop of `impl_logic_bivariate!::update` (no finite check). -/
def logicLoop (f : F64 → F64 → Bool) (lro rro : ℕ) :
    List (F64 × F64) → ℕ → List F64 × ℕ
  | [], i => ([], i)
  | (lval, rval) :: rest, i =>
    if i < lro ∨ i < rro then
      let (out, i') := logicLoop f lro rro rest (i + 1)
      (F64.nan :: out, i')
    else
      let (out, i') := logicLoop f lro rro rest i
      (boolToF64 (f lval rval) :: out, i')

/-- Loop of `impl_arithmetic_univariate!::update`. -/
def arith1Loop (selfStr : String) (f : F64 → F64) (ro : ℕ) :
    List F64 → ℕ → Except RtErr (List F64 × ℕ)
  | [], i => .ok ([], i)
  | val :: rest, i =>
    if i < ro then do
      let (out, i') ← arith1Loop selfStr f ro rest (i + 1)
      pure (F64.nan :: out, i')
    else do
      let v ← fchecked selfStr (f val)
      let (out, i') ← arith1Loop selfStr f ro rest i
      pure (v :: out, i')

/-- Loop of `Not::update`: `if val > 0. { 0. } else { 1. }`, no finite
check; NaN while `self.i < self.inner.ready_offset()`. -/
def notLoop (ro : ℕ) : List F64 → ℕ → List F64 × ℕ
  | [], i => ([], i)
  | val :: rest, i =>
    if i < ro then
      let (out, i') := notLoop ro rest (i + 1)
      (F64.nan :: out, i')
    else
      let (out, i') := notLoop ro rest i
      ((if val.fgt (.num 0) then F64.num 0 else F64.num 1) :: out, i')

/-- Loop of `If::update`: forwards the chosen branch without a finite
check; NaN while `self.i < self.ready_offset()`. -/
def ifLoop (ro : ℕ) : List ((F64 × F64) × F64) → ℕ → List F64 × ℕ
  | [], i => ([], i)
  | ((cond, tval), fval) :: rest, i =>
    if i < ro then
      let (out, i') := ifLoop ro rest (i + 1)
      (F64.nan :: out, i')
    else
      let (out, i') := ifLoop ro rest i
      ((if cond.fgt (.num 0) then tval else fval) :: out, i')

/-! ## Window update loops -/

/-- Loop of `TSSum::update` (`window/sum.rs`): push, emit the checked
running sum once `window.len() == win_size`, then evict the front. -/
def tsSumLoop (selfStr : String) (n ro : ℕ) :
    List F64 → List F64 → F64 → ℕ → Except RtErr (List F64 × List F64 × F64 × ℕ)
  | [], window, sum, i => .ok ([], window, sum, i)
  | val :: rest, window, sum, i =>
    if i < ro then do
      let (out, w, s, i') ← tsSumLoop selfStr n ro rest window sum (i + 1)
      pure (F64.nan :: out, w, s, i')
    else
      let window1 := window ++ [val]
      let sum1 := sum.add val
      if window1.length = n then do
        let v ← fchecked selfStr sum1
        match window1 with
        | [] => .error (.panic "pop_front on empty window")
        | front :: wrest => do
          let (out, w, s, i') ← tsSumLoop selfStr n ro rest wrest (sum1.sub front) i
          pure (v :: out, w, s, i')
      else do
        let (out, w, s, i') ← tsSumLoop selfStr n ro rest window1 sum1 i
        pure (F64.nan :: out, w, s, i')

/-- Loop of `Delay::update` (`window/delay.rs`): FIFO of `N + 1`; once
full, emit the checked front and pop it. -/
def delayLoop (selfStr : String) (n ro : ℕ) :
    List F64 → List F64 → ℕ → Except RtErr (List F64 × List F64 × ℕ)
  | [], window, i => .ok ([], window, i)
  | val :: rest, window, i =>
    if i < ro then do
      let (out, w, i') ← delayLoop selfStr n ro rest window (i + 1)
      pure (F64.nan :: out, w, i')
    else
      let window1 := window ++ [val]
      if window1.length = n + 1 then
        match window1 with
        | [] => .error (.panic "pop_front on empty window")
        | front :: wrest => do
          let v ← fchecked selfStr front
          let (out, w, i') ← delayLoop selfStr n ro rest wrest i
          pure (v :: out, w, i')
      else do
        let (out, w, i') ← delayLoop selfStr n ro rest window1 i
        pure (F64.nan :: out, w, i')

/-- Loop of `SMA::update` (`overlap_studies.rs`): like `TSSum` but emits
`sum / win_size` without a finite check. -/
def smaLoop (n ro : ℕ) :
    List F64 → List F64 → F64 → ℕ → Except RtErr (List F64 × List F64 × F64 × ℕ)
  | [], window, sum, i => .ok ([], window, sum, i)
  | val :: rest, window, sum, i =>
    if i < ro then do
      let (out, w, s, i') ← smaLoop n ro rest window sum (i + 1)
      pure (F64.nan :: out, w, s, i')
    else
      let window1 := window ++ [val]
      let sum1 := sum.add val
      if window1.length = n then
        match window1 with
        | [] => .error (.panic "pop_front on empty window")
        | front :: wrest => do
          let (out, w, s, i') ← smaLoop n ro rest wrest (sum1.sub front) i
          pure ((sum1.div (.num (n : ℚ))) :: out, w, s, i')
      else do
        let (out, w, s, i') ← smaLoop n ro rest window1 sum1 i
        pure (F64.nan :: out, w, s, i')

/-- Sum of a list of `F64`s, as `Iterator::sum::<f64>()` (left fold from
`0.0`). -/
def fsum (l : List F64) : F64 := l.foldl F64.add (.num 0)

/-- Loop of `TSMean::update` (`window/mean.rs`), with `j` the absolute
row position `i + warmup` of the source. -/
def tsMeanLoop (selfStr : String) (sro ro : ℕ) :
    List F64 → ℕ → List F64 → F64 → Except RtErr (List F64 × List F64 × F64)
  | [], _, hist, x => .ok ([], hist, x)
  | val :: rest, j, hist, x =>
    if j < sro then do
      let (out, h, x') ← tsMeanLoop selfStr sro ro rest (j + 1) hist x
      pure (F64.nan :: out, h, x')
    else if j < ro then do
      let (out, h, x') ← tsMeanLoop selfStr sro ro rest (j + 1) (hist ++ [val]) (x.add val)
      pure (F64.nan :: out, h, x')
    else
      let hist1 := hist ++ [val]
      let x1 := x.add val
      do
      let v ← fchecked selfStr (x1.div (.num (hist1.length : ℚ)))
      match hist1 with
      | [] => .error (.panic "pop_front on empty window")
      | front :: hrest => do
        let (out, h, x') ← tsMeanLoop selfStr sro ro rest (j + 1) hrest (x1.sub front)
        pure (v :: out, h, x')

/-- Loop of `TSStdev::update` (`window/stdev.rs`): two-pass sample
standard deviation over the live window. -/
def tsStdevLoop (selfStr : String) (sro ro : ℕ) :
    List F64 → ℕ → List F64 → F64 → Except RtErr (List F64 × List F64 × F64)
  | [], _, hist, x => .ok ([], hist, x)
  | val :: rest, j, hist, x =>
    if j < sro then do
      let (out, h, x') ← tsStdevLoop selfStr sro ro rest (j + 1) hist x
      pure (F64.nan :: out, h, x')
    else if j < ro then do
      let (out, h, x') ← tsStdevLoop selfStr sro ro rest (j + 1) (hist ++ [val]) (x.add val)
      pure (F64.nan :: out, h, x')
    else
      let hist1 := hist ++ [val]
      let x1 := x.add val
      let nq : F64 := .num (hist1.length : ℚ)
      let mu := x1.div nq
      let sum := fsum (hist1.map (fun v => (v.sub mu).powf (.num 2)))
      do
      let v ← fchecked selfStr ((sum.div (nq.sub (.num 1))).sqrt)
      match hist1 with
      | [] => .error (.panic "pop_front on empty window")
      | front :: hrest => do
        let (out, h, x') ← tsStdevLoop selfStr sro ro rest (j + 1) hrest (x1.sub front)
        pure (v :: out, h, x')

/-- Loop of `TSSkew::update` (`window/skew.rs`): two-pass skewness with
bias correction; emits `0` outright when `m2 == 0`. -/
def tsSkewLoop (selfStr : String) (sro ro : ℕ) :
    List F64 → ℕ → List F64 → F64 → Except RtErr (List F64 × List F64 × F64)
  | [], _, hist, x => .ok ([], hist, x)
  | val :: rest, j, hist, x =>
    if j < sro then do
      let (out, h, x') ← tsSkewLoop selfStr sro ro rest (j + 1) hist x
      pure (F64.nan :: out, h, x')
    else if j < ro then do
      let (out, h, x') ← tsSkewLoop selfStr sro ro rest (j + 1) (hist ++ [val]) (x.add val)
      pure (F64.nan :: out, h, x')
    else
      let hist1 := hist ++ [val]
      let x1 := x.add val
      let nq : F64 := .num (hist1.length : ℚ)
      let mu := x1.div nq
      let m3 := (fsum (hist1.map (fun v => (v.sub mu).powf (.num 3)))).div nq
      let m2 := (fsum (hist1.map (fun v => (v.sub mu).powf (.num 2)))).div nq
      do
      let v ←
        if m2.feq (.num 0) then pure (F64.num 0)
        else
          let correction := ((nq.mul (nq.sub (.num 1))).sqrt).div (nq.sub (.num 2))
          fchecked selfStr ((correction.mul m3).div (m2.powf (.num (3 / 2))))
      match hist1 with
      | [] => .error (.panic "pop_front on empty window")
      | front :: hrest => do
        let (out, h, x') ← tsSkewLoop selfStr sro ro rest (j + 1) hrest (x1.sub front)
        pure (v :: out, h, x')

/-- Loop of `TSCorrelation::update` (`window/correlation.rs`).  The first
(child warm-up) phase does not index `ys`, so an exhausted `ys` is
tolerated there; the later phases read `ys[i]` and abort when it is out
of bounds, as the source indexing would. -/
def tsCorrLoop (selfStr : String) (sro ro : ℕ) :
    List F64 → List F64 → ℕ → List (F64 × F64) → F64 → F64 →
      Except RtErr (List F64 × List (F64 × F64) × F64 × F64)
  | [], _, _, hist, x, y => .ok ([], hist, x, y)
  | xval :: xrest, ys, j, hist, x, y =>
    if j < sro then do
      let (out, hs, x', y') ← tsCorrLoop selfStr sro ro xrest ys.tail (j + 1) hist x y
      pure (F64.nan :: out, hs, x', y')
    else
      match ys with
      | [] => .error (.panic "index out of bounds")
      | yval :: yrest =>
        if j < ro then do
          let (out, hs, x', y') ←
            tsCorrLoop selfStr sro ro xrest yrest (j + 1) (hist ++ [(xval, yval)])
              (x.add xval) (y.add yval)
          pure (F64.nan :: out, hs, x', y')
        else
          let hist1 := hist ++ [(xval, yval)]
          let x1 := x.add xval
          let y1 := y.add yval
          let nq : F64 := .num (hist1.length : ℚ)
          let xbar := x1.div nq
          let ybar := y1.div nq
          let nom := fsum (hist1.map (fun e => (e.1.sub xbar).mul (e.2.sub ybar)))
          let denomx := (fsum (hist1.map (fun e => (e.1.sub xbar).powf (.num 2)))).sqrt
          let denomy := (fsum (hist1.map (fun e => (e.2.sub ybar).powf (.num 2)))).sqrt
          let denom := denomx.mul denomy
          do
          let v ←
            if denom.feq (.num 0) then pure (F64.num 0)
            else fchecked selfStr (nom.div denom)
          match hist1 with
          | [] => .error (.panic "pop_front on empty window")
          | (fx, fy) :: hrest => do
            let (out, hs, x', y') ←
              tsCorrLoop selfStr sro ro xrest yrest (j + 1) hrest (x1.sub fx) (y1.sub fy)
            pure (v :: out, hs, x', y')

/-! ## The order-statistics multiset (`order_stats_tree::OSTree` over
`Float<Ascending>` keys)

The crate is external to the repository; it is modelled as a sorted
association list of `(key, count)` pairs in the `Float<Ascending>` key
order of `float.rs`: the bit-pattern encoding orders `-inf` below every
rational, `+inf` above, and NaN above `+inf` (the single model NaN stands
for a positive-sign NaN). -/

def F64.keyClass : F64 → ℕ
  | .ninf => 0
  | .num _ => 1
  | .inf => 2
  | .nan => 3

/-- Total order induced by the `Float<Ascending>` bit encoding. -/
def F64.keyLt (a b : F64) : Bool :=
  match a, b with
  | .num x, .num y => decide (x < y)
  | _, _ => decide (a.keyClass < b.keyClass)

/-- `OSTree::increase(key, c)`: add `c` to the key's count. -/
def ostIncrease (key : F64) (c : ℕ) : List (F64 × ℕ) → List (F64 × ℕ)
  | [] => [(key, c)]
  | (k, m) :: rest =>
    if key.keyLt k then (key, c) :: (k, m) :: rest
    else if key = k then (k, m + c) :: rest
    else (k, m) :: ostIncrease key c rest

/-- `OSTree::decrease(key, c)`: subtract `c` from the key's count,
removing the key when it reaches zero. -/
def ostDecrease (key : F64) (c : ℕ) : List (F64 × ℕ) → List (F64 × ℕ)
  | [] => []
  | (k, m) :: rest =>
    if key = k then (if m ≤ c then rest else (k, m - c) :: rest)
    else (k, m) :: ostDecrease key c rest

/-- `OSTree::rank(key)`: number of stored elements strictly below `key`
(with multiplicity); `none` when the key is absent. -/
def ostRank (key : F64) : List (F64 × ℕ) → Option ℕ
  | [] => none
  | (k, m) :: rest =>
    if k.keyLt key then (ostRank key rest).map (· + m)
    else if key = k then some 0
    else none

/-- `OSTree::select(r)`: the `(key, count)` holding ascending ordinal
`r`; `none` when `r` is out of range. -/
def ostSelect (r : ℕ) : List (F64 × ℕ) → Option (F64 × ℕ)
  | [] => none
  | (k, m) :: rest => if r < m then some (k, m) else ostSelect (r - m) rest

/-- Loop of `TSRank::update` (`window/rank.rs`): insert, read back the
rank of the inserted value, evict the oldest. -/
def tsRankLoop (selfStr : String) (sro ro : ℕ) :
    List F64 → ℕ → List F64 → List (F64 × ℕ) →
      Except RtErr (List F64 × List F64 × List (F64 × ℕ))
  | [], _, hist, ostree => .ok ([], hist, ostree)
  | val :: rest, j, hist, ostree =>
    if j < sro then do
      let (out, h, t) ← tsRankLoop selfStr sro ro rest (j + 1) hist ostree
      pure (F64.nan :: out, h, t)
    else if j < ro then do
      let (out, h, t) ←
        tsRankLoop selfStr sro ro rest (j + 1) (hist ++ [val]) (ostIncrease val 1 ostree)
      pure (F64.nan :: out, h, t)
    else
      let hist1 := hist ++ [val]
      let ostree1 := ostIncrease val 1 ostree
      match ostRank val ostree1 with
      | none => .error (.panic "unwrap on None: rank of missing key")
      | some idx => do
        let v ← fchecked selfStr (.num (idx : ℚ))
        match hist1 with
        | [] => .error (.panic "pop_front on empty window")
        | front :: hrest => do
          let (out, h, t) ←
            tsRankLoop selfStr sro ro rest (j + 1) hrest (ostDecrease front 1 ostree1)
          pure (v :: out, h, t)

/-- Loop of `TSQuantile::update` (`window/quantile.rs`): insert, emit the
value at ascending ordinal `r`, evict the oldest. -/
def tsQuantileLoop (selfStr : String) (r sro ro : ℕ) :
    List F64 → ℕ → List F64 → List (F64 × ℕ) →
      Except RtErr (List F64 × List F64 × List (F64 × ℕ))
  | [], _, hist, ostree => .ok ([], hist, ostree)
  | val :: rest, j, hist, ostree =>
    if j < sro then do
      let (out, h, t) ← tsQuantileLoop selfStr r sro ro rest (j + 1) hist ostree
      pure (F64.nan :: out, h, t)
    else if j < ro then do
      let (out, h, t) ←
        tsQuantileLoop selfStr r sro ro rest (j + 1) (hist ++ [val]) (ostIncrease val 1 ostree)
      pure (F64.nan :: out, h, t)
    else
      let hist1 := hist ++ [val]
      let ostree1 := ostIncrease val 1 ostree
      match ostSelect r ostree1 with
      | none => .error (.panic "unwrap on None: select out of range")
      | some (v, _) => do
        let v ← fchecked selfStr v
        match hist1 with
        | [] => .error (.panic "pop_front on empty window")
        | front :: hrest => do
          let (out, h, t) ←
            tsQuantileLoop selfStr r sro ro rest (j + 1) hrest (ostDecrease front 1 ostree1)
          pure (v :: out, h, t)

/-- Loop of `TSLogReturn::update` (`window/returns.rs`): push, emit
`ln(back / front)` of the cache, pop the front. -/
def tsLogReturnLoop (selfStr : String) (sro ro : ℕ) :
    List F64 → ℕ → List F64 → Except RtErr (List F64 × List F64)
  | [], _, cache => .ok ([], cache)
  | val :: rest, j, cache =>
    if j < sro then do
      let (out, c) ← tsLogReturnLoop selfStr sro ro rest (j + 1) cache
      pure (F64.nan :: out, c)
    else if j < ro then do
      let (out, c) ← tsLogReturnLoop selfStr sro ro rest (j + 1) (cache ++ [val])
      pure (F64.nan :: out, c)
    else
      let cache1 := cache ++ [val]
      match cache1 with
      | [] => .error (.panic "unwrap on empty cache")
      | front :: crest => do
        let back := (front :: crest).getLast (by simp)
        let v ← fchecked selfStr ((back.div front).ln)
        let (out, c) ← tsLogReturnLoop selfStr sro ro rest (j + 1) crest
        pure (v :: out, c)

/-! ## The monotone deque of `impl_minmax!` -/

def MinMaxKind.cmp : MinMaxKind → F64 → F64 → Bool
  | .tsMin => F64.flt
  | .tsMax => F64.fgt
  | .tsArgMin => F64.flt
  | .tsArgMax => F64.fgt

/-- One deque maintenance step of `impl_minmax!::update`: bump `seq`,
expire front entries with `seq_old + win_size <= seq`, pop back entries
losing to `val` under the kind's comparison, append `(seq, val)`. -/
def mmPush (cmp : F64 → F64 → Bool) (n : ℕ) (hist : List (ℕ × F64)) (seq : ℕ) (val : F64) :
    List (ℕ × F64) × ℕ :=
  let seq1 := seq + 1
  let h1 := hist.dropWhile (fun e => decide (e.1 + n ≤ seq1))
  let h2 := (h1.reverse.dropWhile (fun e => cmp val e.2)).reverse
  (h2 ++ [(seq1, val)], seq1)

/-- The result functions of `impl_minmax!` (`$vfunc`): front value for
`TSMin`/`TSMax`, front position within the window for `TSArgMin`/`TSArgMax`;
`unwrap()` of an empty deque aborts. -/
def MinMaxKind.vfunc : MinMaxKind → List (ℕ × F64) → ℕ → ℕ → Except RtErr F64
  | .tsMin, hist, _, _ =>
    match hist with
    | [] => .error (.panic "unwrap on empty deque")
    | e :: _ => .ok e.2
  | .tsMax, hist, _, _ =>
    match hist with
    | [] => .error (.panic "unwrap on empty deque")
    | e :: _ => .ok e.2
  | .tsArgMin, hist, n, seq =>
    match hist with
    | [] => .error (.panic "unwrap on empty deque")
    | e :: _ => .ok (.num ((e.1 + n - seq - 1 : ℕ) : ℚ))
  | .tsArgMax, hist, n, seq =>
    match hist with
    | [] => .error (.panic "unwrap on empty deque")
    | e :: _ => .ok (.num ((e.1 + n - seq - 1 : ℕ) : ℚ))

/-- Loop of `impl_minmax!::update`. -/
def mmLoop (k : MinMaxKind) (selfStr : String) (n sro ro : ℕ) :
    List F64 → ℕ → List (ℕ × F64) → ℕ →
      Except RtErr (List F64 × List (ℕ × F64) × ℕ)
  | [], _, hist, seq => .ok ([], hist, seq)
  | val :: rest, j, hist, seq =>
    if j < sro then do
      let (out, h, s) ← mmLoop k selfStr n sro ro rest (j + 1) hist seq
      pure (F64.nan :: out, h, s)
    else if j < ro then
      let (h1, s1) := mmPush k.cmp n hist seq val
      do
      let (out, h, s) ← mmLoop k selfStr n sro ro rest (j + 1) h1 s1
      pure (F64.nan :: out, h, s)
    else
      let (h1, s1) := mmPush k.cmp n hist seq val
      do
      let res ← k.vfunc h1 n s1
      let v ← fchecked selfStr res
      let (out, h, s) ← mmLoop k selfStr n sro ro rest (j + 1) h1 s1
      pure (v :: out, h, s)

/-- `Operator::update`, node by node.  Mutation of `self` is modelled by
returning the updated node next to the output slice.  `rayon::join` on
the children of bivariate/ternary nodes is a fork-join on disjoint state
and is modelled by sequential evaluation.  The source's
`self.warmup += i` adds the number of rows consumed by the two warm-up
loops of the call, which is `min (rows, ready_offset - warmup)`. -/
def Op.update : Op → Batch → Except RtErr (List F64 × Op)
  | .getter name idx, tb => do
    let colid ←
      match idx with
      | some c => Except.ok c
      | none =>
        match tb.index_of name with
        | some c => Except.ok c
        | none => Except.error (.err ("No such colume " ++ name))
    match tb.values colid with
    | none => Except.error (.err ("No such colume " ++ name))
    | some col => do
      fcheckAll (Op.to_string (.getter name idx)) col
      pure (col, .getter name (some colid))
  | .constant c, tb => .ok (List.replicate tb.len c, .constant c)
  | .arith k l r i, tb => do
    let (ls, l') ← l.update tb
    let (rs, r') ← r.update tb
    let (out, i') ←
      arithLoop (Op.to_string (.arith k l r i)) k.func l'.ready_offset r'.ready_offset
        (ls.zip rs) i
    pure (out, .arith k l' r' i')
  | .arith1 k inner i, tb => do
    let (vals, inner') ← inner.update tb
    let (out, i') ←
      arith1Loop (Op.to_string (.arith1 k inner i)) k.func inner'.ready_offset vals i
    pure (out, .arith1 k inner' i')
  | .powOp k p s i, tb => do
    let (vals, s') ← s.update tb
    let (out, i') ←
      arith1Loop (Op.to_string (.powOp k p s i)) (k.func p) s'.ready_offset vals i
    pure (out, .powOp k p s' i')
  | .logic k l r i, tb => do
    let (ls, l') ← l.update tb
    let (rs, r') ← r.update tb
    let (out, i') := logicLoop k.func l'.ready_offset r'.ready_offset (ls.zip rs) i
    pure (out, .logic k l' r' i')
  | .notOp inner i, tb => do
    let (vals, inner') ← inner.update tb
    let (out, i') := notLoop inner'.ready_offset vals i
    pure (out, .notOp inner' i')
  | .ifOp c t f i, tb => do
    let (conds, c') ← c.update tb
    let (btrues, t') ← t.update tb
    let (bfalses, f') ← f.update tb
    let (out, i') := ifLoop (Op.ready_offset (.ifOp c' t' f' i)) ((conds.zip btrues).zip bfalses) i
    pure (out, .ifOp c' t' f' i')
  | .tsSum n inner window sum i, tb => do
    let (vals, inner') ← inner.update tb
    if tb.len = vals.length then do
      let (out, w', s', i') ←
        tsSumLoop (Op.to_string (.tsSum n inner window sum i)) n inner'.ready_offset
          vals window sum i
      pure (out, .tsSum n inner' w' s' i')
    else
      .error (.panic "assertion failed: tb.len() == vals.len()")
  | .tsMean n s hist x warmup, tb => do
    let (ss, s') ← s.update tb
    let ro := Op.ready_offset (.tsMean n s' hist x warmup)
    let (out, h', x') ←
      tsMeanLoop (Op.to_string (.tsMean n s hist x warmup)) s'.ready_offset ro ss warmup hist x
    pure (out, .tsMean n s' h' x' (warmup + min ss.length (ro - warmup)))
  | .tsStdev n s hist x warmup, tb => do
    let (ss, s') ← s.update tb
    let ro := Op.ready_offset (.tsStdev n s' hist x warmup)
    let (out, h', x') ←
      tsStdevLoop (Op.to_string (.tsStdev n s hist x warmup)) s'.ready_offset ro ss warmup hist x
    pure (out, .tsStdev n s' h' x' (warmup + min ss.length (ro - warmup)))
  | .tsSkew n s hist x warmup, tb => do
    let (ss, s') ← s.update tb
    let ro := Op.ready_offset (.tsSkew n s' hist x warmup)
    let (out, h', x') ←
      tsSkewLoop (Op.to_string (.tsSkew n s hist x warmup)) s'.ready_offset ro ss warmup hist x
    pure (out, .tsSkew n s' h' x' (warmup + min ss.length (ro - warmup)))
  | .tsCorr n sx sy hist x y warmup, tb => do
    let (xs, sx') ← sx.update tb
    let (ys, sy') ← sy.update tb
    let sro := max sx'.ready_offset sy'.ready_offset
    let ro := Op.ready_offset (.tsCorr n sx' sy' hist x y warmup)
    let (out, h', x', y') ←
      tsCorrLoop (Op.to_string (.tsCorr n sx sy hist x y warmup)) sro ro xs ys warmup hist x y
    pure (out, .tsCorr n sx' sy' h' x' y' (warmup + min xs.length (ro - warmup)))
  | .minmax k n s hist seq warmup, tb => do
    let (ss, s') ← s.update tb
    let ro := Op.ready_offset (.minmax k n s' hist seq warmup)
    let (out, h', seq') ←
      mmLoop k (Op.to_string (.minmax k n s hist seq warmup)) n s'.ready_offset ro
        ss warmup hist seq
    pure (out, .minmax k n s' h' seq' (warmup + min ss.length (ro - warmup)))
  | .delay n inner window i, tb => do
    let (vals, inner') ← inner.update tb
    let (out, w', i') ←
      delayLoop (Op.to_string (.delay n inner window i)) n inner'.ready_offset vals window i
    pure (out, .delay n inner' w' i')
  | .tsRank n s hist ostree warmup, tb => do
    let (ss, s') ← s.update tb
    let ro := Op.ready_offset (.tsRank n s' hist ostree warmup)
    let (out, h', t') ←
      tsRankLoop (Op.to_string (.tsRank n s hist ostree warmup)) s'.ready_offset ro
        ss warmup hist ostree
    pure (out, .tsRank n s' h' t' (warmup + min ss.length (ro - warmup)))
  | .tsQuantile n q r s hist ostree warmup, tb => do
    let (ss, s') ← s.update tb
    let ro := Op.ready_offset (.tsQuantile n q r s' hist ostree warmup)
    let (out, h', t') ←
      tsQuantileLoop (Op.to_string (.tsQuantile n q r s hist ostree warmup)) r
        s'.ready_offset ro ss warmup hist ostree
    pure (out, .tsQuantile n q r s' h' t' (warmup + min ss.length (ro - warmup)))
  | .tsLogReturn n s cache warmup, tb => do
    let (ss, s') ← s.update tb
    let ro := Op.ready_offset (.tsLogReturn n s' cache warmup)
    let (out, c') ←
      tsLogReturnLoop (Op.to_string (.tsLogReturn n s cache warmup)) s'.ready_offset ro
        ss warmup cache
    pure (out, .tsLogReturn n s' c' (warmup + min ss.length (ro - warmup)))
  | .sma inner n i window sum, tb => do
    let (vals, inner') ← inner.update tb
    let (out, w', s', i') ← smaLoop n inner'.ready_offset vals window sum i
    pure (out, .sma inner' n i' w' s')

/-- `Operator::get`, node by node.  Every node returns a clone of itself
at index `0` and otherwise delegates to the child owning pre-order index
`i - 1` — except `SMA::get` (`overlap_studies.rs`), which omits the
`let i = i - 1;` decrement and compares and recurses with the undecremented
index. -/
def Op.get : Op → ℕ → Option Op
  | .getter name idx, i => if i ≠ 0 then none else some (Op.clone (.getter name idx))
  | .constant c, i => if i > 0 then none else some (Op.clone (.constant c))
  | .arith k l r st, i =>
    if i = 0 then some (Op.clone (.arith k l r st))
    else
      let i := i - 1
      if i < l.len then l.get i
      else if i ≥ l.len ∧ i < l.len + r.len then r.get (i - l.len)
      else none
  | .arith1 k inner st, i =>
    if i = 0 then some (Op.clone (.arith1 k inner st))
    else
      let i := i - 1
      if i < inner.len then inner.get i else none
  | .powOp k p s st, i =>
    if i = 0 then some (Op.clone (.powOp k p s st))
    else
      let i := i - 1
      if i < s.len then s.get i else none
  | .logic k l r st, i =>
    if i = 0 then some (Op.clone (.logic k l r st))
    else
      let i := i - 1
      if i < l.len then l.get i
      else if i ≥ l.len ∧ i < l.len + r.len then r.get (i - l.len)
      else none
  | .notOp inner st, i =>
    if i = 0 then some (Op.clone (.notOp inner st))
    else
      let i := i - 1
      if i < inner.len then inner.get i else none
  | .ifOp c t f st, i =>
    if i = 0 then some (Op.clone (.ifOp c t f st))
    else
      let i := i - 1
      if i < c.len then c.get i
      else if i ≥ c.len ∧ i < c.len + t.len then t.get (i - c.len)
      else if i ≥ c.len + t.len ∧ i < c.len + t.len + f.len then f.get (i - c.len - t.len)
      else none
  | .tsSum n inner w su st, i =>
    if i = 0 then some (Op.clone (.tsSum n inner w su st))
    else
      let i := i - 1
      if i < inner.len then inner.get i else none
  | .tsMean n s h x w, i =>
    if i = 0 then some (Op.clone (.tsMean n s h x w))
    else
      let i := i - 1
      if i < s.len then s.get i else none
  | .tsStdev n s h x w, i =>
    if i = 0 then some (Op.clone (.tsStdev n s h x w))
    else
      let i := i - 1
      if i < s.len then s.get i else none
  | .tsSkew n s h x w, i =>
    if i = 0 then some (Op.clone (.tsSkew n s h x w))
    else
      let i := i - 1
      if i < s.len then s.get i else none
  | .tsCorr n sx sy h x y w, i =>
    if i = 0 then some (Op.clone (.tsCorr n sx sy h x y w))
    else
      let i := i - 1
      if i < sx.len then sx.get i
      else if i ≥ sx.len ∧ i < sx.len + sy.len then sy.get (i - sx.len)
      else none
  | .minmax k n s h sq w, i =>
    if i = 0 then some (Op.clone (.minmax k n s h sq w))
    else
      let i := i - 1
      if i < s.len then s.get i else none
  | .delay n inner w st, i =>
    if i = 0 then some (Op.clone (.delay n inner w st))
    else
      let i := i - 1
      if i < inner.len then inner.get i else none
  | .tsRank n s h t w, i =>
    if i = 0 then some (Op.clone (.tsRank n s h t w))
    else
      let i := i - 1
      if i < s.len then s.get i else none
  | .tsQuantile n q r s h t w, i =>
    if i = 0 then some (Op.clone (.tsQuantile n q r s h t w))
    else
      let i := i - 1
      if i < s.len then s.get i else none
  | .tsLogReturn n s c w, i =>
    if i = 0 then some (Op.clone (.tsLogReturn n s c w))
    else
      let i := i - 1
      if i < s.len then s.get i else none
  | .sma inner n st w su, i =>
    if i = 0 then some (Op.clone (.sma inner n st w su))
    else
      if i < inner.len then inner.get i else none

/-! ## Concrete inputs used by the claim theorems -/

/-- A batch with one column `a = [1.0, 2.0]`. -/
def batchA12 : Batch := { cols := [("a", [F64.num 1, F64.num 2])], nrows := 2 }

/-- The freshly constructed factor `(! (TSSum 2 :a))`. -/
def notSum2 : Op := .notOp (.tsSum 2 (.getter "a" none) [] (.num 0) 0) 0

/-- The freshly constructed factor `(SMA 3 :a)`. -/
def sma3 : Op := .sma (.getter "a" none) 3 0 [] (.num 0)

/-- The freshly constructed factor `(TSLogReturn 1 :a)`. -/
def logReturn1 : Op := .tsLogReturn 1 (.getter "a" none) [] 0

/-- A batch with one column `a = [4.0]`. -/
def batchA4 : Batch := { cols := [("a", [F64.num 4])], nrows := 1 }

/-! ## Claim C4: the replay driver (`replay.rs`)

`replay` takes a batch stream and a vector of factors (`dyn Operator`;
here an arbitrary state type `σ` with an update function) and returns
`(succeeded, failed)` maps keyed by factor position.  The `rayon`
par-iteration touches disjoint per-factor state and collects one result
per factor in index order, with this batch's failures inserted into the
failed map only after the batch; it is modelled by the equivalent
sequential pass. -/

section Replay

variable {σ E : Type}

/-- `bdr.append_values(&values, &masks)` with `masks[i] = !values[i].is_nan()`. -/
def maskAppend (bdr : List (F64 × Bool)) (values : List F64) : List (F64 × Bool) :=
  bdr ++ values.map (fun v => (v, !v.isNan))

/-- One batch of `replay`: skip factors already in `failed`, update the
rest, append their masked output, and collect this batch's failures. -/
def replayBatch (upd : σ → Batch → Except E (List F64 × σ)) (tb : Batch)
    (failed : List (ℕ × E)) :
    List (σ × List (F64 × Bool)) → ℕ → List (σ × List (F64 × Bool)) × List (ℕ × E)
  | [], _ => ([], [])
  | (op, bdr) :: rest, i =>
    let (rest', errs) := replayBatch upd tb failed rest (i + 1)
    if (failed.lookup i).isSome then ((op, bdr) :: rest', errs)
    else
      match upd op tb with
      | .ok (values, op') => ((op', maskAppend bdr values) :: rest', errs)
      | .error e => ((op, bdr) :: rest', (i, e) :: errs)

/-- The batch loop of `replay`. -/
def replayGo (upd : σ → Batch → Except E (List F64 × σ)) :
    List Batch → List (σ × List (F64 × Bool)) → List (ℕ × E) →
      List (σ × List (F64 × Bool)) × List (ℕ × E)
  | [], pairs, failed => (pairs, failed)
  | tb :: rest, pairs, failed =>
    let (pairs', errs) := replayBatch upd tb failed pairs 0
    replayGo upd rest pairs' (failed ++ errs)

/-- `builders.into_iter().enumerate().filter(not failed).map(finish)`. -/
def buildSucceeded (failed : List (ℕ × E)) :
    List (σ × List (F64 × Bool)) → ℕ → List (ℕ × List (F64 × Bool))
  | [], _ => []
  | (_, bdr) :: rest, i =>
    let out := buildSucceeded failed rest (i + 1)
    if (failed.lookup i).isNone then (i, bdr) :: out else out

/-- `replay` (`replay.rs`): run every batch over every not-yet-failed
factor and return the pair (succeeded outputs, failure map), both keyed
by the factor's position in the input vector. -/
def replay (upd : σ → Batch → Except E (List F64 × σ)) (batches : List Batch)
    (ops : List σ) : List (ℕ × List (F64 × Bool)) × List (ℕ × E) :=
  let st := replayGo upd batches (ops.map (fun op => (op, []))) []
  (buildSucceeded st.2 st.1 0, st.2)

/-- One factor replayed in isolation: final state, builder content, and
the error of the first failing update, if any — after which no further
batch is consumed. -/
def runFactor (upd : σ → Batch → Except E (List F64 × σ)) (op : σ)
    (bdr : List (F64 × Bool)) : List Batch → σ × List (F64 × Bool) × Option E
  | [] => (op, bdr, none)
  | tb :: rest =>
    match upd op tb with
    | .ok (values, op') => runFactor upd op' (maskAppend bdr values) rest
    | .error e => (op, bdr, some e)

end Replay

/-- The always-failing versus always-succeeding update used by the C4
witness. -/
def demoUpd (st : ℕ) (_ : Batch) : Except String (List F64 × ℕ) :=
  if st = 0 then .ok ([F64.num 1], st) else .error "boom"

/-! ## Claim C6: the monotone deque computes sliding-window extrema

The deque state of `impl_minmax!` over defined (finite) inputs carries
only `F64.num` values; `qPush` is its image over `ℚ`, with the kind's
comparison abstracted into a strict "better-than" test `Rlt`
(`fun a b => a < b` for `TSMin`, `fun a b => b < a` for `TSMax`). -/

def qPush (Rlt : ℚ → ℚ → Bool) (n : ℕ) (l : List (ℕ × ℚ)) (seq : ℕ) (v : ℚ) :
    List (ℕ × ℚ) :=
  let seq1 := seq + 1
  let h1 := l.dropWhile (fun e => decide (e.1 + n ≤ seq1))
  let h2 := (h1.reverse.dropWhile (fun e => Rlt v e.2)).reverse
  h2 ++ [(seq1, v)]

/-- Entries with `num` payloads, as stored in the `F64`-level deque. -/
def toE (l : List (ℕ × ℚ)) : List (ℕ × F64) := l.map (fun e => (e.1, F64.num e.2))

/-- The invariant tying the deque to the consumed input `p`: every entry
is a live window position holding its input value, entries are strictly
increasing in sequence number and sorted from best to worst, and every
live window position is dominated by a not-older entry whose value is at
least as good. -/
structure DequeInv (n : ℕ) (Rlt : ℚ → ℚ → Bool) (p : List ℚ) (l : List (ℕ × ℚ)) :
    Prop where
  entries : ∀ e ∈ l, 1 ≤ e.1 ∧ e.1 ≤ p.length ∧ p.length < e.1 + n ∧
    p.getD (e.1 - 1) 0 = e.2
  seqSorted : l.Pairwise (fun a b => a.1 < b.1)
  valSorted : l.Pairwise (fun a b => Rlt b.2 a.2 = false)
  dominant : ∀ t, p.length ≤ t + n → t < p.length →
    ∃ e ∈ l, t + 1 ≤ e.1 ∧ Rlt (p.getD t 0) e.2 = false

/-- Remove entries from the back while they lose to the new value. -/
def popBack (g : (ℕ × ℚ) → Bool) (l : List (ℕ × ℚ)) : List (ℕ × ℚ) :=
  (l.reverse.dropWhile g).reverse

/-- The live window of the last (at most) `n` inputs. -/
def wdwN (n : ℕ) (q : List ℚ) : List ℚ := q.drop (q.length - n)

/-- A batch carrying the input series as its only column `a`. -/
def batchOf (xs : List ℚ) : Batch :=
  { cols := [("a", xs.map F64.num)], nrows := xs.length }

/-- The brute-force window `x[i−N+1..=i]`. -/
def winSlice (N : ℕ) (xs : List ℚ) (i : ℕ) : List ℚ :=
  (xs.take (i + 1)).drop (i + 1 - N)

/-! ## The S-expression parser (`parser.rs` over the `lexpr` reader)

`lexpr::from_str` is an external dependency; it is modelled by a direct
lexer over the token shapes the engine uses: parentheses and
whitespace-delimited atoms, an atom being read as a number when it
matches `-? digits (. digits)?` and as a symbol otherwise.  `visit` and
the per-operator `FromIterator` constructors are translated from
`parser.rs` and the operator files; the recursion over nested
S-expressions carries explicit fuel (one unit per nesting level, always
sufficient for any lexed input). -/

inductive Token where
  | lparen
  | rparen
  | atom (s : String)
deriving DecidableEq, Repr

def isDelim (c : Char) : Bool := c.isWhitespace || c = '(' || c = ')'

/-- Emit the pending atom, if any. -/
def flushPending (pend : List Char) (rest : List Token) : List Token :=
  match pend with
  | [] => rest
  | _ => Token.atom ⟨pend.reverse⟩ :: rest

/-- One-pass lexer; `pend` holds the current atom's characters reversed. -/
def lexGo : List Char → List Char → List Token
  | pend, [] => flushPending pend []
  | pend, c :: cs =>
    if c.isWhitespace then flushPending pend (lexGo [] cs)
    else if c = '(' then flushPending pend (Token.lparen :: lexGo [] cs)
    else if c = ')' then flushPending pend (Token.rparen :: lexGo [] cs)
    else lexGo (c :: pend) cs

def lex (cs : List Char) : List Token := lexGo [] cs

/-- Numeric value of a digit run (most significant first). -/
def digitsVal (cs : List Char) : ℕ := cs.foldl (fun acc c => acc * 10 + (c.toNat - 48)) 0

/-- `-? digits (. digits)?`, consuming the whole token. -/
def parseUnsigned (cs : List Char) : Option ℚ :=
  let ip := cs.takeWhile (fun c => c.isDigit)
  let rest := cs.dropWhile (fun c => c.isDigit)
  if ip = [] then none
  else
    match rest with
    | [] => some ((digitsVal ip : ℕ) : ℚ)
    | c :: frac =>
      if c = '.' then
        if frac ≠ [] ∧ frac.all (fun d => d.isDigit) then
          some ((digitsVal ip : ℕ) + ((digitsVal frac : ℕ) : ℚ) / 10 ^ frac.length)
        else none
      else none

def parseNumToken (cs : List Char) : Option ℚ :=
  match cs with
  | '-' :: rest => (parseUnsigned rest).map (fun q => -q)
  | _ => parseUnsigned cs

/-- The fragment of `lexpr::Value` the engine consumes. -/
inductive Sexpr where
  | num (q : ℚ)
  | sym (s : String)
  | list (es : List Sexpr)
deriving Repr

/-- Atom classification: number if the token parses as one, else symbol. -/
def classifyAtom (a : String) : Sexpr :=
  match parseNumToken a.data with
  | some q => .num q
  | none => .sym a

/-- Build the (single) S-expression of a token stream, maintaining a
stack of partially read lists (each reversed). -/
def buildS (stack : List (List Sexpr)) (cur : List Sexpr) :
    List Token → Except RtErr Sexpr
  | [] =>
    match stack, cur with
    | [], [e] => .ok e
    | _, _ => .error (.err "invalid S-expression")
  | Token.lparen :: rest => buildS (cur :: stack) [] rest
  | Token.rparen :: rest =>
    match stack with
    | [] => .error (.err "invalid S-expression")
    | top :: stack' => buildS stack' (Sexpr.list cur.reverse :: top) rest
  | Token.atom a :: rest => buildS stack (classifyAtom a :: cur) rest

/-- `Parameter` (`parser.rs`). -/
inductive Parameter where
  | constant (c : ℚ)
  | symbol (s : String)
  | operator (op : Op)

/-- `Parameter::to_operator`: constants box into the `f64` operator. -/
def Parameter.to_operator : Parameter → Option Op
  | .operator op => some op
  | .symbol _ => none
  | .constant c => some (.constant (.num c))

/-- `c as usize` on an `f64`: truncate toward zero, saturating at 0. -/
def ratToUsize (q : ℚ) : ℕ := if q < 0 then 0 else q.floor.toNat

/-- `FromIterator` of the `impl_arithmetic_bivariate!` operators. -/
def fromIterArith (k : ArithBinKind) (params : List Parameter) : Except RtErr Op :=
  match params with
  | [k1, k2] =>
    match k1.to_operator with
    | none => .error (.err ("<param1> for " ++ k.name ++ " should be an operator or constant"))
    | some l =>
      match k2.to_operator with
      | none => .error (.err ("<param2> for " ++ k.name ++ " should be an operator or constant"))
      | some r => .ok (.arith k l r 0)
  | _ => .error (.err (k.name ++ " expect two series"))

/-- `FromIterator` of the `impl_logic_bivariate!` operators. -/
def fromIterLogic (k : LogicBinKind) (params : List Parameter) : Except RtErr Op :=
  match params with
  | [k1, k2] =>
    match k1.to_operator with
    | none => .error (.err ("<param1> for " ++ k.name ++ " should be an operator or constant"))
    | some l =>
      match k2.to_operator with
      | none => .error (.err ("<param2> for " ++ k.name ++ " should be an operator or constant"))
      | some r => .ok (.logic k l r 0)
  | _ => .error (.err (k.name ++ " expect two series"))

/-- `FromIterator` of the `impl_arithmetic_univariate!` operators. -/
def fromIterArith1 (k : ArithUnKind) (params : List Parameter) : Except RtErr Op :=
  match params with
  | [k1] =>
    match k1.to_operator with
    | none => .error (.err ("<param> for " ++ k.name ++ " should be an operator"))
    | some s => .ok (.arith1 k s 0)
  | _ => .error (.err (k.name ++ " expect one series"))

/-- `FromIterator` of `Pow`/`SignedPow`. -/
def fromIterPow (k : PowKind) (params : List Parameter) : Except RtErr Op :=
  match params with
  | [k1, k2] =>
    match k1 with
    | .constant c =>
      match k2.to_operator with
      | none => .error (.err ("<param> for " ++ k.name ++ " should be an operator"))
      | some s => .ok (.powOp k (.num c) s 0)
    | _ => .error (.err ("<param> for " ++ k.name ++ " should be a constant"))
  | _ => .error (.err (k.name ++ " expect one constant and one series"))

/-- `FromIterator` of `Not`. -/
def fromIterNot (params : List Parameter) : Except RtErr Op :=
  match params with
  | [k1] =>
    match k1.to_operator with
    | none => .error (.err "<param> for Not should be an operator")
    | some s => .ok (.notOp s 0)
  | _ => .error (.err "Not expect one series")

/-- `FromIterator` of `If`: pulls three parameters with
`iter.next().unwrap()` (a missing one aborts), then rejects leftovers. -/
def fromIterIf (params : List Parameter) : Except RtErr Op :=
  match params with
  | [] => .error (.panic "called Option::unwrap on a None value")
  | p1 :: rest1 =>
    match p1.to_operator with
    | none => .error (.err "<cond> for If should be an operator")
    | some cond =>
      match rest1 with
      | [] => .error (.panic "called Option::unwrap on a None value")
      | p2 :: rest2 =>
        match p2.to_operator with
        | none => .error (.err "<btrue> for If should be an operator")
        | some btrue =>
          match rest2 with
          | [] => .error (.panic "called Option::unwrap on a None value")
          | p3 :: rest3 =>
            match p3.to_operator with
            | none => .error (.err "<bfalse> for If should be an operator")
            | some bfalse =>
              match rest3 with
              | [] => .ok (.ifOp cond btrue bfalse 0)
              | _ => .error (.err "Too many parameters for If")

/-- `FromIterator` of the window operators that demand
`(Constant, Operator)` and build with `new(c as usize, sub)`:
`TSSum`, `TSMean`, `TSMin/...`, `Delay`, `TSRank`, `TSLogReturn`. -/
def windowShape (name : String) (params : List Parameter) :
    Except RtErr (ℕ × Op) :=
  match params with
  | [k1, k2] =>
    match k1, k2 with
    | .constant c, .operator sub => .ok (ratToUsize c, sub)
    | _, _ => .error (.err (name ++ " expect a constant and a series"))
  | _ => .error (.err (name ++ " expect a constant and a series"))

/-- `FromIterator` of `TSStdev`: additionally rejects `c <= 1`
(before truncation). -/
def fromIterStdev (params : List Parameter) : Except RtErr Op :=
  match params with
  | [k1, k2] =>
    match k1, k2 with
    | .constant c, .operator sub =>
      if c ≤ 1 then .error (.err "win size for TSStd should larger than 1")
      else .ok (.tsStdev (ratToUsize c) sub [] (.num 0) 0)
    | _, _ => .error (.err "TSStd expect a constant and a series")
  | _ => .error (.err "TSStd expect two series")

/-- `FromIterator` of `TSSkew`: demands `c >= 3` (before truncation). -/
def fromIterSkew (params : List Parameter) : Except RtErr Op :=
  match params with
  | [k1, k2] =>
    match k1, k2 with
    | .constant c, .operator sub =>
      if 3 ≤ c then .ok (.tsSkew (ratToUsize c) sub [] (.num 0) 0)
      else .error (.err "TSSkew for requires constant larger than 2")
    | _, _ => .error (.err "TSSkew expect a constant and a series")
  | _ => .error (.err "TSSkew expect two series")

/-- `TSQuantile::new`: `assert!(0. <= quantile && quantile <= 1.)`
aborts on violation; `r = ((win_size - 1) as f64 * quantile) as usize`
with `usize` subtraction modelled truncated. -/
def tsQuantileNew (winSize : ℕ) (quantile : ℚ) (s : Op) : Except RtErr Op :=
  if 0 ≤ quantile ∧ quantile ≤ 1 then
    .ok (.tsQuantile winSize (.num quantile) (ratToUsize (((winSize - 1 : ℕ) : ℚ) * quantile))
      s [] [] 0)
  else .error (.panic "assertion failed: 0. <= quantile && quantile <= 1.")

/-- `FromIterator` of `TSQuantile`: `(Constant, Constant, Operator)`. -/
def fromIterQuantile (params : List Parameter) : Except RtErr Op :=
  match params with
  | [k1, k2, k3] =>
    match k1, k2, k3 with
    | .constant c, .constant c2, .operator s => tsQuantileNew (ratToUsize c) c2 s
    | _, _, _ => .error (.err "TSQuantile expect two constants and a series")
  | _ => .error (.err "TSQuantile expect two constants and one series")

/-- `FromIterator` of `TSCorrelation`: `(Constant, to_operator, to_operator)`. -/
def fromIterCorr (params : List Parameter) : Except RtErr Op :=
  match params with
  | [k1, k2, k3] =>
    match k1, k2.to_operator, k3.to_operator with
    | .constant c, some sx, some sy =>
      .ok (.tsCorr (ratToUsize c) sx sy [] (.num 0) (.num 0) 0)
    | _, _, _ => .error (.err "TSCorr expect a constant and two series")
  | _ => .error (.err "TSCorr expect a constant and two series")

/-- `FromIterator` of `SMA`: `iter.next().unwrap()` pulls, so missing
parameters abort; the first must be a constant, the second an operator. -/
def fromIterSMA (params : List Parameter) : Except RtErr Op :=
  match params with
  | [] => .error (.panic "called Option::unwrap on a None value")
  | p1 :: rest1 =>
    match p1 with
    | .constant n =>
      match rest1 with
      | [] => .error (.panic "called Option::unwrap on a None value")
      | p2 :: rest2 =>
        match p2.to_operator with
        | none => .error (.err "<inner> for SMA should be an operator")
        | some inner =>
          match rest2 with
          | [] => .ok (.sma inner (ratToUsize n) 0 [] (.num 0))
          | _ => .error (.err "Too many parameters for SMA")
    | _ => .error (.err "<n> for SMA should be an constant")

/-- `FromIterator` of the `window shape` operators, assembled. -/
def fromIterWindow (name : String) (mk : ℕ → Op → Op) (params : List Parameter) :
    Except RtErr Op :=
  (windowShape name params).map (fun p => mk p.1 p.2)

/-- The dispatch table of `visit` (`parser.rs` lines 93–135): exact,
case-sensitive `NAME` constants. -/
def visitDispatch (func : String) (params : List Parameter) : Except RtErr Op :=
  if func = "+" then fromIterArith .add params
  else if func = "-" then fromIterArith .sub params
  else if func = "*" then fromIterArith .mul params
  else if func = "/" then fromIterArith .div params
  else if func = "^" then fromIterPow .pow params
  else if func = "Neg" then fromIterArith1 .neg params
  else if func = "SPow" then fromIterPow .spow params
  else if func = "LogAbs" then fromIterArith1 .logAbs params
  else if func = "Sign" then fromIterArith1 .sign params
  else if func = "Abs" then fromIterArith1 .abs params
  else if func = "If" then fromIterIf params
  else if func = "And" then fromIterLogic .and params
  else if func = "Or" then fromIterLogic .or params
  else if func = "<" then fromIterLogic .lt params
  else if func = "<=" then fromIterLogic .lte params
  else if func = ">" then fromIterLogic .gt params
  else if func = ">=" then fromIterLogic .gte params
  else if func = "==" then fromIterLogic .eq params
  else if func = "!" then fromIterNot params
  else if func = "TSSum" then
    fromIterWindow "TSSum" (fun n s => .tsSum n s [] (.num 0) 0) params
  else if func = "TSMean" then
    fromIterWindow "TSMean" (fun n s => .tsMean n s [] (.num 0) 0) params
  else if func = "TSCorr" then fromIterCorr params
  else if func = "TSMin" then
    fromIterWindow "TSMin" (fun n s => .minmax .tsMin n s [] 0 0) params
  else if func = "TSMax" then
    fromIterWindow "TSMax" (fun n s => .minmax .tsMax n s [] 0 0) params
  else if func = "TSArgMin" then
    fromIterWindow "TSArgMin" (fun n s => .minmax .tsArgMin n s [] 0 0) params
  else if func = "TSArgMax" then
    fromIterWindow "TSArgMax" (fun n s => .minmax .tsArgMax n s [] 0 0) params
  else if func = "TSStd" then fromIterStdev params
  else if func = "TSSkew" then fromIterSkew params
  else if func = "Delay" then
    fromIterWindow "Delay" (fun n s => .delay n s [] 0) params
  else if func = "TSRank" then
    fromIterWindow "TSRank" (fun n s => .tsRank n s [] [] 0) params
  else if func = "TSQuantile" then fromIterQuantile params
  else if func = "TSLogReturn" then
    fromIterWindow "TSLogReturn" (fun n s => .tsLogReturn n s [] 0) params
  else if func = "SMA" then fromIterSMA params
  else .error (.err ("Unknown function " ++ func))

/-- The parameter mapping of `visit`, per element (the closure of the
source's `.map(|p| …)`): numbers to constants, nested lists to operators
(through the recursion, passed in as `rec`), `:`-symbols to getters,
other symbols to symbolic parameters. -/
def visitParamOne (rec : Sexpr → Except RtErr Op) (p : Sexpr) : Except RtErr Parameter :=
  match p with
  | .num c => Except.ok (Parameter.constant c)
  | .list es => (rec (.list es)).map Parameter.operator
  | .sym sy =>
    match sy.data with
    | ':' :: restName => Except.ok (Parameter.operator (.getter ⟨restName⟩ none))
    | _ => Except.ok (Parameter.symbol sy)

/-- The parameter mapping of `visit` over the whole parameter list. -/
def visitParams (rec : Sexpr → Except RtErr Op) :
    List Sexpr → Except RtErr (List Parameter)
  | [] => .ok []
  | p :: rest => do
    let v ← visitParamOne rec p
    let vs ← visitParams rec rest
    .ok (v :: vs)

/-- `visit` (`parser.rs`): fuel bounds the nesting depth and is always
sufficient when called from `from_str`. -/
def visitF : ℕ → Sexpr → Except RtErr Op
  | 0, _ => .error (.panic "out of fuel")
  | fuel + 1, s =>
    match s with
    | .list [] => .error (.panic "unimplemented")
    | .list (func :: params) => do
      let fname ←
        match func with
        | .sym f => Except.ok f
        | _ => Except.error (.err "function name should be symbol")
      let ps ← visitParams (visitF fuel) params
      visitDispatch fname ps
    | _ => .error (.panic "visit on non-list")

/-- `from_str` (`parser.rs`): read one S-expression and translate it.
A bare `:name` symbol becomes a getter; numbers and other values are
rejected, mirroring the `match` in the source (`lexpr`'s empty list and
non-value cases fall into "unexpected value"). -/
def from_str (s : String) : Except RtErr Op :=
  let toks := lex s.data
  match buildS [] [] toks with
  | .error e => .error e
  | .ok sexpr =>
    match sexpr with
    | .sym sy =>
      match sy.data with
      | ':' :: restName => .ok (.getter ⟨restName⟩ none)
      | _ => .error (.err ("unexpected symbol " ++ sy))
    | .num _ => .error (.err "unexpected value")
    | .list [] => .error (.err "unexpected value")
    | .list (func :: params) => visitF (toks.length + 1) (.list (func :: params))

/-! ## Round-trip machinery: the tree the parser rebuilds from a
canonical string.

`Op.reparsed` is the node the parser constructs when reading the node's
own rendering: every hand-written constructor starts from fresh
streaming state, and a re-read `Getter` has no cached column index.
`Op.toToks`, `Op.sexprOf` and `Op.paramOf` are the token stream, the
S-expression and the `visit` parameter a rendered node turns into, and
`Op.dep` bounds the `visit` recursion depth.  `Op.wfB` cuts the
round-trip claim down to the trees it actually holds for: getter names
free of delimiters, numeric constants whose decimal rendering re-reads
exactly, window series given as operators (not bare constants), and the
constructor-validated ranges (`TSStd` effective window ≥ 2, `TSSkew`
≥ 3, `TSQuantile` with `q ∈ [0, 1]` and a consistent cached rank). -/

def Op.reparsed : Op → Op
  | .getter name _ => .getter name none
  | .constant c => .constant c
  | .arith k l r _ => .arith k l.reparsed r.reparsed 0
  | .arith1 k inner _ => .arith1 k inner.reparsed 0
  | .powOp k p s _ => .powOp k p s.reparsed 0
  | .logic k l r _ => .logic k l.reparsed r.reparsed 0
  | .notOp inner _ => .notOp inner.reparsed 0
  | .ifOp c t f _ => .ifOp c.reparsed t.reparsed f.reparsed 0
  | .tsSum n inner _ _ _ => .tsSum n inner.reparsed [] (.num 0) 0
  | .tsMean n s _ _ _ => .tsMean n s.reparsed [] (.num 0) 0
  | .tsStdev n s _ _ _ => .tsStdev n s.reparsed [] (.num 0) 0
  | .tsSkew n s _ _ _ => .tsSkew n s.reparsed [] (.num 0) 0
  | .tsCorr n sx sy _ _ _ _ => .tsCorr n sx.reparsed sy.reparsed [] (.num 0) (.num 0) 0
  | .minmax k n s _ _ _ => .minmax k n s.reparsed [] 0 0
  | .delay n inner _ _ => .delay n inner.reparsed [] 0
  | .tsRank n s _ _ _ => .tsRank n s.reparsed [] [] 0
  | .tsQuantile n q r s _ _ _ => .tsQuantile n q r s.reparsed [] [] 0
  | .tsLogReturn n s _ _ => .tsLogReturn n s.reparsed [] 0
  | .sma inner n _ _ _ => .sma inner.reparsed n 0 [] (.num 0)

def Op.isConst : Op → Bool
  | .constant _ => true
  | _ => false

def Op.toToks : Op → List Token
  | .getter name _ => [.atom (":" ++ name)]
  | .constant c => [.atom (fmtF64 c)]
  | .arith k l r _ => .lparen :: .atom k.name :: (l.toToks ++ r.toToks ++ [.rparen])
  | .arith1 k inner _ => .lparen :: .atom k.name :: (inner.toToks ++ [.rparen])
  | .powOp k p s _ =>
    .lparen :: .atom k.name :: .atom (fmtF64 p) :: (s.toToks ++ [.rparen])
  | .logic k l r _ => .lparen :: .atom k.name :: (l.toToks ++ r.toToks ++ [.rparen])
  | .notOp inner _ => .lparen :: .atom "!" :: (inner.toToks ++ [.rparen])
  | .ifOp c t f _ =>
    .lparen :: .atom "If" :: (c.toToks ++ t.toToks ++ f.toToks ++ [.rparen])
  | .tsSum n inner _ _ _ =>
    .lparen :: .atom "TSSum" :: .atom (fmtNat n) :: (inner.toToks ++ [.rparen])
  | .tsMean n s _ _ _ =>
    .lparen :: .atom "TSMean" :: .atom (fmtNat n) :: (s.toToks ++ [.rparen])
  | .tsStdev n s _ _ _ =>
    .lparen :: .atom "TSStd" :: .atom (fmtNat n) :: (s.toToks ++ [.rparen])
  | .tsSkew n s _ _ _ =>
    .lparen :: .atom "TSSkew" :: .atom (fmtNat n) :: (s.toToks ++ [.rparen])
  | .tsCorr n sx sy _ _ _ _ =>
    .lparen :: .atom "TSCorr" :: .atom (fmtNat n) :: (sx.toToks ++ sy.toToks ++ [.rparen])
  | .minmax k n s _ _ _ =>
    .lparen :: .atom k.name :: .atom (fmtNat n) :: (s.toToks ++ [.rparen])
  | .delay n inner _ _ =>
    .lparen :: .atom "Delay" :: .atom (fmtNat n) :: (inner.toToks ++ [.rparen])
  | .tsRank n s _ _ _ =>
    .lparen :: .atom "TSRank" :: .atom (fmtNat n) :: (s.toToks ++ [.rparen])
  | .tsQuantile n q _ s _ _ _ =>
    .lparen :: .atom "TSQuantile" :: .atom (fmtNat n) :: .atom (fmtF64 q) ::
      (s.toToks ++ [.rparen])
  | .tsLogReturn n s _ _ =>
    .lparen :: .atom "TSLogReturn" :: .atom (fmtNat n) :: (s.toToks ++ [.rparen])
  | .sma inner n _ _ _ =>
    .lparen :: .atom "SMA" :: .atom (fmtNat n) :: (inner.toToks ++ [.rparen])

def sexprOfF64 : F64 → Sexpr
  | .num q => .num q
  | .nan => .sym "NaN"
  | .inf => .sym "inf"
  | .ninf => .sym "-inf"

def Op.sexprOf : Op → Sexpr
  | .getter name _ => .sym (":" ++ name)
  | .constant c => sexprOfF64 c
  | .arith k l r _ => .list [.sym k.name, l.sexprOf, r.sexprOf]
  | .arith1 k inner _ => .list [.sym k.name, inner.sexprOf]
  | .powOp k p s _ => .list [.sym k.name, sexprOfF64 p, s.sexprOf]
  | .logic k l r _ => .list [.sym k.name, l.sexprOf, r.sexprOf]
  | .notOp inner _ => .list [.sym "!", inner.sexprOf]
  | .ifOp c t f _ => .list [.sym "If", c.sexprOf, t.sexprOf, f.sexprOf]
  | .tsSum n inner _ _ _ => .list [.sym "TSSum", .num (n : ℚ), inner.sexprOf]
  | .tsMean n s _ _ _ => .list [.sym "TSMean", .num (n : ℚ), s.sexprOf]
  | .tsStdev n s _ _ _ => .list [.sym "TSStd", .num (n : ℚ), s.sexprOf]
  | .tsSkew n s _ _ _ => .list [.sym "TSSkew", .num (n : ℚ), s.sexprOf]
  | .tsCorr n sx sy _ _ _ _ =>
    .list [.sym "TSCorr", .num (n : ℚ), sx.sexprOf, sy.sexprOf]
  | .minmax k n s _ _ _ => .list [.sym k.name, .num (n : ℚ), s.sexprOf]
  | .delay n inner _ _ => .list [.sym "Delay", .num (n : ℚ), inner.sexprOf]
  | .tsRank n s _ _ _ => .list [.sym "TSRank", .num (n : ℚ), s.sexprOf]
  | .tsQuantile n q _ s _ _ _ =>
    .list [.sym "TSQuantile", .num (n : ℚ), sexprOfF64 q, s.sexprOf]
  | .tsLogReturn n s _ _ => .list [.sym "TSLogReturn", .num (n : ℚ), s.sexprOf]
  | .sma inner n _ _ _ => .list [.sym "SMA", .num (n : ℚ), inner.sexprOf]

def Op.paramOf : Op → Parameter
  | .constant (.num q) => .constant q
  | t => .operator t.reparsed

/-- Nesting depth of the rendered S-expression (atoms are depth 0);
`visit` needs this much fuel. -/
def Op.dep : Op → ℕ
  | .getter _ _ => 0
  | .constant _ => 0
  | .arith _ l r _ => max l.dep r.dep + 1
  | .arith1 _ inner _ => inner.dep + 1
  | .powOp _ _ s _ => s.dep + 1
  | .logic _ l r _ => max l.dep r.dep + 1
  | .notOp inner _ => inner.dep + 1
  | .ifOp c t f _ => max (max c.dep t.dep) f.dep + 1
  | .tsSum _ inner _ _ _ => inner.dep + 1
  | .tsMean _ s _ _ _ => s.dep + 1
  | .tsStdev _ s _ _ _ => s.dep + 1
  | .tsSkew _ s _ _ _ => s.dep + 1
  | .tsCorr _ sx sy _ _ _ _ => max sx.dep sy.dep + 1
  | .minmax _ _ s _ _ _ => s.dep + 1
  | .delay _ inner _ _ => inner.dep + 1
  | .tsRank _ s _ _ _ => s.dep + 1
  | .tsQuantile _ _ _ s _ _ _ => s.dep + 1
  | .tsLogReturn _ s _ _ => s.dep + 1
  | .sma inner _ _ _ _ => inner.dep + 1

def goodQB (q : ℚ) : Bool := decide (parseNumToken (fmtQ q).data = some q)

def goodF64 : F64 → Bool
  | .num q => goodQB q
  | _ => false

def goodNameB (s : String) : Bool := s.data.all (fun c => !isDelim c)

def Op.wfB : Op → Bool
  | .getter name _ => goodNameB name
  | .constant c => goodF64 c
  | .arith _ l r _ => l.wfB && r.wfB
  | .arith1 _ inner _ => inner.wfB
  | .powOp _ p s _ => goodF64 p && s.wfB
  | .logic _ l r _ => l.wfB && r.wfB
  | .notOp inner _ => inner.wfB
  | .ifOp c t f _ => c.wfB && t.wfB && f.wfB
  | .tsSum _ inner _ _ _ => !inner.isConst && inner.wfB
  | .tsMean _ s _ _ _ => !s.isConst && s.wfB
  | .tsStdev n s _ _ _ => decide (2 ≤ n) && (!s.isConst && s.wfB)
  | .tsSkew n s _ _ _ => decide (3 ≤ n) && (!s.isConst && s.wfB)
  | .tsCorr _ sx sy _ _ _ _ => sx.wfB && sy.wfB
  | .minmax _ _ s _ _ _ => !s.isConst && s.wfB
  | .delay _ inner _ _ => !inner.isConst && inner.wfB
  | .tsRank _ s _ _ _ => !s.isConst && s.wfB
  | .tsQuantile n q r s _ _ _ =>
    (match q with
     | .num q2 =>
       goodQB q2 && decide (0 ≤ q2 ∧ q2 ≤ 1) &&
         decide (r = ratToUsize (((n - 1 : ℕ) : ℚ) * q2))
     | _ => false) && (!s.isConst && s.wfB)
  | .tsLogReturn _ s _ _ => !s.isConst && s.wfB
  | .sma inner _ _ _ _ => inner.wfB

/-! ## Lexing a rendered tree -/

def delimStart : List Char → Bool
  | [] => true
  | c :: _ => isDelim c

/-- The lexer turns a rendered subtree into its token run, whatever
delimiter-headed text follows. -/
def LexOk (t : Op) : Prop :=
  ∀ rest, delimStart rest = true →
    lexGo [] (t.to_string.data ++ rest) = t.toToks ++ lexGo [] rest

/-- Reading the tokens of a rendered subtree pushes its S-expression. -/
def BuildOk (t : Op) : Prop :=
  ∀ stack cur rest, buildS stack cur (t.toToks ++ rest) = buildS stack (t.sexprOf :: cur) rest

/-- The parameter mapping turns a rendered subtree's S-expression into
its `visit` parameter (given enough fuel for nested operators). -/
def VisOk (fuel : ℕ) (t : Op) : Prop :=
  visitParamOne (visitF fuel) t.sexprOf = .ok t.paramOf

/-- Claim C1: the spec's warm-up invariant demands that every output entry
of a factor at a position at or beyond `ready_offset()` be a defined
(non-NaN) number.  The code violates it: `Not::ready_offset` returns `0`
while `Not::update` still emits NaN for the child's warm-up rows, so
`(! (TSSum 2 :a))` on the batch `a = [1, 2]` reports `ready_offset() = 0`
yet its first output — position `0`, which is at (hence beyond) the
reported offset — is NaN.  This theorem evaluates the embedded code at
that failing input. -/
theorem C1_not_ready_offset_violated :
    notSum2.ready_offset = 0 ∧
    (notSum2.update batchA12).map Prod.fst = .ok [F64.nan, F64.num 0] ∧
    F64.nan.isNan = true := by
  refine ⟨rfl, ?_, rfl⟩
  with_unfolding_all rfl

/-- Claim C2: the spec says `get(i)` returns a clone of the `i`-th
pre-order node for every `i < len()`.  `SMA::get` omits the index
decrement that every other operator performs, so on the two-node tree
`(SMA 3 :a)` — whose pre-order node `1` is the getter `:a` — `get(1)`
returns nothing.  This theorem evaluates the embedded code at that
failing input. -/
theorem C2_sma_get_violated :
    sma3.len = 2 ∧ sma3.get 0 = some sma3 ∧ sma3.get 1 = none := by
  refine ⟨rfl, ?_, ?_⟩ <;> with_unfolding_all rfl

/-- Claim C5: the spec says `LogReturn(1, x)` emits NaN at position 0 and
`ln(x[i] / x[i-1])` for `i ≥ 1`, via a FIFO of `N + 1` values.
`TSLogReturn` declares `ready_offset = child + N - 1` and its cache holds
only `N` values when it computes, so it emits `ln(x[i] / x[i-(N-1)])`;
for `N = 1` that is `ln(x[i]/x[i]) = 0` at every position, with no NaN
at position 0.  This theorem evaluates the embedded code on
`a = [1, 2]`: the output is `[0, 0]`, and its first entry is a defined
number, not NaN. -/
theorem C5_logreturn_window_off_by_one :
    logReturn1.ready_offset = 0 ∧
    (logReturn1.update batchA12).map Prod.fst = .ok [F64.num 0, F64.num 0] ∧
    (F64.num 0).isNan = false := by
  refine ⟨rfl, ?_, rfl⟩
  with_unfolding_all rfl

/-- Claim C8: `fchecked(x)` returns an error exactly when `x` is
infinite or NaN, and returns `x` unchanged otherwise — for every
operator (the receiver only contributes the message string `s`). -/
theorem C8_fchecked_iff (s : String) (x : F64) :
    ((∃ e, fchecked s x = .error e) ↔ (x.isInfinite = true ∨ x.isNan = true)) ∧
    (fchecked s x = .ok x ↔ x.isFinite = true) := by
  cases x <;> simp [fchecked, F64.isInfinite, F64.isNan, F64.isFinite]

/-! ## Claim C9: the getter checks every raw input value -/

theorem fcheckAll_ok_of_finite (s : String) (l : List F64)
    (h : ∀ v ∈ l, v.isFinite = true) : fcheckAll s l = .ok () := by
  induction l with
  | nil => rfl
  | cons v vs ih =>
    have hv := h v (List.mem_cons_self v vs)
    have hrest : fcheckAll s vs = .ok () := ih fun v hv => h v (List.mem_cons_of_mem _ hv)
    cases v <;>
      simp_all [fcheckAll, fchecked, F64.isFinite, bind, Except.bind]

theorem fcheckAll_error_of_bad (s : String) (l : List F64)
    (h : ∃ v ∈ l, v.isFinite = false) : ∃ e, fcheckAll s l = .error e := by
  induction l with
  | nil => simp at h
  | cons v vs ih =>
    rcases h with ⟨w, hw, hwf⟩
    rcases List.mem_cons.1 hw with rfl | hmem
    · cases w <;>
        simp_all [fcheckAll, fchecked, F64.isFinite, bind, Except.bind]
    · cases v with
      | num q =>
        rcases ih ⟨w, hmem, hwf⟩ with ⟨e, he⟩
        exact ⟨e, by simp [fcheckAll, fchecked, bind, Except.bind, he]⟩
      | nan => exact ⟨_, rfl⟩
      | inf => exact ⟨_, rfl⟩
      | ninf => exact ⟨_, rfl⟩

/-- Claim C9: for a batch in which the referenced column exists,
`Getter::update` returns an error exactly when some raw value stored in
the column is NaN or infinite — the finite check runs over every input
value, not only computed results — and otherwise returns the column
slice unchanged, with one output per row. -/
theorem C9_getter_checks_all_inputs (name : String) (tb : Batch) (j : ℕ) (col : List F64)
    (hidx : tb.index_of name = some j) (hval : tb.values j = some col) (hw : tb.wf) :
    ((∃ e, (Op.getter name none).update tb = .error e) ↔ (∃ v ∈ col, v.isFinite = false)) ∧
    ((∀ v ∈ col, v.isFinite = true) →
      (Op.getter name none).update tb = .ok (col, .getter name (some j)) ∧
      col.length = tb.len) := by
  have hcollen : col.length = tb.len := by
    have hval' : (tb.cols.get? j).map (fun c => c.2) = some col := hval
    rcases Option.map_eq_some'.1 hval' with ⟨c, hc, hcol⟩
    have hmem : c ∈ tb.cols := List.get?_mem hc
    have h2 := hw c hmem
    rw [← hcol]
    exact h2
  have hup : (Op.getter name none).update tb =
      (fun _ => (col, Op.getter name (some j))) <$>
        fcheckAll (Op.to_string (.getter name none)) col := by
    simp only [Op.update, hidx, hval, bind, Except.bind]
    cases fcheckAll (Op.getter name none).to_string col <;>
      simp [Functor.map, Except.map, pure, Except.pure]
  constructor
  · constructor
    · intro ⟨e, he⟩
      by_contra hbad
      push_neg at hbad
      have hall : ∀ v ∈ col, v.isFinite = true := by
        intro v hv
        exact Bool.ne_false_iff.1 (hbad v hv)
      rw [hup, fcheckAll_ok_of_finite _ _ hall] at he
      simp [Functor.map, Except.map] at he
    · intro hbad
      rcases fcheckAll_error_of_bad (Op.to_string (.getter name none)) col hbad with ⟨e, he⟩
      refine ⟨e, ?_⟩
      rw [hup, he]
      rfl
  · intro hall
    refine ⟨?_, hcollen⟩
    rw [hup, fcheckAll_ok_of_finite _ _ hall]
    rfl

/-- Witness for C9 at the concrete batch `a = [4.0]`. -/
theorem C9_getter_checks_all_inputs_witness :
    ((∃ e, (Op.getter "a" none).update batchA4 = .error e) ↔
      (∃ v ∈ [F64.num 4], v.isFinite = false)) ∧
    ((∀ v ∈ [F64.num 4], v.isFinite = true) →
      (Op.getter "a" none).update batchA4 = .ok ([F64.num 4], .getter "a" (some 0)) ∧
      ([F64.num 4] : List F64).length = batchA4.len) :=
  C9_getter_checks_all_inputs "a" batchA4 0 [F64.num 4]
    (by with_unfolding_all rfl) (by with_unfolding_all rfl)
    (by intro c hc; simp [batchA4] at hc; simp [hc, batchA4])

/-! ## Claim C10: cloning resets streaming state -/

theorem clone_to_string (t : Op) : t.clone.to_string = t.to_string := by
  induction t <;> simp [Op.clone, Op.to_string, *]

theorem clone_stream_fresh (t : Op) : t.clone.stream_fresh = true := by
  induction t <;> simp [Op.clone, Op.stream_fresh, *]

theorem clone_of_stream_fresh (t : Op) (h : t.stream_fresh = true) : t.clone = t := by
  induction t <;> simp_all [Op.clone, Op.stream_fresh]

theorem clone_clone (t : Op) : t.clone.clone = t.clone :=
  clone_of_stream_fresh _ (clone_stream_fresh t)

theorem get_is_fresh_clone (t : Op) : ∀ (i : ℕ) (u : Op),
    t.get i = some u → u.stream_fresh = true ∧ u.clone = u := by
  induction t <;> intro i u h <;> simp only [Op.get] at h <;> split_ifs at h <;>
    first
      | (injection h with h2; subst h2; exact ⟨clone_stream_fresh _, clone_clone _⟩)
      | solve_by_elim

/-- Claim C10: cloning any operator node — and therefore every subtree
returned by `get` — yields a node with the same canonical string but
freshly initialized streaming state (empty windows and deques, empty
order-statistics trees, zeroed counters and running sums), regardless of
how many rows the original consumed; cloning is idempotent, so a clone
taken mid-replay is exactly the newly initialized tree of the same
shape.  (`Getter`'s cached column index is a schema cache copied by its
derived `Clone` and is not streaming state.) -/
theorem C10_clone_resets_state (t : Op) :
    t.clone.to_string = t.to_string ∧
    t.clone.stream_fresh = true ∧
    t.clone.clone = t.clone ∧
    (∀ i u, t.get i = some u → u.stream_fresh = true ∧ u.clone = u) :=
  ⟨clone_to_string t, clone_stream_fresh t, clone_clone t,
    fun i u h => get_is_fresh_clone t i u h⟩

/-- Witness for C10: the subtree of `(SMA 3 :a)` at index 0, after the
node consumed a batch, is a stream-fresh clone. -/
theorem C10_clone_resets_state_witness :
    (Op.sma (.getter "a" (some 0)) 3 1 [F64.num 1] (F64.num 1)).clone.to_string =
        (Op.sma (.getter "a" (some 0)) 3 1 [F64.num 1] (F64.num 1)).to_string ∧
      (Op.sma (.getter "a" (some 0)) 3 1 [F64.num 1] (F64.num 1)).clone.stream_fresh = true ∧
      (Op.sma (.getter "a" (some 0)) 3 1 [F64.num 1]
            (F64.num 1)).clone.clone =
        (Op.sma (.getter "a" (some 0)) 3 1 [F64.num 1] (F64.num 1)).clone ∧
      (∀ i u,
        (Op.sma (.getter "a" (some 0)) 3 1 [F64.num 1] (F64.num 1)).get i = some u →
          u.stream_fresh = true ∧ u.clone = u) :=
  C10_clone_resets_state (Op.sma (.getter "a" (some 0)) 3 1 [F64.num 1] (F64.num 1))

section Replay

variable {σ E : Type}

theorem runFactor_append_of_err (upd : σ → Batch → Except E (List F64 × σ))
    (op : σ) (bdr : List (F64 × Bool)) (bs more : List Batch)
    (h : (runFactor upd op bdr bs).2.2 ≠ none) :
    runFactor upd op bdr (bs ++ more) = runFactor upd op bdr bs := by
  induction bs generalizing op bdr with
  | nil => simp [runFactor] at h
  | cons tb rest ih =>
    rw [List.cons_append]
    simp only [runFactor] at h ⊢
    cases hu : upd op tb with
    | ok v =>
      obtain ⟨values, op'⟩ := v
      simp only [hu] at h ⊢
      exact ih _ _ h
    | error e => simp only [hu] at h ⊢

theorem replayBatch_fst_get? (upd : σ → Batch → Except E (List F64 × σ)) (tb : Batch)
    (failed : List (ℕ × E)) (pairs : List (σ × List (F64 × Bool))) (i0 i : ℕ) :
    (replayBatch upd tb failed pairs i0).1.get? i = (pairs.get? i).map (fun p =>
      if (failed.lookup (i0 + i)).isSome then p
      else
        match upd p.1 tb with
        | .ok (values, op') => (op', maskAppend p.2 values)
        | .error _ => p) := by
  induction pairs generalizing i0 i with
  | nil => simp [replayBatch]
  | cons hd rest ih =>
    obtain ⟨op, bdr⟩ := hd
    have harith : i0 + 1 + (i - 1) = i0 + i ∨ i = 0 := by omega
    rw [replayBatch]
    cases hf : (failed.lookup i0).isSome with
    | true =>
      cases i with
      | zero => simp [hf]
      | succ i =>
        simp only [hf, if_true, List.get?_cons_succ]
        rw [ih (i0 + 1) i]
        have : i0 + 1 + i = i0 + (i + 1) := by omega
        rw [this]
    | false =>
      cases hu : upd op tb with
      | ok v =>
        obtain ⟨values, op'⟩ := v
        cases i with
        | zero => simp [hf, hu]
        | succ i =>
          simp only [hf, Bool.false_eq_true, if_false, hu, List.get?_cons_succ]
          rw [ih (i0 + 1) i]
          have : i0 + 1 + i = i0 + (i + 1) := by omega
          rw [this]
      | error e =>
        cases i with
        | zero => simp [hf, hu]
        | succ i =>
          simp only [hf, Bool.false_eq_true, if_false, hu, List.get?_cons_succ]
          rw [ih (i0 + 1) i]
          have : i0 + 1 + i = i0 + (i + 1) := by omega
          rw [this]

end Replay

section Replay

variable {σ E : Type}

theorem lookup_append (l1 l2 : List (ℕ × E)) (a : ℕ) :
    List.lookup a (l1 ++ l2) = (List.lookup a l1).or (List.lookup a l2) := by
  induction l1 with
  | nil => simp [List.lookup]
  | cons hd rest ih =>
    obtain ⟨k, b⟩ := hd
    by_cases hk : a = k
    · subst hk
      simp [List.lookup]
    · have : (a == k) = false := beq_eq_false_iff_ne.2 hk
      simp [List.lookup, this, ih]

theorem replayBatch_errs_lookup_lt (upd : σ → Batch → Except E (List F64 × σ)) (tb : Batch)
    (failed : List (ℕ × E)) (pairs : List (σ × List (F64 × Bool))) (i0 j : ℕ) (hj : j < i0) :
    (replayBatch upd tb failed pairs i0).2.lookup j = none := by
  induction pairs generalizing i0 with
  | nil => simp [replayBatch, List.lookup]
  | cons hd rest ih =>
    obtain ⟨op, bdr⟩ := hd
    rw [replayBatch]
    have hrec := ih (i0 + 1) (by omega)
    cases hf : (failed.lookup i0).isSome with
    | true => simpa [hf] using hrec
    | false =>
      cases hu : upd op tb with
      | ok v =>
        obtain ⟨values, op'⟩ := v
        simpa [hf, hu] using hrec
      | error e =>
        have hne : (j == i0) = false := beq_eq_false_iff_ne.2 (by omega)
        simp [hf, hu, List.lookup, hne, hrec]

theorem replayBatch_errs_lookup (upd : σ → Batch → Except E (List F64 × σ)) (tb : Batch)
    (failed : List (ℕ × E)) (pairs : List (σ × List (F64 × Bool))) (i0 i : ℕ) :
    (replayBatch upd tb failed pairs i0).2.lookup (i0 + i) =
      match pairs.get? i with
      | none => none
      | some p =>
        if (failed.lookup (i0 + i)).isSome then none
        else
          match upd p.1 tb with
          | .ok _ => none
          | .error e => some e := by
  induction pairs generalizing i0 i with
  | nil => simp [replayBatch, List.lookup]
  | cons hd rest ih =>
    obtain ⟨op, bdr⟩ := hd
    rw [replayBatch]
    cases i with
    | zero =>
      have hrec := replayBatch_errs_lookup_lt upd tb failed rest (i0 + 1) i0 (by omega)
      cases hf : (failed.lookup i0).isSome with
      | true => simpa [hf] using hrec
      | false =>
        cases hu : upd op tb with
        | ok v =>
          obtain ⟨values, op'⟩ := v
          simpa [hf, hu] using hrec
        | error e => simp [hf, hu, List.lookup, hrec]
    | succ i =>
      have harith : i0 + 1 + i = i0 + (i + 1) := by omega
      have hrec := ih (i0 + 1) i
      rw [harith] at hrec
      cases hf : (failed.lookup i0).isSome with
      | true => simpa [hf] using hrec
      | false =>
        cases hu : upd op tb with
        | ok v =>
          obtain ⟨values, op'⟩ := v
          simpa [hf, hu] using hrec
        | error e =>
          have hne : (i0 + (i + 1) == i0) = false := beq_eq_false_iff_ne.2 (by omega)
          simp only [hf, Bool.false_eq_true, if_false, hu, List.lookup, hne]
          simpa using hrec

theorem buildSucceeded_lookup_lt (failed : List (ℕ × E))
    (pairs : List (σ × List (F64 × Bool))) (i0 j : ℕ) (hj : j < i0) :
    (buildSucceeded failed pairs i0).lookup j = none := by
  induction pairs generalizing i0 with
  | nil => simp [buildSucceeded, List.lookup]
  | cons hd rest ih =>
    obtain ⟨op, bdr⟩ := hd
    rw [buildSucceeded]
    have hrec := ih (i0 + 1) (by omega)
    cases hf : (failed.lookup i0).isNone with
    | false => simpa [hf] using hrec
    | true =>
      have hne : (j == i0) = false := beq_eq_false_iff_ne.2 (by omega)
      simp [hf, List.lookup, hne, hrec]

theorem buildSucceeded_lookup (failed : List (ℕ × E))
    (pairs : List (σ × List (F64 × Bool))) (i0 i : ℕ) :
    (buildSucceeded failed pairs i0).lookup (i0 + i) =
      if (failed.lookup (i0 + i)).isNone then (pairs.get? i).map (fun p => p.2) else none := by
  induction pairs generalizing i0 i with
  | nil => simp [buildSucceeded, List.lookup]
  | cons hd rest ih =>
    obtain ⟨op, bdr⟩ := hd
    rw [buildSucceeded]
    cases i with
    | zero =>
      have hrec := buildSucceeded_lookup_lt failed rest (i0 + 1) i0 (by omega)
      cases hf : (failed.lookup i0).isNone with
      | true => simp [hf, List.lookup, hrec]
      | false => simpa [hf] using hrec
    | succ i =>
      have harith : i0 + 1 + i = i0 + (i + 1) := by omega
      have hrec := ih (i0 + 1) i
      rw [harith] at hrec
      cases hf : (failed.lookup i0).isNone with
      | false => simpa [hf] using hrec
      | true =>
        have hne : (i0 + (i + 1) == i0) = false := beq_eq_false_iff_ne.2 (by omega)
        simp only [hf, if_true, List.lookup, hne]
        simpa using hrec

end Replay

section Replay

variable {σ E : Type}

theorem replayGo_spec_failed (upd : σ → Batch → Except E (List F64 × σ))
    (batches : List Batch) :
    ∀ (pairs : List (σ × List (F64 × Bool))) (failed : List (ℕ × E)) (i : ℕ)
      (p : σ × List (F64 × Bool)) (e : E),
      failed.lookup i = some e → pairs.get? i = some p →
      (replayGo upd batches pairs failed).1.get? i = some p ∧
      (replayGo upd batches pairs failed).2.lookup i = some e := by
  induction batches with
  | nil => intro pairs failed i p e hf hp; exact ⟨hp, hf⟩
  | cons tb rest ih =>
    intro pairs failed i p e hf hp
    rw [replayGo]
    have hp' : (replayBatch upd tb failed pairs 0).1.get? i = some p := by
      rw [replayBatch_fst_get?, Nat.zero_add]
      simp only [hp, Option.map_some', hf, Option.isSome_some, if_true]
    have herr : (replayBatch upd tb failed pairs 0).2.lookup i = none := by
      have h0 := replayBatch_errs_lookup upd tb failed pairs 0 i
      rw [Nat.zero_add] at h0
      simp only [hp, hf, Option.isSome_some, if_true] at h0
      exact h0
    have hf' : (failed ++ (replayBatch upd tb failed pairs 0).2).lookup i = some e := by
      rw [lookup_append, hf]
      rfl
    exact ih _ _ i p e hf' hp'

theorem replayGo_spec (upd : σ → Batch → Except E (List F64 × σ))
    (batches : List Batch) :
    ∀ (pairs : List (σ × List (F64 × Bool))) (failed : List (ℕ × E)) (i : ℕ)
      (p : σ × List (F64 × Bool)),
      failed.lookup i = none → pairs.get? i = some p →
      (replayGo upd batches pairs failed).1.get? i =
        some ((runFactor upd p.1 p.2 batches).1, (runFactor upd p.1 p.2 batches).2.1) ∧
      (replayGo upd batches pairs failed).2.lookup i = (runFactor upd p.1 p.2 batches).2.2 := by
  induction batches with
  | nil =>
    intro pairs failed i p hf hp
    obtain ⟨op, bdr⟩ := p
    exact ⟨hp, hf⟩
  | cons tb rest ih =>
    intro pairs failed i p hf hp
    rw [replayGo]
    cases hu : upd p.1 tb with
    | ok v =>
      obtain ⟨values, op'⟩ := v
      have hp' : (replayBatch upd tb failed pairs 0).1.get? i =
          some (op', maskAppend p.2 values) := by
        rw [replayBatch_fst_get?, Nat.zero_add]
        simp only [hp, Option.map_some', hf, Option.isSome_none, Bool.false_eq_true,
          if_false, hu]
      have herr : (replayBatch upd tb failed pairs 0).2.lookup i = none := by
        have h0 := replayBatch_errs_lookup upd tb failed pairs 0 i
        rw [Nat.zero_add] at h0
        simp only [hp, hf, Option.isSome_none, Bool.false_eq_true, if_false, hu] at h0
        exact h0
      have hf' : (failed ++ (replayBatch upd tb failed pairs 0).2).lookup i = none := by
        rw [lookup_append, hf, herr]
        rfl
      have hmain := ih _ _ i (op', maskAppend p.2 values) hf' hp'
      have hrun : runFactor upd p.1 p.2 (tb :: rest) =
          runFactor upd op' (maskAppend p.2 values) rest := by
        simp [runFactor, hu]
      rw [hrun]
      exact hmain
    | error e =>
      have hp' : (replayBatch upd tb failed pairs 0).1.get? i = some p := by
        rw [replayBatch_fst_get?, Nat.zero_add]
        simp only [hp, Option.map_some', hf, Option.isSome_none, Bool.false_eq_true,
          if_false, hu]
      have herr : (replayBatch upd tb failed pairs 0).2.lookup i = some e := by
        have h0 := replayBatch_errs_lookup upd tb failed pairs 0 i
        rw [Nat.zero_add] at h0
        simp only [hp, hf, Option.isSome_none, Bool.false_eq_true, if_false, hu] at h0
        exact h0
      have hf' : (failed ++ (replayBatch upd tb failed pairs 0).2).lookup i = some e := by
        rw [lookup_append, hf, herr]
        rfl
      have hmain := replayGo_spec_failed upd rest _ _ i p e hf' hp'
      have hrun : runFactor upd p.1 p.2 (tb :: rest) = (p.1, p.2, some e) := by
        simp [runFactor, hu]
      rw [hrun]
      obtain ⟨op, bdr⟩ := p
      simpa using hmain

end Replay

/-- Claim C4: for every replay over a finite batch sequence and factor
vector, the returned pair partitions the factor indices — the failed map
holds index `i` exactly when some update of factor `i` returned an error
(and then holds that first error), the succeeded map holds exactly the
remaining indices with the factor's accumulated masked output, no index
is in both — and a factor that fails on one batch is never updated on a
later batch: extending the batch sequence after its failure leaves its
state, output and recorded error unchanged. -/
theorem C4_replay_partitions {σ E : Type} (upd : σ → Batch → Except E (List F64 × σ))
    (batches : List Batch) (ops : List σ) (i : ℕ) (h : i < ops.length) :
    (replay upd batches ops).2.lookup i =
        (runFactor upd (ops.get ⟨i, h⟩) [] batches).2.2 ∧
    (replay upd batches ops).1.lookup i =
      (if (runFactor upd (ops.get ⟨i, h⟩) [] batches).2.2.isNone
        then some (runFactor upd (ops.get ⟨i, h⟩) [] batches).2.1 else none) ∧
    ¬(((replay upd batches ops).1.lookup i).isSome = true ∧
      ((replay upd batches ops).2.lookup i).isSome = true) ∧
    (∀ more, (runFactor upd (ops.get ⟨i, h⟩) [] batches).2.2 ≠ none →
      runFactor upd (ops.get ⟨i, h⟩) [] (batches ++ more) =
        runFactor upd (ops.get ⟨i, h⟩) [] batches) := by
  have hinit : (ops.map (fun op => (op, ([] : List (F64 × Bool))))).get? i =
      some (ops.get ⟨i, h⟩, []) := by
    rw [List.get?_eq_getElem?, List.getElem?_map]
    rw [List.getElem?_eq_getElem h]
    rfl
  have hspec := replayGo_spec upd batches (ops.map (fun op => (op, []))) [] i
    (ops.get ⟨i, h⟩, []) (by simp [List.lookup]) hinit
  dsimp only at hspec
  have hfail : (replay upd batches ops).2.lookup i =
      (runFactor upd (ops.get ⟨i, h⟩) [] batches).2.2 := hspec.2
  have hsucc : (replay upd batches ops).1.lookup i =
      (if (runFactor upd (ops.get ⟨i, h⟩) [] batches).2.2.isNone
        then some (runFactor upd (ops.get ⟨i, h⟩) [] batches).2.1 else none) := by
    have hb := buildSucceeded_lookup
      (replayGo upd batches (ops.map (fun op => (op, []))) []).2
      (replayGo upd batches (ops.map (fun op => (op, []))) []).1 0 i
    rw [Nat.zero_add] at hb
    show (buildSucceeded (replayGo upd batches (ops.map (fun op => (op, []))) []).2
      (replayGo upd batches (ops.map (fun op => (op, []))) []).1 0).lookup i = _
    rw [hb, hspec.2, hspec.1]
    cases hr : (runFactor upd (ops.get ⟨i, h⟩) [] batches).2.2 with
    | none => simp
    | some e => simp
  refine ⟨hfail, hsucc, ?_, ?_⟩
  · rintro ⟨h1, h2⟩
    rw [hsucc] at h1
    rw [hfail] at h2
    cases hr : (runFactor upd (ops.get ⟨i, h⟩) [] batches).2.2 with
    | none => rw [hr] at h2; simp at h2
    | some e => rw [hr] at h1; simp at h1
  · intro more hne
    exact runFactor_append_of_err upd _ _ batches more hne

/-- Witness for C4 at the factor vector `[0, 1]` (the second always
fails) over two batches. -/
theorem C4_replay_partitions_witness :
    (replay demoUpd [batchA4, batchA4] [0, 1]).2.lookup 1 =
      (runFactor demoUpd (([0, 1] : List ℕ).get ⟨1, by simp⟩) []
        [batchA4, batchA4]).2.2 :=
  (C4_replay_partitions demoUpd [batchA4, batchA4] [0, 1] 1 (by simp)).1

theorem toE_dropWhile_expire (n q : ℕ) (l : List (ℕ × ℚ)) :
    (toE l).dropWhile (fun e => decide (e.1 + n ≤ q)) =
      toE (l.dropWhile (fun e => decide (e.1 + n ≤ q))) := by
  induction l with
  | nil => rfl
  | cons hd tl ih =>
    by_cases h : hd.1 + n ≤ q
    · rw [toE, List.map_cons, List.dropWhile_cons_of_pos (by simpa using h),
        List.dropWhile_cons_of_pos (by simpa using h)]
      exact ih
    · rw [toE, List.map_cons, List.dropWhile_cons_of_neg (by simpa using h),
        List.dropWhile_cons_of_neg (by simpa using h)]
      rfl

theorem toE_dropWhile_cmp (cmp : F64 → F64 → Bool) (Rlt : ℚ → ℚ → Bool)
    (hb : ∀ a b : ℚ, cmp (F64.num a) (F64.num b) = Rlt a b) (v : ℚ) (l : List (ℕ × ℚ)) :
    (toE l).dropWhile (fun e => cmp (F64.num v) e.2) =
      toE (l.dropWhile (fun e => Rlt v e.2)) := by
  induction l with
  | nil => rfl
  | cons hd tl ih =>
    by_cases h : Rlt v hd.2 = true
    · rw [toE, List.map_cons, List.dropWhile_cons_of_pos (by simpa [hb] using h),
        List.dropWhile_cons_of_pos (by simpa using h)]
      exact ih
    · rw [toE, List.map_cons, List.dropWhile_cons_of_neg (by simpa [hb] using h),
        List.dropWhile_cons_of_neg (by simpa using h)]
      rfl

theorem toE_reverse (l : List (ℕ × ℚ)) : (toE l).reverse = toE l.reverse :=
  (List.map_reverse _ _).symm

theorem toE_append (a b : List (ℕ × ℚ)) : toE (a ++ b) = toE a ++ toE b :=
  List.map_append _ _ _

theorem mmPush_toE (cmp : F64 → F64 → Bool) (Rlt : ℚ → ℚ → Bool)
    (hb : ∀ a b : ℚ, cmp (F64.num a) (F64.num b) = Rlt a b)
    (n : ℕ) (l : List (ℕ × ℚ)) (seq : ℕ) (v : ℚ) :
    mmPush cmp n (toE l) seq (F64.num v) = (toE (qPush Rlt n l seq v), seq + 1) := by
  show ((((toE l).dropWhile _).reverse.dropWhile _).reverse ++ [(seq + 1, F64.num v)],
      seq + 1) = _
  rw [toE_dropWhile_expire, toE_reverse, toE_dropWhile_cmp cmp Rlt hb, toE_reverse,
    show [(seq + 1, F64.num v)] = toE [(seq + 1, v)] from rfl, ← toE_append]
  rfl

theorem dequeInv_nil (n : ℕ) (Rlt : ℚ → ℚ → Bool) : DequeInv n Rlt [] [] := by
  refine ⟨?_, ?_, ?_, ?_⟩ <;> simp

theorem dropWhile_expire_all (n seq1 : ℕ) (l : List (ℕ × ℚ))
    (hs : l.Pairwise (fun a b => a.1 < b.1)) :
    ∀ e ∈ l.dropWhile (fun e => decide (e.1 + n ≤ seq1)), ¬(e.1 + n ≤ seq1) := by
  induction l with
  | nil => simp
  | cons hd tl ih =>
    rw [List.pairwise_cons] at hs
    by_cases hhd : hd.1 + n ≤ seq1
    · rw [List.dropWhile_cons_of_pos (by simpa using hhd)]
      exact ih hs.2
    · rw [List.dropWhile_cons_of_neg (by simpa using hhd)]
      intro e he
      rcases List.mem_cons.1 he with rfl | he'
      · exact hhd
      · have := hs.1 e he'
        omega

theorem popBack_sublist (g : (ℕ × ℚ) → Bool) (l : List (ℕ × ℚ)) :
    (popBack g l).Sublist l := by
  have h := (List.dropWhile_sublist (l := l.reverse) (p := g)).reverse
  simpa [popBack] using h

theorem mem_dropWhile_or (f : (ℕ × ℚ) → Bool) (l : List (ℕ × ℚ)) (e : ℕ × ℚ)
    (he : e ∈ l) : e ∈ l.dropWhile f ∨ f e = true := by
  rw [← List.takeWhile_append_dropWhile (p := f) (l := l)] at he
  rcases List.mem_append.1 he with h | h
  · exact Or.inr (List.mem_takeWhile_imp h)
  · exact Or.inl h

theorem mem_popBack_or (g : (ℕ × ℚ) → Bool) (l : List (ℕ × ℚ)) (e : ℕ × ℚ)
    (he : e ∈ l) : e ∈ popBack g l ∨ g e = true := by
  rcases mem_dropWhile_or g l.reverse e (by simpa using he) with h | h
  · exact Or.inl (by simpa [popBack] using h)
  · exact Or.inr h

theorem popBack_all_kept (Rlt : ℚ → ℚ → Bool)
    (htrans : ∀ a b c : ℚ, Rlt b a = false → Rlt c b = false → Rlt c a = false)
    (v : ℚ) (l : List (ℕ × ℚ)) (hs : l.Pairwise (fun a b => Rlt b.2 a.2 = false)) :
    ∀ e ∈ popBack (fun e => Rlt v e.2) l, Rlt v e.2 = false := by
  induction l using List.reverseRecOn with
  | nil => simp [popBack]
  | append_singleton l last ih =>
    have hpref : l.Pairwise (fun a b => Rlt b.2 a.2 = false) :=
      hs.sublist (List.sublist_append_left l [last])
    cases hg : Rlt v last.2 with
    | true =>
      have hstep : popBack (fun e => Rlt v e.2) (l ++ [last]) =
          popBack (fun e => Rlt v e.2) l := by
        simp [popBack, List.reverse_append, List.dropWhile_cons, hg]
      rw [hstep]
      exact ih hpref
    | false =>
      have hstep : popBack (fun e => Rlt v e.2) (l ++ [last]) = l ++ [last] := by
        simp [popBack, List.reverse_append, List.dropWhile_cons, hg]
      rw [hstep]
      intro e he
      rcases List.mem_append.1 he with h | h
      · have hcross : Rlt last.2 e.2 = false := by
          have hps := List.pairwise_append.1 hs
          exact hps.2.2 e h last (List.mem_singleton_self _)
        exact htrans e.2 last.2 v hcross hg
      · rcases List.mem_singleton.1 h with rfl
        exact hg

theorem dequeInv_push (n : ℕ) (Rlt : ℚ → ℚ → Bool)
    (hirr : ∀ a : ℚ, Rlt a a = false)
    (hasym : ∀ a b : ℚ, Rlt a b = true → Rlt b a = false)
    (htrans : ∀ a b c : ℚ, Rlt b a = false → Rlt c b = false → Rlt c a = false)
    (hn : 1 ≤ n) (p : List ℚ) (v : ℚ) (l : List (ℕ × ℚ))
    (h : DequeInv n Rlt p l) :
    DequeInv n Rlt (p ++ [v]) (qPush Rlt n l p.length v) := by
  have hpop : qPush Rlt n l p.length v =
      popBack (fun e => Rlt v e.2)
        (l.dropWhile (fun e => decide (e.1 + n ≤ p.length + 1))) ++
      [(p.length + 1, v)] := rfl
  set h1 := l.dropWhile (fun e => decide (e.1 + n ≤ p.length + 1)) with hh1
  set h2 := popBack (fun e => Rlt v e.2) h1 with hh2
  have hsub1 : h1.Sublist l := by rw [hh1]; exact List.dropWhile_sublist _
  have hsub2 : h2.Sublist l := by
    rw [hh2]
    exact (popBack_sublist _ _).trans hsub1
  have hexp : ∀ e ∈ h1, ¬(e.1 + n ≤ p.length + 1) :=
    dropWhile_expire_all n (p.length + 1) l h.seqSorted
  have hkept : ∀ e ∈ h2, Rlt v e.2 = false :=
    popBack_all_kept Rlt htrans v h1 (h.valSorted.sublist hsub1)
  have hmem2 : ∀ e ∈ h2, e ∈ h1 := fun e he => (popBack_sublist _ _).subset he
  have hL : (p ++ [v]).length = p.length + 1 := by simp
  have hDv : (p ++ [v]).getD p.length 0 = v := by
    have hg : (p ++ [v]).get? p.length = some v := by
      rw [List.get?_append_right (by omega)]
      simp
    simp [List.getD_eq_getD_get?, hg]
  rw [hpop]
  refine ⟨?_, ?_, ?_, ?_⟩
  · intro e he
    rw [hL]
    rcases List.mem_append.1 he with hm | hm
    · have hel : e ∈ l := hsub2.subset hm
      obtain ⟨e1, e2, e3, e4⟩ := h.entries e hel
      have hnotexp := hexp e (hmem2 e hm)
      refine ⟨e1, by omega, by omega, ?_⟩
      rw [List.getD_append _ _ _ _ (by omega)]
      exact e4
    · rcases List.mem_singleton.1 hm with rfl
      exact ⟨by omega, by omega, by omega, by simpa using hDv⟩
  · rw [List.pairwise_append]
    refine ⟨h.seqSorted.sublist hsub2, List.pairwise_singleton _ _, ?_⟩
    intro a ha b hb
    rcases List.mem_singleton.1 hb with rfl
    have := (h.entries a (hsub2.subset ha)).2.1
    simp only
    omega
  · rw [List.pairwise_append]
    refine ⟨h.valSorted.sublist hsub2, List.pairwise_singleton _ _, ?_⟩
    intro a ha b hb
    rcases List.mem_singleton.1 hb with rfl
    exact hkept a ha
  · intro t ht1 ht2
    rw [hL] at ht1 ht2
    by_cases htop : t = p.length
    · refine ⟨(p.length + 1, v), List.mem_append_right _ (List.mem_singleton_self _),
        by omega, ?_⟩
      rw [htop, hDv]
      exact hirr v
    · have htlt : t < p.length := by omega
      have hgetD : (p ++ [v]).getD t 0 = p.getD t 0 :=
        List.getD_append _ _ _ _ (by omega)
      obtain ⟨e, hel, het, herel⟩ := h.dominant t (by omega) htlt
      rcases mem_dropWhile_or (fun e => decide (e.1 + n ≤ p.length + 1)) l e hel
        with hin1 | hexp'
      · rcases mem_popBack_or (fun e => Rlt v e.2) h1 e hin1 with hin2 | hgone
        · exact ⟨e, List.mem_append_left _ hin2, het, by rw [hgetD]; exact herel⟩
        · refine ⟨(p.length + 1, v), List.mem_append_right _ (List.mem_singleton_self _),
            by omega, ?_⟩
          rw [hgetD]
          have h5 : Rlt e.2 v = false := hasym v e.2 hgone
          exact htrans v e.2 (p.getD t 0) h5 herel
      · have : e.1 + n ≤ p.length + 1 := by simpa using hexp'
        omega

theorem dequeInv_head_min (n : ℕ) (Rlt : ℚ → ℚ → Bool)
    (htrans : ∀ a b c : ℚ, Rlt b a = false → Rlt c b = false → Rlt c a = false)
    (hirr : ∀ a : ℚ, Rlt a a = false)
    (hn : 1 ≤ n) (p : List ℚ) (l : List (ℕ × ℚ)) (h : DequeInv n Rlt p l)
    (hp : 1 ≤ p.length) :
    ∃ hd tl, l = hd :: tl ∧
      (p.length - n ≤ hd.1 - 1 ∧ hd.1 - 1 < p.length ∧ p.getD (hd.1 - 1) 0 = hd.2) ∧
      ∀ t, p.length ≤ t + n → t < p.length → Rlt (p.getD t 0) hd.2 = false := by
  obtain ⟨e0, he0, -, -⟩ := h.dominant (p.length - 1) (by omega) (by omega)
  cases l with
  | nil => simp at he0
  | cons hd tl =>
    obtain ⟨e1, e2, e3, e4⟩ := h.entries hd (List.mem_cons_self _ _)
    refine ⟨hd, tl, rfl, ⟨by omega, by omega, e4⟩, ?_⟩
    intro t ht1 ht2
    obtain ⟨e, hel, -, herel⟩ := h.dominant t ht1 ht2
    rcases List.mem_cons.1 hel with rfl | htl
    · exact herel
    · have hhd : Rlt e.2 hd.2 = false :=
        (List.pairwise_cons.1 h.valSorted).1 e htl
      exact htrans hd.2 e.2 (p.getD t 0) hhd herel

theorem getD_mem_wdwN (n : ℕ) (q : List ℚ) (t : ℕ) (ht1 : q.length - n ≤ t)
    (ht2 : t < q.length) : q.getD t 0 ∈ wdwN n q := by
  have hj : t - (q.length - n) < (q.drop (q.length - n)).length := by
    rw [List.length_drop]
    omega
  have ht3 : q.length - n + (t - (q.length - n)) = t := by omega
  have hg : (q.drop (q.length - n))[t - (q.length - n)] = q.get ⟨t, ht2⟩ := by
    rw [List.getElem_drop]
    simp only [ht3, List.get_eq_getElem]
  have hmem : q.get ⟨t, ht2⟩ ∈ q.drop (q.length - n) := by
    rw [← hg]
    exact List.getElem_mem _
  have hgd : q.getD t 0 = q.get ⟨t, ht2⟩ := by
    rw [List.getD_eq_getD_get?, List.get?_eq_getElem?, List.getElem?_eq_getElem ht2]
    rfl
  rw [wdwN, hgd]
  exact hmem

theorem mem_wdwN_iff (n : ℕ) (q : List ℚ) (y : ℚ) (hy : y ∈ wdwN n q) :
    ∃ t, q.length ≤ t + n ∧ t < q.length ∧ q.getD t 0 = y := by
  rw [wdwN] at hy
  rcases List.mem_iff_getElem.1 hy with ⟨j, hj, hget⟩
  have hjlen : j < q.length - (q.length - n) := by
    rwa [List.length_drop] at hj
  refine ⟨q.length - n + j, by omega, by omega, ?_⟩
  have hlt : q.length - n + j < q.length := by omega
  have : (q.drop (q.length - n))[j] = q.get ⟨q.length - n + j, hlt⟩ := List.getElem_drop _
  rw [this] at hget
  rw [List.getD_eq_getD_get?, List.get?_eq_getElem?, List.getElem?_eq_getElem hlt]
  exact hget

theorem mmLoop_spec (k : MinMaxKind) (str : String) (n : ℕ) (Rlt : ℚ → ℚ → Bool)
    (hirr : ∀ a : ℚ, Rlt a a = false)
    (hasym : ∀ a b : ℚ, Rlt a b = true → Rlt b a = false)
    (htrans : ∀ a b c : ℚ, Rlt b a = false → Rlt c b = false → Rlt c a = false)
    (hn : 1 ≤ n)
    (hb : ∀ a b : ℚ, k.cmp (F64.num a) (F64.num b) = Rlt a b)
    (hkv : ∀ (e : ℕ × F64) (tl : List (ℕ × F64)) (m s : ℕ),
      k.vfunc (e :: tl) m s = .ok e.2) :
    ∀ (xs p : List ℚ) (l : List (ℕ × ℚ)), DequeInv n Rlt p l →
    ∃ (out : List F64) (l' : List (ℕ × ℚ)),
      mmLoop k str n 0 (n - 1) (xs.map F64.num) p.length (toE l) p.length =
        .ok (out, toE l', p.length + xs.length) ∧
      out.length = xs.length ∧
      (∀ i, i < xs.length → n - 1 ≤ p.length + i →
        ∃ m : ℚ, out.get? i = some (F64.num m) ∧
          m ∈ wdwN n (p ++ xs.take (i + 1)) ∧
          ∀ y ∈ wdwN n (p ++ xs.take (i + 1)), Rlt y m = false) := by
  intro xs
  induction xs with
  | nil =>
    intro p l hInv
    refine ⟨[], l, ?_, rfl, ?_⟩
    · simp [mmLoop]
    · intro i hi
      simp at hi
  | cons v rest ih =>
    intro p l hInv
    have hInv' := dequeInv_push n Rlt hirr hasym htrans hn p v l hInv
    have hlen1 : (p ++ [v]).length = p.length + 1 := by simp
    obtain ⟨out', l', hloop', hout', hprop'⟩ :=
      ih (p ++ [v]) (qPush Rlt n l p.length v) hInv'
    rw [hlen1] at hloop' hprop'
    have hpush := mmPush_toE k.cmp Rlt hb n l p.length v
    have hwin : ∀ i : ℕ, p ++ (v :: rest).take (i + 1 + 1) =
        (p ++ [v]) ++ rest.take (i + 1) := by
      intro i
      rw [List.take_succ_cons, List.append_assoc]
      rfl
    have htotal : p.length + 1 + rest.length = p.length + (v :: rest).length := by
      simp
      omega
    by_cases hcase : p.length < n - 1
    · refine ⟨F64.nan :: out', l', ?_, by simp [hout'], ?_⟩
      · rw [List.map_cons, mmLoop]
        simp only [Nat.not_lt_zero, if_false, hcase, if_true, hpush]
        rw [hloop', ← htotal]
        rfl
      · intro i hi hoff
        cases i with
        | zero => omega
        | succ i =>
          have hi' : i < rest.length := by simpa using hi
          have hoff' : n - 1 ≤ p.length + 1 + i := by omega
          obtain ⟨m, hm1, hm2, hm3⟩ := hprop' i hi' hoff'
          refine ⟨m, by simpa using hm1, ?_, ?_⟩
          · rw [hwin i]
            exact hm2
          · rw [hwin i]
            exact hm3
    · have hp1 : 1 ≤ (p ++ [v]).length := by simp
      obtain ⟨hd, tl, hl2, ⟨hb1, hb2, hb3⟩, hmin⟩ :=
        dequeInv_head_min n Rlt htrans hirr hn (p ++ [v]) (qPush Rlt n l p.length v)
          hInv' hp1
      have htoE : toE (qPush Rlt n l p.length v) = (hd.1, F64.num hd.2) :: toE tl := by
        rw [hl2]
        rfl
      refine ⟨F64.num hd.2 :: out', l', ?_, by simp [hout'], ?_⟩
      · rw [List.map_cons, mmLoop]
        simp only [Nat.not_lt_zero, if_false, hcase, hpush]
        simp only [hloop']
        simp only [htoE, hkv]
        rw [← htotal]
        rfl
      · intro i hi hoff
        cases i with
        | zero =>
          refine ⟨hd.2, rfl, ?_, ?_⟩
          · have hmem := getD_mem_wdwN n (p ++ [v]) (hd.1 - 1) (by rw [hlen1] at hb1 ⊢; omega)
              hb2
            rw [hb3] at hmem
            simpa using hmem
          · intro y hy
            have hy' : y ∈ wdwN n (p ++ [v]) := by simpa using hy
            obtain ⟨t, ht1, ht2, ht3⟩ := mem_wdwN_iff n (p ++ [v]) y hy'
            rw [← ht3]
            exact hmin t ht1 ht2
        | succ i =>
          have hi' : i < rest.length := by simpa using hi
          have hoff' : n - 1 ≤ p.length + 1 + i := by omega
          obtain ⟨m, hm1, hm2, hm3⟩ := hprop' i hi' hoff'
          refine ⟨m, by simpa using hm1, ?_, ?_⟩
          · rw [hwin i]
            exact hm2
          · rw [hwin i]
            exact hm3

theorem getter_update_batchOf (xs : List ℚ) :
    (Op.getter "a" none).update (batchOf xs) =
      .ok (xs.map F64.num, .getter "a" (some 0)) := by
  have hall : ∀ v ∈ xs.map F64.num, v.isFinite = true := by
    intro v hv
    rcases List.mem_map.1 hv with ⟨q, -, rfl⟩
    rfl
  have hchk := fcheckAll_ok_of_finite (Op.to_string (.getter "a" none)) _ hall
  simp [Op.update, batchOf, Batch.index_of, Batch.values, hchk, bind, Except.bind,
    pure, Except.pure]

theorem winSlice_eq_wdwN (N : ℕ) (xs : List ℚ) (i : ℕ) (hi : i < xs.length) :
    wdwN N ([] ++ xs.take (i + 1)) = winSlice N xs i := by
  rw [List.nil_append, wdwN, winSlice, List.length_take]
  congr 1
  omega

theorem minmax_update_spec (k : MinMaxKind) (Rlt : ℚ → ℚ → Bool)
    (hirr : ∀ a : ℚ, Rlt a a = false)
    (hasym : ∀ a b : ℚ, Rlt a b = true → Rlt b a = false)
    (htrans : ∀ a b c : ℚ, Rlt b a = false → Rlt c b = false → Rlt c a = false)
    (hb : ∀ a b : ℚ, k.cmp (F64.num a) (F64.num b) = Rlt a b)
    (hkv : ∀ (e : ℕ × F64) (tl : List (ℕ × F64)) (m s : ℕ),
      k.vfunc (e :: tl) m s = .ok e.2)
    (N : ℕ) (hN : 1 ≤ N) (xs : List ℚ) (i : ℕ) (hi1 : N - 1 ≤ i) (hi2 : i < xs.length) :
    ∃ (out : List F64) (m : ℚ),
      ((Op.minmax k N (.getter "a" none) [] 0 0).update (batchOf xs)).map Prod.fst =
        .ok out ∧
      out.length = xs.length ∧ out.get? i = some (F64.num m) ∧
      m ∈ winSlice N xs i ∧ ∀ y ∈ winSlice N xs i, Rlt y m = false := by
  obtain ⟨out, l', hloop, hout, hprop⟩ :=
    mmLoop_spec k (Op.to_string (.minmax k N (.getter "a" none) [] 0 0)) N Rlt
      hirr hasym htrans hN hb hkv xs [] [] (dequeInv_nil N Rlt)
  simp only [List.length_nil] at hloop hprop
  obtain ⟨m, hm1, hm2, hm3⟩ := hprop i hi2 (by omega)
  refine ⟨out, m, ?_, hout, hm1, ?_, ?_⟩
  · rw [show toE [] = [] from rfl] at hloop
    have hro : (Op.getter "a" (some 0)).ready_offset = 0 := rfl
    rw [Op.update, getter_update_batchOf]
    simp only [bind, Except.bind, Op.ready_offset, hro, Nat.zero_add]
    rw [hloop]
    rfl
  · rw [← winSlice_eq_wdwN N xs i hi2]
    exact hm2
  · rw [← winSlice_eq_wdwN N xs i hi2]
    exact hm3

/-- Claim C6: for every window size `N ≥ 1` and every defined input
series `x`, the monotone-deque operators `TSMin(N, x)` and `TSMax(N, x)`
emit, at every position `i ≥ N − 1`, exactly the minimum (respectively
maximum) of the last `N` inputs `x[i−N+1..=i]`, agreeing with a
brute-force scan of that window. -/
theorem C6_minmax_agree_bruteforce (N : ℕ) (hN : 1 ≤ N) (xs : List ℚ) (i : ℕ)
    (hi1 : N - 1 ≤ i) (hi2 : i < xs.length) :
    (∃ (out : List F64) (m : ℚ),
      ((Op.minmax .tsMin N (.getter "a" none) [] 0 0).update (batchOf xs)).map Prod.fst =
        .ok out ∧
      out.length = xs.length ∧ out.get? i = some (F64.num m) ∧
      m ∈ winSlice N xs i ∧ ∀ y ∈ winSlice N xs i, m ≤ y) ∧
    (∃ (out : List F64) (m : ℚ),
      ((Op.minmax .tsMax N (.getter "a" none) [] 0 0).update (batchOf xs)).map Prod.fst =
        .ok out ∧
      out.length = xs.length ∧ out.get? i = some (F64.num m) ∧
      m ∈ winSlice N xs i ∧ ∀ y ∈ winSlice N xs i, y ≤ m) := by
  constructor
  · obtain ⟨out, m, h1, h2, h3, h4, h5⟩ :=
      minmax_update_spec .tsMin (fun a b => decide (a < b))
        (by intro a; simp)
        (by intro a b h; simp_all; linarith)
        (by intro a b c h1 h2; simp_all; linarith)
        (by intro a b; rfl)
        (by intro e tl m s; rfl)
        N hN xs i hi1 hi2
    refine ⟨out, m, h1, h2, h3, h4, ?_⟩
    intro y hy
    have := h5 y hy
    simp at this
    linarith
  · obtain ⟨out, m, h1, h2, h3, h4, h5⟩ :=
      minmax_update_spec .tsMax (fun a b => decide (b < a))
        (by intro a; simp)
        (by intro a b h; simp_all; linarith)
        (by intro a b c h1 h2; simp_all; linarith)
        (by intro a b; rfl)
        (by intro e tl m s; rfl)
        N hN xs i hi1 hi2
    refine ⟨out, m, h1, h2, h3, h4, ?_⟩
    intro y hy
    have := h5 y hy
    simp at this
    linarith

/-- Witness for C6 at `N = 2`, `x = [3, 1, 2]`, `i = 1`. -/
theorem C6_minmax_agree_bruteforce_witness :
    (∃ (out : List F64) (m : ℚ),
      ((Op.minmax .tsMin 2 (.getter "a" none) [] 0 0).update
          (batchOf [3, 1, 2])).map Prod.fst = .ok out ∧
      out.length = ([3, 1, 2] : List ℚ).length ∧ out.get? 1 = some (F64.num m) ∧
      m ∈ winSlice 2 [3, 1, 2] 1 ∧ ∀ y ∈ winSlice 2 [3, 1, 2] 1, m ≤ y) ∧
    (∃ (out : List F64) (m : ℚ),
      ((Op.minmax .tsMax 2 (.getter "a" none) [] 0 0).update
          (batchOf [3, 1, 2])).map Prod.fst = .ok out ∧
      out.length = ([3, 1, 2] : List ℚ).length ∧ out.get? 1 = some (F64.num m) ∧
      m ∈ winSlice 2 [3, 1, 2] 1 ∧ ∀ y ∈ winSlice 2 [3, 1, 2] 1, y ≤ m) :=
  C6_minmax_agree_bruteforce 2 (by omega) [3, 1, 2] 1 (by omega) (by simp)

/-- C7 counterexample: an out-of-range Quantile constant does not yield a
returned parse error — `TSQuantile::new` fires `assert!(0. <= quantile &&
quantile <= 1.)` and aborts the process (modelled as `RtErr.panic`, never a
returned `RtErr.err`). -/
theorem C7_quantile_panics_counterexample :
    from_str "(TSQuantile 3 2 :a)" =
      .error (.panic "assertion failed: 0. <= quantile && quantile <= 1.") := by
  with_unfolding_all rfl

/-- C7 (amended): a Stdev window-size constant `c ≤ 1` and a Skew window-size
constant `c < 3` each fail with a returned construction error, for every such
constant and every sub-operator (shown both at the constructor and through the
full parser); a Quantile `q ∉ [0, 1]`, by contrast, aborts the process via
`assert!` rather than returning an error, again for every such `q` and through
the full parser. -/
theorem C7_construction_range_errors :
    (∀ c : ℚ, ∀ s : Op, c ≤ 1 →
      ∃ m, fromIterStdev [Parameter.constant c, Parameter.operator s] = .error (.err m)) ∧
    (∀ c : ℚ, ∀ s : Op, c < 3 →
      ∃ m, fromIterSkew [Parameter.constant c, Parameter.operator s] = .error (.err m)) ∧
    (∀ w : ℕ, ∀ q : ℚ, ∀ s : Op, ¬(0 ≤ q ∧ q ≤ 1) →
      ∃ m, tsQuantileNew w q s = .error (.panic m)) ∧
    (∃ m, from_str "(TSStd 1 :a)" = .error (.err m)) ∧
    (∃ m, from_str "(TSSkew 2 :a)" = .error (.err m)) ∧
    (∃ m, from_str "(TSQuantile 3 2 :a)" = .error (.panic m)) := by
  refine ⟨?_, ?_, ?_, ?_, ?_, ?_⟩
  · intro c s hc
    exact ⟨"win size for TSStd should larger than 1", by
      simp only [fromIterStdev, if_pos hc]⟩
  · intro c s hc
    exact ⟨"TSSkew for requires constant larger than 2", by
      simp only [fromIterSkew, if_neg (by linarith : ¬(3 : ℚ) ≤ c)]⟩
  · intro w q s hq
    exact ⟨"assertion failed: 0. <= quantile && quantile <= 1.", by
      simp only [tsQuantileNew, if_neg hq]⟩
  · exact ⟨_, by with_unfolding_all rfl⟩
  · exact ⟨_, by with_unfolding_all rfl⟩
  · exact ⟨_, by with_unfolding_all rfl⟩

/-- C7 witness: the amended statement applied at the concrete inputs
`Stdev` constant 1, `Skew` constant 2 and `Quantile` quantile 2, each over
the getter `:a`. -/
theorem C7_construction_range_errors_witness :
    (∃ m, fromIterStdev [Parameter.constant 1, Parameter.operator (.getter "a" none)] =
      .error (.err m)) ∧
    (∃ m, fromIterSkew [Parameter.constant 2, Parameter.operator (.getter "a" none)] =
      .error (.err m)) ∧
    (∃ m, tsQuantileNew 3 2 (.getter "a" none) = .error (.panic m)) :=
  ⟨C7_construction_range_errors.1 1 _ (by norm_num),
   C7_construction_range_errors.2.1 2 _ (by norm_num),
   C7_construction_range_errors.2.2.1 3 2 _ (by norm_num)⟩

/-- C3 counterexample: `(TSStd 1.5 :a)` parses (1.5 passes the `c <= 1.`
check before the `as usize` truncation), but the resulting factor prints
as `(TSStd 1 :a)`, and parsing that canonical string fails — so
`parse(F.to_string())` neither succeeds nor reproduces `F` for this
parseable `F`. -/
theorem C3_roundtrip_counterexample :
    from_str "(TSStd 1.5 :a)" =
      .ok (.tsStdev 1 (.getter "a" none) [] (.num 0) 0) ∧
    (Op.tsStdev 1 (.getter "a" none) [] (.num 0) 0).to_string = "(TSStd 1 :a)" ∧
    from_str "(TSStd 1 :a)" =
      .error (.err "win size for TSStd should larger than 1") := by
  refine ⟨by with_unfolding_all rfl, by with_unfolding_all rfl, by with_unfolding_all rfl⟩

/-! ## Decimal digits re-read exactly -/

lemma natDigitsAux_eq (fuel : ℕ) : ∀ n : ℕ, n ≤ fuel → natDigitsAux fuel n = Nat.digits 10 n := by
  induction fuel with
  | zero =>
    intro n hn
    interval_cases n
    simp [natDigitsAux]
  | succ fuel ih =>
    intro n hn
    cases n with
    | zero => simp [natDigitsAux]
    | succ m =>
      rw [natDigitsAux, ih ((m + 1) / 10) (by omega),
        Nat.digits_def' (by norm_num : (1:ℕ) < 10) (Nat.succ_pos m)]

lemma digitChar_mem_digits {d : ℕ} (h : d < 10) :
    Nat.digitChar d ∈ ['0', '1', '2', '3', '4', '5', '6', '7', '8', '9'] := by
  interval_cases d <;> decide

lemma mem_digits_isDigit {c : Char}
    (h : c ∈ ['0', '1', '2', '3', '4', '5', '6', '7', '8', '9']) : c.isDigit = true := by
  fin_cases h <;> decide

lemma mem_digits_not_delim {c : Char}
    (h : c ∈ ['0', '1', '2', '3', '4', '5', '6', '7', '8', '9']) : isDelim c = false := by
  fin_cases h <;> decide

lemma digitChar_toNat {d : ℕ} (h : d < 10) : (Nat.digitChar d).toNat - 48 = d := by
  interval_cases d <;> decide

lemma digitsVal_rev_map (ds : List ℕ) (h : ∀ d ∈ ds, d < 10) :
    digitsVal ((ds.map Nat.digitChar).reverse) = Nat.ofDigits 10 ds := by
  rw [digitsVal, List.foldl_reverse]
  induction ds with
  | nil => simp [Nat.ofDigits]
  | cons d ds ih =>
    rw [List.map_cons, List.foldr_cons, Nat.ofDigits_cons,
      ih (fun x hx => h x (List.mem_cons_of_mem _ hx)),
      digitChar_toNat (h d (List.mem_cons_self _ _))]
    ring

lemma natChars_mem {n : ℕ} {c : Char} (h : c ∈ natChars n) :
    c ∈ ['0', '1', '2', '3', '4', '5', '6', '7', '8', '9'] := by
  by_cases h0 : n = 0
  · subst h0
    rw [natChars, if_pos rfl] at h
    rcases List.mem_cons.1 h with h | h
    · subst h; decide
    · simp at h
  · rw [natChars, if_neg h0, List.mem_reverse, List.mem_map] at h
    obtain ⟨d, hd, rfl⟩ := h
    rw [natDigitsAux_eq n n le_rfl] at hd
    exact digitChar_mem_digits (Nat.digits_lt_base (by norm_num) hd)

lemma natChars_ne_nil (n : ℕ) : natChars n ≠ [] := by
  by_cases h0 : n = 0
  · subst h0; decide
  · rw [natChars, if_neg h0]
    simp only [ne_eq, List.reverse_eq_nil_iff, List.map_eq_nil_iff]
    rw [natDigitsAux_eq n n le_rfl]
    exact Nat.digits_ne_nil_iff_ne_zero.2 h0

lemma digitsVal_natChars (n : ℕ) : digitsVal (natChars n) = n := by
  by_cases h0 : n = 0
  · subst h0; decide
  · rw [natChars, if_neg h0, natDigitsAux_eq n n le_rfl,
      digitsVal_rev_map _ (fun d hd => Nat.digits_lt_base (by norm_num) hd),
      Nat.ofDigits_digits]

lemma takeWhile_all {p : Char → Bool} (cs : List Char) (h : ∀ c ∈ cs, p c = true) :
    cs.takeWhile p = cs := by
  induction cs with
  | nil => rfl
  | cons c cs ih =>
    rw [List.takeWhile_cons, if_pos (h c (List.mem_cons_self _ _)),
      ih (fun x hx => h x (List.mem_cons_of_mem _ hx))]

lemma dropWhile_all {p : Char → Bool} (cs : List Char) (h : ∀ c ∈ cs, p c = true) :
    cs.dropWhile p = [] := by
  induction cs with
  | nil => rfl
  | cons c cs ih =>
    rw [List.dropWhile_cons, if_pos (h c (List.mem_cons_self _ _)),
      ih (fun x hx => h x (List.mem_cons_of_mem _ hx))]

lemma parseUnsigned_natChars (n : ℕ) : parseUnsigned (natChars n) = some (n : ℚ) := by
  rw [parseUnsigned]
  simp only [takeWhile_all (natChars n) (fun c hc => mem_digits_isDigit (natChars_mem hc)),
    dropWhile_all (natChars n) (fun c hc => mem_digits_isDigit (natChars_mem hc))]
  rw [if_neg (natChars_ne_nil n), digitsVal_natChars]

lemma parseNumToken_not_dash {c : Char} (h : c ≠ '-') (cs : List Char) :
    parseNumToken (c :: cs) = parseUnsigned (c :: cs) := by
  rw [parseNumToken.eq_def]
  split
  · rename_i rest heq
    injection heq with h1 h2
    exact absurd h1 h
  · rfl

lemma parseNumToken_natChars (n : ℕ) : parseNumToken (natChars n) = some (n : ℚ) := by
  rcases hcs : natChars n with _ | ⟨c, cs⟩
  · exact absurd hcs (natChars_ne_nil n)
  · have hc : c ∈ ['0', '1', '2', '3', '4', '5', '6', '7', '8', '9'] :=
      natChars_mem (hcs ▸ List.mem_cons_self c cs)
    have hne : c ≠ '-' := by
      intro h
      rw [h] at hc
      exact absurd hc (by decide)
    rw [parseNumToken_not_dash hne, ← hcs, parseUnsigned_natChars]

lemma ratToUsize_natCast (n : ℕ) : ratToUsize (n : ℚ) = n := by
  rw [ratToUsize, if_neg (not_lt.2 (by exact_mod_cast Nat.zero_le n : (0:ℚ) ≤ n)), Rat.floor_def']
  simp

lemma decExp_one : decExp 1 = some 0 := by decide

lemma fmtQ_natCast (n : ℕ) : fmtQ (n : ℚ) = fmtNat n := by
  rw [fmtQ]
  rw [Rat.den_natCast, decExp_one]
  simp only [Rat.num_natCast, fmtInt]
  rw [if_neg (not_lt.2 (by exact_mod_cast Nat.zero_le n : (0:ℤ) ≤ n))]
  simp [fmtNat]

/-! ## Rendered atoms contain no delimiters -/

lemma natChars_not_delim {n : ℕ} {c : Char} (h : c ∈ natChars n) : isDelim c = false :=
  mem_digits_not_delim (natChars_mem h)

lemma fmtNat_data (n : ℕ) : (fmtNat n).data = natChars n := rfl

lemma fmtInt_props (m : ℤ) :
    (fmtInt m).data ≠ [] ∧ ∀ c ∈ (fmtInt m).data, isDelim c = false := by
  rw [fmtInt]
  split
  · rw [String.data_append]
    constructor
    · simp
    · intro c hc
      rcases List.mem_append.1 hc with hc | hc
    
      · rcases List.mem_cons.1 hc with hc | hc
        · subst hc; decide
        · simp at hc
      · exact natChars_not_delim hc
  · exact ⟨natChars_ne_nil _, fun c hc => natChars_not_delim hc⟩

lemma padZeros_data (k m : ℕ) :
    (padZeros k m).data = List.replicate (k - (natChars m).length) '0' ++ natChars m := rfl

lemma fmtQ_props (q : ℚ) :
    (fmtQ q).data ≠ [] ∧ ∀ c ∈ (fmtQ q).data, isDelim c = false := by
  rw [fmtQ]
  split
  · next k _ =>
    split
    · exact fmtInt_props q.num
    · simp only [String.data_append, padZeros_data]
      constructor
      · intro hcon
        rcases List.append_eq_nil.1 hcon with ⟨h1, _⟩
        rcases List.append_eq_nil.1 h1 with ⟨_, h3⟩
        exact absurd h3 (by decide)
      · intro c hc
        rcases List.mem_append.1 hc with hc | hc
        · rcases List.mem_append.1 hc with hc | hc
          · rcases List.mem_append.1 hc with hc | hc
            · split at hc
              · rcases List.mem_cons.1 hc with hc | hc
                · subst hc; decide
                · simp at hc
              · simp at hc
            · exact natChars_not_delim hc
          · rcases List.mem_cons.1 hc with hc | hc
            · subst hc; decide
            · simp at hc
        · rcases List.mem_append.1 hc with hc | hc
          · rw [List.eq_of_mem_replicate hc]; decide
          · exact natChars_not_delim hc
  · simp only [String.data_append]
    constructor
    · intro hcon
      rcases List.append_eq_nil.1 hcon with ⟨h1, _⟩
      rcases List.append_eq_nil.1 h1 with ⟨h2, _⟩
      exact (fmtInt_props q.num).1 h2
    · intro c hc
      rcases List.mem_append.1 hc with hc | hc
      · rcases List.mem_append.1 hc with hc | hc
        · exact (fmtInt_props q.num).2 c hc
        · rcases List.mem_cons.1 hc with hc | hc
          · subst hc; decide
          · simp at hc
      · exact natChars_not_delim hc

lemma fmtF64_props (c : F64) :
    (fmtF64 c).data ≠ [] ∧ ∀ ch ∈ (fmtF64 c).data, isDelim ch = false := by
  cases c with
  | num q => exact fmtQ_props q
  | nan =>
    refine ⟨by decide, fun ch hch => ?_⟩
    rcases List.mem_cons.1 hch with h | h
    · subst h; decide
    · rcases List.mem_cons.1 h with h | h
      · subst h; decide
      · rcases List.mem_cons.1 h with h | h
        · subst h; decide
        · simp at h
  | inf =>
    refine ⟨by decide, fun ch hch => ?_⟩
    rcases List.mem_cons.1 hch with h | h
    · subst h; decide
    · rcases List.mem_cons.1 h with h | h
      · subst h; decide
      · rcases List.mem_cons.1 h with h | h
        · subst h; decide
        · simp at h
  | ninf =>
    refine ⟨by decide, fun ch hch => ?_⟩
    rcases List.mem_cons.1 hch with h | h
    · subst h; decide
    · rcases List.mem_cons.1 h with h | h
      · subst h; decide
      · rcases List.mem_cons.1 h with h | h
        · subst h; decide
        · rcases List.mem_cons.1 h with h | h
          · subst h; decide
          · simp at h

lemma data_lp : "(".data = ['('] := rfl

lemma data_rp : ")".data = [')'] := rfl

lemma data_sp : " ".data = [' '] := rfl

lemma data_colon : ":".data = [':'] := rfl

lemma lexGo_lparen (rest : List Char) :
    lexGo [] ('(' :: rest) = Token.lparen :: lexGo [] rest := rfl

lemma lexGo_rparen (rest : List Char) :
    lexGo [] (')' :: rest) = Token.rparen :: lexGo [] rest := rfl

lemma lexGo_space (rest : List Char) : lexGo [] (' ' :: rest) = lexGo [] rest := rfl

lemma flushPending_ne (pend : List Char) (h : pend ≠ []) (rest : List Token) :
    flushPending pend rest = Token.atom ⟨pend.reverse⟩ :: rest := by
  cases pend with
  | nil => exact absurd rfl h
  | cons c cs => rfl

lemma lexGo_accum (cs : List Char) : ∀ (pend rest : List Char),
    (∀ c ∈ cs, isDelim c = false) →
    lexGo pend (cs ++ rest) = lexGo (cs.reverse ++ pend) rest := by
  induction cs with
  | nil => intro pend rest _; simp
  | cons c cs ih =>
    intro pend rest h
    have hc := h c (List.mem_cons_self _ _)
    simp only [isDelim, Bool.or_eq_false_iff, decide_eq_false_iff_not] at hc
    rw [List.cons_append, lexGo, if_neg (by simp [hc.1.1]), if_neg hc.1.2, if_neg hc.2,
      ih (c :: pend) rest (fun x hx => h x (List.mem_cons_of_mem _ hx))]
    simp [List.append_assoc]

lemma lexGo_atom (cs rest : List Char) (hne : cs ≠ [])
    (hnd : ∀ c ∈ cs, isDelim c = false) (hd : delimStart rest = true) :
    lexGo [] (cs ++ rest) = Token.atom ⟨cs⟩ :: lexGo [] rest := by
  rw [lexGo_accum cs [] rest hnd, List.append_nil]
  cases rest with
  | nil =>
    rw [lexGo, flushPending_ne _ (by simpa using hne), List.reverse_reverse]
    rfl
  | cons c rest =>
    rw [delimStart] at hd
    rcases (by simpa [isDelim] using hd :
        (c.isWhitespace = true ∨ c = '(') ∨ c = ')') with (hw | hp) | hp
    · rw [lexGo, if_pos hw, flushPending_ne _ (by simpa using hne), List.reverse_reverse]
      conv_rhs => rw [lexGo, if_pos hw]
      rfl
    · subst hp
      rw [lexGo, if_neg (by decide), if_pos rfl,
        flushPending_ne _ (by simpa using hne), List.reverse_reverse]
      rfl
    · subst hp
      rw [lexGo, if_neg (by decide), if_neg (by decide), if_pos rfl,
        flushPending_ne _ (by simpa using hne), List.reverse_reverse]
      rfl

lemma lexGo_atom_sp (cs : List Char) (rest : List Char) (hne : cs ≠ [])
    (hnd : ∀ c ∈ cs, isDelim c = false) :
    lexGo [] (cs ++ (' ' :: rest)) = Token.atom ⟨cs⟩ :: lexGo [] rest := by
  rw [lexGo_atom cs (' ' :: rest) hne hnd rfl, lexGo_space]

lemma lexGo_atom_rp (cs : List Char) (rest : List Char) (hne : cs ≠ [])
    (hnd : ∀ c ∈ cs, isDelim c = false) :
    lexGo [] (cs ++ (')' :: rest)) = Token.atom ⟨cs⟩ :: Token.rparen :: lexGo [] rest := by
  rw [lexGo_atom cs (')' :: rest) hne hnd rfl, lexGo_rparen]

lemma lexOk_sp {t : Op} (h : LexOk t) (rest : List Char) :
    lexGo [] (t.to_string.data ++ (' ' :: rest)) = t.toToks ++ lexGo [] rest := by
  rw [h (' ' :: rest) rfl, lexGo_space]

lemma lexOk_rp {t : Op} (h : LexOk t) (rest : List Char) :
    lexGo [] (t.to_string.data ++ (')' :: rest)) =
      t.toToks ++ (Token.rparen :: lexGo [] rest) := by
  rw [h (')' :: rest) rfl, lexGo_rparen]

lemma fmtNat_ne_nil (n : ℕ) : (fmtNat n).data ≠ [] := natChars_ne_nil n

lemma fmtNat_nondelim (n : ℕ) : ∀ c ∈ (fmtNat n).data, isDelim c = false :=
  fun _ hc => natChars_not_delim hc

lemma lexOk_two (name : String) (l r : Op)
    (hne : name.data ≠ []) (hnd : ∀ c ∈ name.data, isDelim c = false)
    (hl : LexOk l) (hr : LexOk r) :
    ∀ rest, delimStart rest = true →
      lexGo [] (("(" ++ name ++ " " ++ l.to_string ++ " " ++ r.to_string ++ ")").data ++ rest) =
        (Token.lparen :: Token.atom name :: (l.toToks ++ r.toToks ++ [Token.rparen])) ++
          lexGo [] rest := by
  intro rest hrest
  have hd : ("(" ++ name ++ " " ++ l.to_string ++ " " ++ r.to_string ++ ")").data ++ rest =
      '(' :: (name.data ++ (' ' :: (l.to_string.data ++ (' ' :: (r.to_string.data ++
        (')' :: rest)))))) := by
    simp only [String.data_append, List.append_assoc]
    rfl
  rw [hd, lexGo_lparen, lexGo_atom_sp name.data _ hne hnd, lexOk_sp hl, lexOk_rp hr]
  simp [List.append_assoc]

lemma lexOk_one (name : String) (inner : Op)
    (hne : name.data ≠ []) (hnd : ∀ c ∈ name.data, isDelim c = false)
    (hi : LexOk inner) :
    ∀ rest, delimStart rest = true →
      lexGo [] (("(" ++ name ++ " " ++ inner.to_string ++ ")").data ++ rest) =
        (Token.lparen :: Token.atom name :: (inner.toToks ++ [Token.rparen])) ++
          lexGo [] rest := by
  intro rest hrest
  have hd : ("(" ++ name ++ " " ++ inner.to_string ++ ")").data ++ rest =
      '(' :: (name.data ++ (' ' :: (inner.to_string.data ++ (')' :: rest)))) := by
    simp only [String.data_append, List.append_assoc]
    rfl
  rw [hd, lexGo_lparen, lexGo_atom_sp name.data _ hne hnd, lexOk_rp hi]
  simp [List.append_assoc]

lemma lexOk_atomArg (name : String) (p : F64) (s : Op)
    (hne : name.data ≠ []) (hnd : ∀ c ∈ name.data, isDelim c = false)
    (hs : LexOk s) :
    ∀ rest, delimStart rest = true →
      lexGo [] (("(" ++ name ++ " " ++ fmtF64 p ++ " " ++ s.to_string ++ ")").data ++ rest) =
        (Token.lparen :: Token.atom name :: Token.atom (fmtF64 p) ::
          (s.toToks ++ [Token.rparen])) ++ lexGo [] rest := by
  intro rest hrest
  have hd : ("(" ++ name ++ " " ++ fmtF64 p ++ " " ++ s.to_string ++ ")").data ++ rest =
      '(' :: (name.data ++ (' ' :: ((fmtF64 p).data ++ (' ' :: (s.to_string.data ++
        (')' :: rest)))))) := by
    simp only [String.data_append, List.append_assoc]
    rfl
  rw [hd, lexGo_lparen, lexGo_atom_sp name.data _ hne hnd,
    lexGo_atom_sp (fmtF64 p).data _ (fmtF64_props p).1 (fmtF64_props p).2, lexOk_rp hs]
  simp [List.append_assoc]

lemma lexOk_if (c t f : Op) (hc : LexOk c) (ht : LexOk t) (hf : LexOk f) :
    ∀ rest, delimStart rest = true →
      lexGo [] (("(If " ++ c.to_string ++ " " ++ t.to_string ++ " " ++ f.to_string ++
          ")").data ++ rest) =
        (Token.lparen :: Token.atom "If" ::
          (c.toToks ++ t.toToks ++ f.toToks ++ [Token.rparen])) ++ lexGo [] rest := by
  intro rest hrest
  have hd : ("(If " ++ c.to_string ++ " " ++ t.to_string ++ " " ++ f.to_string ++
        ")").data ++ rest =
      '(' :: ("If".data ++ (' ' :: (c.to_string.data ++ (' ' :: (t.to_string.data ++
        (' ' :: (f.to_string.data ++ (')' :: rest)))))))) := by
    simp only [String.data_append, List.append_assoc]
    rfl
  rw [hd, lexGo_lparen, lexGo_atom_sp "If".data _ (by decide) (by decide), lexOk_sp hc,
    lexOk_sp ht, lexOk_rp hf]
  simp [List.append_assoc]

lemma lexOk_win (name : String) (n : ℕ) (child : Op)
    (hne : name.data ≠ []) (hnd : ∀ c ∈ name.data, isDelim c = false)
    (hch : LexOk child) :
    ∀ rest, delimStart rest = true →
      lexGo [] (("(" ++ name ++ " " ++ fmtNat n ++ " " ++ child.to_string ++ ")").data ++
          rest) =
        (Token.lparen :: Token.atom name :: Token.atom (fmtNat n) ::
          (child.toToks ++ [Token.rparen])) ++ lexGo [] rest := by
  intro rest hrest
  have hd : ("(" ++ name ++ " " ++ fmtNat n ++ " " ++ child.to_string ++ ")").data ++ rest =
      '(' :: (name.data ++ (' ' :: ((fmtNat n).data ++ (' ' :: (child.to_string.data ++
        (')' :: rest)))))) := by
    simp only [String.data_append, List.append_assoc]
    rfl
  rw [hd, lexGo_lparen, lexGo_atom_sp name.data _ hne hnd,
    lexGo_atom_sp (fmtNat n).data _ (fmtNat_ne_nil n) (fmtNat_nondelim n), lexOk_rp hch]
  simp [List.append_assoc]

lemma lexOk_corr (n : ℕ) (sx sy : Op) (hx : LexOk sx) (hy : LexOk sy) :
    ∀ rest, delimStart rest = true →
      lexGo [] (("(TSCorr " ++ fmtNat n ++ " " ++ sx.to_string ++ " " ++ sy.to_string ++
          ")").data ++ rest) =
        (Token.lparen :: Token.atom "TSCorr" :: Token.atom (fmtNat n) ::
          (sx.toToks ++ sy.toToks ++ [Token.rparen])) ++ lexGo [] rest := by
  intro rest hrest
  have hd : ("(TSCorr " ++ fmtNat n ++ " " ++ sx.to_string ++ " " ++ sy.to_string ++
        ")").data ++ rest =
      '(' :: ("TSCorr".data ++ (' ' :: ((fmtNat n).data ++ (' ' :: (sx.to_string.data ++
        (' ' :: (sy.to_string.data ++ (')' :: rest)))))))) := by
    simp only [String.data_append, List.append_assoc]
    rfl
  rw [hd, lexGo_lparen, lexGo_atom_sp "TSCorr".data _ (by decide) (by decide),
    lexGo_atom_sp (fmtNat n).data _ (fmtNat_ne_nil n) (fmtNat_nondelim n), lexOk_sp hx,
    lexOk_rp hy]
  simp [List.append_assoc]

lemma lexOk_quant (n : ℕ) (q : F64) (s : Op) (hs : LexOk s) :
    ∀ rest, delimStart rest = true →
      lexGo [] (("(TSQuantile " ++ fmtNat n ++ " " ++ fmtF64 q ++ " " ++ s.to_string ++
          ")").data ++ rest) =
        (Token.lparen :: Token.atom "TSQuantile" :: Token.atom (fmtNat n) ::
          Token.atom (fmtF64 q) :: (s.toToks ++ [Token.rparen])) ++ lexGo [] rest := by
  intro rest hrest
  have hd : ("(TSQuantile " ++ fmtNat n ++ " " ++ fmtF64 q ++ " " ++ s.to_string ++
        ")").data ++ rest =
      '(' :: ("TSQuantile".data ++ (' ' :: ((fmtNat n).data ++ (' ' :: ((fmtF64 q).data ++
        (' ' :: (s.to_string.data ++ (')' :: rest)))))))) := by
    simp only [String.data_append, List.append_assoc]
    rfl
  rw [hd, lexGo_lparen, lexGo_atom_sp "TSQuantile".data _ (by decide) (by decide),
    lexGo_atom_sp (fmtNat n).data _ (fmtNat_ne_nil n) (fmtNat_nondelim n),
    lexGo_atom_sp (fmtF64 q).data _ (fmtF64_props q).1 (fmtF64_props q).2, lexOk_rp hs]
  simp [List.append_assoc]

lemma goodNameB_nondelim {name : String} (h : goodNameB name = true) :
    ∀ c ∈ name.data, isDelim c = false := by
  intro c hc
  rw [goodNameB, List.all_eq_true] at h
  have := h c hc
  simpa using this

lemma lex_all (t : Op) (h : t.wfB = true) : LexOk t := by
  induction t with
  | getter name idx =>
    intro rest hrest
    have hdat : (Op.to_string (.getter name idx)).data = ':' :: name.data := by
      simp [Op.to_string, String.data_append, data_colon]
    rw [hdat]
    have hnd : ∀ c ∈ ':' :: name.data, isDelim c = false := by
      intro c hc
      rcases List.mem_cons.1 hc with hc | hc
      · subst hc; decide
      · exact goodNameB_nondelim (by simpa [Op.wfB] using h) c hc
    rw [lexGo_atom (':' :: name.data) rest (by simp) hnd hrest]
    rfl
  | constant c =>
    intro rest hrest
    show lexGo [] ((fmtF64 c).data ++ rest) = [Token.atom (fmtF64 c)] ++ lexGo [] rest
    rw [lexGo_atom (fmtF64 c).data rest (fmtF64_props c).1 (fmtF64_props c).2 hrest]
    rfl
  | arith k l r i ihl ihr =>
    simp only [Op.wfB, Bool.and_eq_true] at h
    cases k <;>
      exact fun rest hrest =>
        lexOk_two _ l r (by decide) (by decide) (ihl h.1) (ihr h.2) rest hrest
  | arith1 k inner i ihi =>
    simp only [Op.wfB] at h
    cases k <;>
      exact fun rest hrest => lexOk_one _ inner (by decide) (by decide) (ihi h) rest hrest
  | powOp k p s i ihs =>
    simp only [Op.wfB, Bool.and_eq_true] at h
    cases k <;>
      exact fun rest hrest =>
        lexOk_atomArg _ p s (by decide) (by decide) (ihs h.2) rest hrest
  | logic k l r i ihl ihr =>
    simp only [Op.wfB, Bool.and_eq_true] at h
    cases k <;>
      exact fun rest hrest =>
        lexOk_two _ l r (by decide) (by decide) (ihl h.1) (ihr h.2) rest hrest
  | notOp inner i ihi =>
    simp only [Op.wfB] at h
    exact fun rest hrest => lexOk_one "!" inner (by decide) (by decide) (ihi h) rest hrest
  | ifOp c t f i ihc iht ihf =>
    simp only [Op.wfB, Bool.and_eq_true] at h
    exact fun rest hrest => lexOk_if c t f (ihc h.1.1) (iht h.1.2) (ihf h.2) rest hrest
  | tsSum n inner window sum i ihi =>
    simp only [Op.wfB, Bool.and_eq_true] at h
    exact fun rest hrest =>
      lexOk_win "TSSum" n inner (by decide) (by decide) (ihi h.2) rest hrest
  | tsMean n s hist x warmup ihs =>
    simp only [Op.wfB, Bool.and_eq_true] at h
    exact fun rest hrest =>
      lexOk_win "TSMean" n s (by decide) (by decide) (ihs h.2) rest hrest
  | tsStdev n s hist x warmup ihs =>
    simp only [Op.wfB, Bool.and_eq_true] at h
    exact fun rest hrest =>
      lexOk_win "TSStd" n s (by decide) (by decide) (ihs h.2.2) rest hrest
  | tsSkew n s hist x warmup ihs =>
    simp only [Op.wfB, Bool.and_eq_true] at h
    exact fun rest hrest =>
      lexOk_win "TSSkew" n s (by decide) (by decide) (ihs h.2.2) rest hrest
  | tsCorr n sx sy hist x y warmup ihx ihy =>
    simp only [Op.wfB, Bool.and_eq_true] at h
    exact fun rest hrest => lexOk_corr n sx sy (ihx h.1) (ihy h.2) rest hrest
  | minmax k n s hist seq warmup ihs =>
    simp only [Op.wfB, Bool.and_eq_true] at h
    cases k <;>
      exact fun rest hrest =>
        lexOk_win _ n s (by decide) (by decide) (ihs h.2) rest hrest
  | delay n inner window i ihi =>
    simp only [Op.wfB, Bool.and_eq_true] at h
    exact fun rest hrest =>
      lexOk_win "Delay" n inner (by decide) (by decide) (ihi h.2) rest hrest
  | tsRank n s hist ostree warmup ihs =>
    simp only [Op.wfB, Bool.and_eq_true] at h
    exact fun rest hrest =>
      lexOk_win "TSRank" n s (by decide) (by decide) (ihs h.2) rest hrest
  | tsQuantile n q r s hist ostree warmup ihs =>
    simp only [Op.wfB, Bool.and_eq_true] at h
    exact fun rest hrest => lexOk_quant n q s (ihs h.2.2) rest hrest
  | tsLogReturn n s cache warmup ihs =>
    simp only [Op.wfB, Bool.and_eq_true] at h
    exact fun rest hrest =>
      lexOk_win "TSLogReturn" n s (by decide) (by decide) (ihs h.2) rest hrest
  | sma inner n i window sum ihi =>
    simp only [Op.wfB] at h
    exact fun rest hrest =>
      lexOk_win "SMA" n inner (by decide) (by decide) (ihi h) rest hrest

/-! ## Reading the token run back into an S-expression -/

lemma buildS_lparen (stack : List (List Sexpr)) (cur : List Sexpr) (rest : List Token) :
    buildS stack cur (Token.lparen :: rest) = buildS (cur :: stack) [] rest := rfl

lemma buildS_rparen (top : List Sexpr) (stack : List (List Sexpr)) (cur : List Sexpr)
    (rest : List Token) :
    buildS (top :: stack) cur (Token.rparen :: rest) =
      buildS stack (Sexpr.list cur.reverse :: top) rest := rfl

lemma buildS_atom (stack : List (List Sexpr)) (cur : List Sexpr) (a : String)
    (rest : List Token) :
    buildS stack cur (Token.atom a :: rest) = buildS stack (classifyAtom a :: cur) rest := rfl

lemma parseUnsigned_colon (l : List Char) : parseUnsigned (':' :: l) = none := by
  rw [parseUnsigned]
  simp [List.takeWhile_cons]

lemma classify_colon (name : String) : classifyAtom (":" ++ name) = .sym (":" ++ name) := by
  have hdat : (":" ++ name).data = ':' :: name.data := by
    simp [String.data_append, data_colon]
  rw [classifyAtom, hdat, parseNumToken_not_dash (by decide) _, parseUnsigned_colon]

lemma classify_fmtNat (n : ℕ) : classifyAtom (fmtNat n) = .num (n : ℚ) := by
  rw [classifyAtom, fmtNat_data, parseNumToken_natChars]

lemma classify_goodQ {q : ℚ} (h : goodQB q = true) : classifyAtom (fmtQ q) = .num q := by
  rw [goodQB, decide_eq_true_eq] at h
  rw [classifyAtom, h]

lemma buildOk_two (name : String) (hcl : classifyAtom name = .sym name) (l r : Op)
    (hl : BuildOk l) (hr : BuildOk r) : ∀ stack cur rest,
    buildS stack cur
        ((Token.lparen :: Token.atom name :: (l.toToks ++ r.toToks ++ [Token.rparen])) ++
          rest) =
      buildS stack (Sexpr.list [.sym name, l.sexprOf, r.sexprOf] :: cur) rest := by
  intro stack cur rest
  rw [List.cons_append, List.cons_append, buildS_lparen, buildS_atom, hcl,
    List.append_assoc, List.append_assoc, hl, hr, List.singleton_append, buildS_rparen]
  rfl

lemma buildOk_one (name : String) (hcl : classifyAtom name = .sym name) (inner : Op)
    (hi : BuildOk inner) : ∀ stack cur rest,
    buildS stack cur
        ((Token.lparen :: Token.atom name :: (inner.toToks ++ [Token.rparen])) ++ rest) =
      buildS stack (Sexpr.list [.sym name, inner.sexprOf] :: cur) rest := by
  intro stack cur rest
  rw [List.cons_append, List.cons_append, buildS_lparen, buildS_atom, hcl,
    List.append_assoc, hi, List.singleton_append, buildS_rparen]
  rfl

lemma buildOk_atomArg (name : String) (hcl : classifyAtom name = .sym name) (q : ℚ)
    (hq : goodQB q = true) (s : Op) (hs : BuildOk s) : ∀ stack cur rest,
    buildS stack cur
        ((Token.lparen :: Token.atom name :: Token.atom (fmtF64 (.num q)) ::
          (s.toToks ++ [Token.rparen])) ++ rest) =
      buildS stack (Sexpr.list [.sym name, .num q, s.sexprOf] :: cur) rest := by
  intro stack cur rest
  rw [List.cons_append, List.cons_append, List.cons_append, buildS_lparen, buildS_atom, hcl,
    buildS_atom]
  rw [show classifyAtom (fmtF64 (.num q)) = .num q from classify_goodQ hq]
  rw [List.append_assoc, hs, List.singleton_append, buildS_rparen]
  rfl

lemma buildOk_if (c t f : Op) (hc : BuildOk c) (ht : BuildOk t) (hf : BuildOk f) :
    ∀ stack cur rest,
    buildS stack cur
        ((Token.lparen :: Token.atom "If" ::
          (c.toToks ++ t.toToks ++ f.toToks ++ [Token.rparen])) ++ rest) =
      buildS stack (Sexpr.list [.sym "If", c.sexprOf, t.sexprOf, f.sexprOf] :: cur) rest := by
  intro stack cur rest
  rw [List.cons_append, List.cons_append, buildS_lparen, buildS_atom,
    show classifyAtom "If" = .sym "If" from rfl,
    List.append_assoc, List.append_assoc, List.append_assoc, hc, ht, hf,
    List.singleton_append, buildS_rparen]
  rfl

lemma buildOk_win (name : String) (hcl : classifyAtom name = .sym name) (n : ℕ)
    (child : Op) (hch : BuildOk child) : ∀ stack cur rest,
    buildS stack cur
        ((Token.lparen :: Token.atom name :: Token.atom (fmtNat n) ::
          (child.toToks ++ [Token.rparen])) ++ rest) =
      buildS stack (Sexpr.list [.sym name, .num (n : ℚ), child.sexprOf] :: cur) rest := by
  intro stack cur rest
  rw [List.cons_append, List.cons_append, List.cons_append, buildS_lparen, buildS_atom, hcl,
    buildS_atom, classify_fmtNat, List.append_assoc, hch, List.singleton_append,
    buildS_rparen]
  rfl

lemma buildOk_corr (n : ℕ) (sx sy : Op) (hx : BuildOk sx) (hy : BuildOk sy) :
    ∀ stack cur rest,
    buildS stack cur
        ((Token.lparen :: Token.atom "TSCorr" :: Token.atom (fmtNat n) ::
          (sx.toToks ++ sy.toToks ++ [Token.rparen])) ++ rest) =
      buildS stack
        (Sexpr.list [.sym "TSCorr", .num (n : ℚ), sx.sexprOf, sy.sexprOf] :: cur) rest := by
  intro stack cur rest
  rw [List.cons_append, List.cons_append, List.cons_append, buildS_lparen, buildS_atom,
    show classifyAtom "TSCorr" = .sym "TSCorr" from rfl, buildS_atom, classify_fmtNat,
    List.append_assoc, List.append_assoc, hx, hy, List.singleton_append, buildS_rparen]
  rfl

lemma buildOk_quant (n : ℕ) (q : ℚ) (hq : goodQB q = true) (s : Op) (hs : BuildOk s) :
    ∀ stack cur rest,
    buildS stack cur
        ((Token.lparen :: Token.atom "TSQuantile" :: Token.atom (fmtNat n) ::
          Token.atom (fmtF64 (.num q)) :: (s.toToks ++ [Token.rparen])) ++ rest) =
      buildS stack
        (Sexpr.list [.sym "TSQuantile", .num (n : ℚ), .num q, s.sexprOf] :: cur) rest := by
  intro stack cur rest
  rw [List.cons_append, List.cons_append, List.cons_append, List.cons_append, buildS_lparen,
    buildS_atom, show classifyAtom "TSQuantile" = .sym "TSQuantile" from rfl, buildS_atom,
    classify_fmtNat, buildS_atom]
  rw [show classifyAtom (fmtF64 (.num q)) = .num q from classify_goodQ hq]
  rw [List.append_assoc, hs, List.singleton_append, buildS_rparen]
  rfl

lemma build_all (t : Op) (h : t.wfB = true) : BuildOk t := by
  induction t with
  | getter name idx =>
    intro stack cur rest
    show buildS stack cur (Token.atom (":" ++ name) :: rest) = _
    rw [buildS_atom, classify_colon]
    rfl
  | constant c =>
    intro stack cur rest
    cases c with
    | num q =>
      show buildS stack cur (Token.atom (fmtF64 (.num q)) :: rest) = _
      rw [buildS_atom, show classifyAtom (fmtF64 (.num q)) = .num q from
        classify_goodQ (by simpa [Op.wfB, goodF64] using h)]
      rfl
    | nan => simp [Op.wfB, goodF64] at h
    | inf => simp [Op.wfB, goodF64] at h
    | ninf => simp [Op.wfB, goodF64] at h
  | arith k l r i ihl ihr =>
    simp only [Op.wfB, Bool.and_eq_true] at h
    cases k with
    | add => exact buildOk_two "+" rfl l r (ihl h.1) (ihr h.2)
    | sub => exact buildOk_two "-" rfl l r (ihl h.1) (ihr h.2)
    | mul => exact buildOk_two "*" rfl l r (ihl h.1) (ihr h.2)
    | div => exact buildOk_two "/" rfl l r (ihl h.1) (ihr h.2)
  | arith1 k inner i ihi =>
    simp only [Op.wfB] at h
    cases k with
    | logAbs => exact buildOk_one "LogAbs" rfl inner (ihi h)
    | sign => exact buildOk_one "Sign" rfl inner (ihi h)
    | abs => exact buildOk_one "Abs" rfl inner (ihi h)
    | neg => exact buildOk_one "Neg" rfl inner (ihi h)
  | powOp k p s i ihs =>
    simp only [Op.wfB, Bool.and_eq_true] at h
    rcases p with _ | _ | _ | q
    · simp [goodF64] at h
    · simp [goodF64] at h
    · simp [goodF64] at h
    · cases k with
      | pow => exact buildOk_atomArg "^" rfl q (by simpa [goodF64] using h.1) s (ihs h.2)
      | spow => exact buildOk_atomArg "SPow" rfl q (by simpa [goodF64] using h.1) s (ihs h.2)
  | logic k l r i ihl ihr =>
    simp only [Op.wfB, Bool.and_eq_true] at h
    cases k with
    | lt => exact buildOk_two "<" rfl l r (ihl h.1) (ihr h.2)
    | lte => exact buildOk_two "<=" rfl l r (ihl h.1) (ihr h.2)
    | gt => exact buildOk_two ">" rfl l r (ihl h.1) (ihr h.2)
    | gte => exact buildOk_two ">=" rfl l r (ihl h.1) (ihr h.2)
    | eq => exact buildOk_two "==" rfl l r (ihl h.1) (ihr h.2)
    | and => exact buildOk_two "And" rfl l r (ihl h.1) (ihr h.2)
    | or => exact buildOk_two "Or" rfl l r (ihl h.1) (ihr h.2)
  | notOp inner i ihi =>
    simp only [Op.wfB] at h
    exact buildOk_one "!" rfl inner (ihi h)
  | ifOp c t f i ihc iht ihf =>
    simp only [Op.wfB, Bool.and_eq_true] at h
    exact buildOk_if c t f (ihc h.1.1) (iht h.1.2) (ihf h.2)
  | tsSum n inner window sum i ihi =>
    simp only [Op.wfB, Bool.and_eq_true] at h
    exact buildOk_win "TSSum" rfl n inner (ihi h.2)
  | tsMean n s hist x warmup ihs =>
    simp only [Op.wfB, Bool.and_eq_true] at h
    exact buildOk_win "TSMean" rfl n s (ihs h.2)
  | tsStdev n s hist x warmup ihs =>
    simp only [Op.wfB, Bool.and_eq_true] at h
    exact buildOk_win "TSStd" rfl n s (ihs h.2.2)
  | tsSkew n s hist x warmup ihs =>
    simp only [Op.wfB, Bool.and_eq_true] at h
    exact buildOk_win "TSSkew" rfl n s (ihs h.2.2)
  | tsCorr n sx sy hist x y warmup ihx ihy =>
    simp only [Op.wfB, Bool.and_eq_true] at h
    exact buildOk_corr n sx sy (ihx h.1) (ihy h.2)
  | minmax k n s hist seq warmup ihs =>
    simp only [Op.wfB, Bool.and_eq_true] at h
    cases k with
    | tsMin => exact buildOk_win "TSMin" rfl n s (ihs h.2)
    | tsMax => exact buildOk_win "TSMax" rfl n s (ihs h.2)
    | tsArgMin => exact buildOk_win "TSArgMin" rfl n s (ihs h.2)
    | tsArgMax => exact buildOk_win "TSArgMax" rfl n s (ihs h.2)
  | delay n inner window i ihi =>
    simp only [Op.wfB, Bool.and_eq_true] at h
    exact buildOk_win "Delay" rfl n inner (ihi h.2)
  | tsRank n s hist ostree warmup ihs =>
    simp only [Op.wfB, Bool.and_eq_true] at h
    exact buildOk_win "TSRank" rfl n s (ihs h.2)
  | tsQuantile n q r s hist ostree warmup ihs =>
    simp only [Op.wfB, Bool.and_eq_true] at h
    rcases q with _ | _ | _ | q2
    · simp at h
    · simp at h
    · simp at h
    · exact buildOk_quant n q2 (by
        have := h.1
        simp only [Bool.and_eq_true] at this
        exact this.1.1) s (ihs h.2.2)
  | tsLogReturn n s cache warmup ihs =>
    simp only [Op.wfB, Bool.and_eq_true] at h
    exact buildOk_win "TSLogReturn" rfl n s (ihs h.2)
  | sma inner n i window sum ihi =>
    simp only [Op.wfB] at h
    exact buildOk_win "SMA" rfl n inner (ihi h)

/-! ## Translating an S-expression back into the tree -/

lemma paramOf_to_operator (a : Op) : a.paramOf.to_operator = some a.reparsed := by
  cases a with
  | constant c => cases c <;> rfl
  | getter name idx => rfl
  | arith k l r i => rfl
  | arith1 k inner i => rfl
  | powOp k p s i => rfl
  | logic k l r i => rfl
  | notOp inner i => rfl
  | ifOp c t f i => rfl
  | tsSum n inner window sum i => rfl
  | tsMean n s hist x warmup => rfl
  | tsStdev n s hist x warmup => rfl
  | tsSkew n s hist x warmup => rfl
  | tsCorr n sx sy hist x y warmup => rfl
  | minmax k n s hist seq warmup => rfl
  | delay n inner window i => rfl
  | tsRank n s hist ostree warmup => rfl
  | tsQuantile n q r s hist ostree warmup => rfl
  | tsLogReturn n s cache warmup => rfl
  | sma inner n i window sum => rfl

lemma paramOf_nonconst {a : Op} (h : a.isConst = false) :
    a.paramOf = .operator a.reparsed := by
  cases a <;> first | rfl | simp [Op.isConst] at h

lemma visOk_constNum (fuel : ℕ) (q : ℚ) : VisOk fuel (.constant (.num q)) := rfl

lemma visOk_getter (fuel : ℕ) (name : String) (idx : Option ℕ) :
    VisOk fuel (.getter name idx) := rfl

lemma visit_args (fuel : ℕ) (args : List Op) (h : ∀ a ∈ args, VisOk fuel a) :
    visitParams (visitF fuel) (args.map Op.sexprOf) = .ok (args.map Op.paramOf) := by
  induction args with
  | nil => rfl
  | cons a args ih =>
    rw [List.map_cons, List.map_cons, visitParams,
      h a (List.mem_cons_self _ _), ih (fun x hx => h x (List.mem_cons_of_mem _ hx))]
    rfl

lemma visitF_sym_list (f : ℕ) (name : String) (params : List Sexpr) :
    visitF (f + 1) (.list (.sym name :: params)) =
      (visitParams (visitF f) params).bind (visitDispatch name) := rfl

lemma visOk_node {f : ℕ} {t : Op} (name : String) (args : List Op)
    (hsx : t.sexprOf = .list (.sym name :: args.map Op.sexprOf))
    (hvis : ∀ a ∈ args, VisOk f a)
    (hdisp : visitDispatch name (args.map Op.paramOf) = .ok t.reparsed)
    (hpar : t.paramOf = .operator t.reparsed) :
    VisOk (f + 1) t := by
  have h1 : visitF (f + 1) (.list (.sym name :: args.map Op.sexprOf)) = .ok t.reparsed := by
    rw [visitF_sym_list, visit_args f args hvis]
    exact hdisp
  show visitParamOne (visitF (f + 1)) t.sexprOf = .ok t.paramOf
  rw [hsx, hpar]
  show (visitF (f + 1) (.list (.sym name :: args.map Op.sexprOf))).map Parameter.operator =
    .ok (Parameter.operator t.reparsed)
  rw [h1]
  rfl

lemma fromIterArith_ok (k : ArithBinKind) (l r : Op) :
    fromIterArith k [l.paramOf, r.paramOf] = .ok (.arith k l.reparsed r.reparsed 0) := by
  simp only [fromIterArith, paramOf_to_operator]

lemma fromIterLogic_ok (k : LogicBinKind) (l r : Op) :
    fromIterLogic k [l.paramOf, r.paramOf] = .ok (.logic k l.reparsed r.reparsed 0) := by
  simp only [fromIterLogic, paramOf_to_operator]

lemma fromIterArith1_ok (k : ArithUnKind) (inner : Op) :
    fromIterArith1 k [inner.paramOf] = .ok (.arith1 k inner.reparsed 0) := by
  simp only [fromIterArith1, paramOf_to_operator]

lemma fromIterNot_ok (inner : Op) :
    fromIterNot [inner.paramOf] = .ok (.notOp inner.reparsed 0) := by
  simp only [fromIterNot, paramOf_to_operator]

lemma fromIterIf_ok (c t f : Op) :
    fromIterIf [c.paramOf, t.paramOf, f.paramOf] =
      .ok (.ifOp c.reparsed t.reparsed f.reparsed 0) := by
  simp only [fromIterIf, paramOf_to_operator]

lemma fromIterPow_ok (k : PowKind) (q : ℚ) (s : Op) :
    fromIterPow k [Parameter.constant q, s.paramOf] = .ok (.powOp k (.num q) s.reparsed 0) := by
  simp only [fromIterPow, paramOf_to_operator]

lemma fromIterWindow_ok (name : String) (mk : ℕ → Op → Op) (q : ℚ) (child : Op)
    (hch : child.isConst = false) :
    fromIterWindow name mk [Parameter.constant q, child.paramOf] =
      .ok (mk (ratToUsize q) child.reparsed) := by
  rw [paramOf_nonconst hch]
  rfl

lemma fromIterSMA_ok (q : ℚ) (inner : Op) :
    fromIterSMA [Parameter.constant q, inner.paramOf] =
      .ok (.sma inner.reparsed (ratToUsize q) 0 [] (.num 0)) := by
  simp only [fromIterSMA, paramOf_to_operator]

lemma fromIterCorr_ok (q : ℚ) (sx sy : Op) :
    fromIterCorr [Parameter.constant q, sx.paramOf, sy.paramOf] =
      .ok (.tsCorr (ratToUsize q) sx.reparsed sy.reparsed [] (.num 0) (.num 0) 0) := by
  simp only [fromIterCorr, paramOf_to_operator]

lemma fromIterStdev_ok (n : ℕ) (hn : 2 ≤ n) (s : Op) (hs : s.isConst = false) :
    fromIterStdev [Parameter.constant (n : ℚ), s.paramOf] =
      .ok (.tsStdev n s.reparsed [] (.num 0) 0) := by
  rw [paramOf_nonconst hs]
  have h1 : fromIterStdev [Parameter.constant (n : ℚ), .operator s.reparsed] =
      if (n : ℚ) ≤ 1 then .error (.err "win size for TSStd should larger than 1")
      else .ok (.tsStdev (ratToUsize (n : ℚ)) s.reparsed [] (.num 0) 0) := rfl
  rw [h1, if_neg (not_le.2 (by exact_mod_cast (by omega : (1:ℕ) < n))), ratToUsize_natCast]

lemma fromIterSkew_ok (n : ℕ) (hn : 3 ≤ n) (s : Op) (hs : s.isConst = false) :
    fromIterSkew [Parameter.constant (n : ℚ), s.paramOf] =
      .ok (.tsSkew n s.reparsed [] (.num 0) 0) := by
  rw [paramOf_nonconst hs]
  have h1 : fromIterSkew [Parameter.constant (n : ℚ), .operator s.reparsed] =
      if (3 : ℚ) ≤ (n : ℚ) then .ok (.tsSkew (ratToUsize (n : ℚ)) s.reparsed [] (.num 0) 0)
      else .error (.err "TSSkew for requires constant larger than 2") := rfl
  rw [h1, if_pos (by exact_mod_cast hn), ratToUsize_natCast]

lemma fromIterQuantile_ok (n : ℕ) (q2 : ℚ) (hq : 0 ≤ q2 ∧ q2 ≤ 1) (s : Op)
    (hs : s.isConst = false) :
    fromIterQuantile [Parameter.constant (n : ℚ), Parameter.constant q2, s.paramOf] =
      .ok (.tsQuantile n (.num q2) (ratToUsize (((n - 1 : ℕ) : ℚ) * q2))
        s.reparsed [] [] 0) := by
  rw [paramOf_nonconst hs]
  have h1 : fromIterQuantile [Parameter.constant (n : ℚ), Parameter.constant q2,
      .operator s.reparsed] = tsQuantileNew (ratToUsize (n : ℚ)) q2 s.reparsed := rfl
  rw [h1, ratToUsize_natCast, tsQuantileNew, if_pos hq]

lemma visit_all (t : Op) (h : t.wfB = true) : ∀ fuel, t.dep ≤ fuel → VisOk fuel t := by
  induction t with
  | getter name idx => exact fun fuel _ => visOk_getter fuel name idx
  | constant c =>
    intro fuel _
    cases c with
    | num q => exact visOk_constNum fuel q
    | nan => simp [Op.wfB, goodF64] at h
    | inf => simp [Op.wfB, goodF64] at h
    | ninf => simp [Op.wfB, goodF64] at h
  | arith k l r i ihl ihr =>
    simp only [Op.wfB, Bool.and_eq_true] at h
    intro fuel hf
    simp only [Op.dep] at hf
    cases fuel with
    | zero => omega
    | succ f =>
      refine visOk_node k.name [l, r] rfl ?_ ?_ rfl
      · intro a ha
        rcases List.mem_cons.1 ha with rfl | ha
        · exact ihl h.1 f (by omega)
        · rcases List.mem_cons.1 ha with rfl | ha
          · exact ihr h.2 f (by omega)
          · simp at ha
      · cases k with
        | add => exact fromIterArith_ok .add l r
        | sub => exact fromIterArith_ok .sub l r
        | mul => exact fromIterArith_ok .mul l r
        | div => exact fromIterArith_ok .div l r
  | arith1 k inner i ihi =>
    simp only [Op.wfB] at h
    intro fuel hf
    simp only [Op.dep] at hf
    cases fuel with
    | zero => omega
    | succ f =>
      refine visOk_node k.name [inner] rfl ?_ ?_ rfl
      · intro a ha
        rcases List.mem_cons.1 ha with rfl | ha
        · exact ihi h f (by omega)
        · simp at ha
      · cases k with
        | logAbs => exact fromIterArith1_ok .logAbs inner
        | sign => exact fromIterArith1_ok .sign inner
        | abs => exact fromIterArith1_ok .abs inner
        | neg => exact fromIterArith1_ok .neg inner
  | powOp k p s i ihs =>
    intro fuel hf
    simp only [Op.dep] at hf
    cases p with
    | num q =>
      simp only [Op.wfB, Bool.and_eq_true] at h
      cases fuel with
      | zero => omega
      | succ f =>
        refine visOk_node k.name [.constant (.num q), s] rfl ?_ ?_ rfl
        · intro a ha
          rcases List.mem_cons.1 ha with rfl | ha
          · exact visOk_constNum f q
          · rcases List.mem_cons.1 ha with rfl | ha
            · exact ihs h.2 f (by omega)
            · simp at ha
        · cases k with
          | pow => exact fromIterPow_ok .pow q s
          | spow => exact fromIterPow_ok .spow q s
    | nan => simp [Op.wfB, goodF64] at h
    | inf => simp [Op.wfB, goodF64] at h
    | ninf => simp [Op.wfB, goodF64] at h
  | logic k l r i ihl ihr =>
    simp only [Op.wfB, Bool.and_eq_true] at h
    intro fuel hf
    simp only [Op.dep] at hf
    cases fuel with
    | zero => omega
    | succ f =>
      refine visOk_node k.name [l, r] rfl ?_ ?_ rfl
      · intro a ha
        rcases List.mem_cons.1 ha with rfl | ha
        · exact ihl h.1 f (by omega)
        · rcases List.mem_cons.1 ha with rfl | ha
          · exact ihr h.2 f (by omega)
          · simp at ha
      · cases k with
        | lt => exact fromIterLogic_ok .lt l r
        | lte => exact fromIterLogic_ok .lte l r
        | gt => exact fromIterLogic_ok .gt l r
        | gte => exact fromIterLogic_ok .gte l r
        | eq => exact fromIterLogic_ok .eq l r
        | and => exact fromIterLogic_ok .and l r
        | or => exact fromIterLogic_ok .or l r
  | notOp inner i ihi =>
    simp only [Op.wfB] at h
    intro fuel hf
    simp only [Op.dep] at hf
    cases fuel with
    | zero => omega
    | succ f =>
      refine visOk_node "!" [inner] rfl ?_ ?_ rfl
      · intro a ha
        rcases List.mem_cons.1 ha with rfl | ha
        · exact ihi h f (by omega)
        · simp at ha
      · exact fromIterNot_ok inner
  | ifOp c t f i ihc iht ihf =>
    simp only [Op.wfB, Bool.and_eq_true] at h
    intro fuel hf
    simp only [Op.dep] at hf
    cases fuel with
    | zero => omega
    | succ fl =>
      refine visOk_node "If" [c, t, f] rfl ?_ ?_ rfl
      · intro a ha
        rcases List.mem_cons.1 ha with rfl | ha
        · exact ihc h.1.1 fl (by omega)
        · rcases List.mem_cons.1 ha with rfl | ha
          · exact iht h.1.2 fl (by omega)
          · rcases List.mem_cons.1 ha with rfl | ha
            · exact ihf h.2 fl (by omega)
            · simp at ha
      · exact fromIterIf_ok c t f
  | tsSum n inner window sum i ihi =>
    simp only [Op.wfB, Bool.and_eq_true, Bool.not_eq_true'] at h
    intro fuel hf
    simp only [Op.dep] at hf
    cases fuel with
    | zero => omega
    | succ f =>
      refine visOk_node "TSSum" [.constant (.num (n : ℚ)), inner] rfl ?_ ?_ rfl
      · intro a ha
        rcases List.mem_cons.1 ha with rfl | ha
        · exact visOk_constNum f _
        · rcases List.mem_cons.1 ha with rfl | ha
          · exact ihi h.2 f (by omega)
          · simp at ha
      · have hd := fromIterWindow_ok "TSSum" (fun n s => .tsSum n s [] (.num 0) 0) (n : ℚ)
          inner h.1
        rw [ratToUsize_natCast] at hd
        exact hd
  | tsMean n s hist x warmup ihs =>
    simp only [Op.wfB, Bool.and_eq_true, Bool.not_eq_true'] at h
    intro fuel hf
    simp only [Op.dep] at hf
    cases fuel with
    | zero => omega
    | succ f =>
      refine visOk_node "TSMean" [.constant (.num (n : ℚ)), s] rfl ?_ ?_ rfl
      · intro a ha
        rcases List.mem_cons.1 ha with rfl | ha
        · exact visOk_constNum f _
        · rcases List.mem_cons.1 ha with rfl | ha
          · exact ihs h.2 f (by omega)
          · simp at ha
      · have hd := fromIterWindow_ok "TSMean" (fun n s => .tsMean n s [] (.num 0) 0) (n : ℚ)
          s h.1
        rw [ratToUsize_natCast] at hd
        exact hd
  | tsStdev n s hist x warmup ihs =>
    simp only [Op.wfB, Bool.and_eq_true, Bool.not_eq_true', decide_eq_true_eq] at h
    intro fuel hf
    simp only [Op.dep] at hf
    cases fuel with
    | zero => omega
    | succ f =>
      refine visOk_node "TSStd" [.constant (.num (n : ℚ)), s] rfl ?_ ?_ rfl
      · intro a ha
        rcases List.mem_cons.1 ha with rfl | ha
        · exact visOk_constNum f _
        · rcases List.mem_cons.1 ha with rfl | ha
          · exact ihs h.2.2 f (by omega)
          · simp at ha
      · exact fromIterStdev_ok n h.1 s h.2.1
  | tsSkew n s hist x warmup ihs =>
    simp only [Op.wfB, Bool.and_eq_true, Bool.not_eq_true', decide_eq_true_eq] at h
    intro fuel hf
    simp only [Op.dep] at hf
    cases fuel with
    | zero => omega
    | succ f =>
      refine visOk_node "TSSkew" [.constant (.num (n : ℚ)), s] rfl ?_ ?_ rfl
      · intro a ha
        rcases List.mem_cons.1 ha with rfl | ha
        · exact visOk_constNum f _
        · rcases List.mem_cons.1 ha with rfl | ha
          · exact ihs h.2.2 f (by omega)
          · simp at ha
      · exact fromIterSkew_ok n h.1 s h.2.1
  | tsCorr n sx sy hist x y warmup ihx ihy =>
    simp only [Op.wfB, Bool.and_eq_true] at h
    intro fuel hf
    simp only [Op.dep] at hf
    cases fuel with
    | zero => omega
    | succ f =>
      refine visOk_node "TSCorr" [.constant (.num (n : ℚ)), sx, sy] rfl ?_ ?_ rfl
      · intro a ha
        rcases List.mem_cons.1 ha with rfl | ha
        · exact visOk_constNum f _
        · rcases List.mem_cons.1 ha with rfl | ha
          · exact ihx h.1 f (by omega)
          · rcases List.mem_cons.1 ha with rfl | ha
            · exact ihy h.2 f (by omega)
            · simp at ha
      · have hd := fromIterCorr_ok (n : ℚ) sx sy
        rw [ratToUsize_natCast] at hd
        exact hd
  | minmax k n s hist seq warmup ihs =>
    simp only [Op.wfB, Bool.and_eq_true, Bool.not_eq_true'] at h
    intro fuel hf
    simp only [Op.dep] at hf
    cases fuel with
    | zero => omega
    | succ f =>
      refine visOk_node k.name [.constant (.num (n : ℚ)), s] rfl ?_ ?_ rfl
      · intro a ha
        rcases List.mem_cons.1 ha with rfl | ha
        · exact visOk_constNum f _
        · rcases List.mem_cons.1 ha with rfl | ha
          · exact ihs h.2 f (by omega)
          · simp at ha
      · cases k with
        | tsMin =>
          have hd := fromIterWindow_ok "TSMin" (fun n s => .minmax .tsMin n s [] 0 0) (n : ℚ)
            s h.1
          rw [ratToUsize_natCast] at hd
          exact hd
        | tsMax =>
          have hd := fromIterWindow_ok "TSMax" (fun n s => .minmax .tsMax n s [] 0 0) (n : ℚ)
            s h.1
          rw [ratToUsize_natCast] at hd
          exact hd
        | tsArgMin =>
          have hd := fromIterWindow_ok "TSArgMin"
            (fun n s => .minmax .tsArgMin n s [] 0 0) (n : ℚ) s h.1
          rw [ratToUsize_natCast] at hd
          exact hd
        | tsArgMax =>
          have hd := fromIterWindow_ok "TSArgMax"
            (fun n s => .minmax .tsArgMax n s [] 0 0) (n : ℚ) s h.1
          rw [ratToUsize_natCast] at hd
          exact hd
  | delay n inner window i ihi =>
    simp only [Op.wfB, Bool.and_eq_true, Bool.not_eq_true'] at h
    intro fuel hf
    simp only [Op.dep] at hf
    cases fuel with
    | zero => omega
    | succ f =>
      refine visOk_node "Delay" [.constant (.num (n : ℚ)), inner] rfl ?_ ?_ rfl
      · intro a ha
        rcases List.mem_cons.1 ha with rfl | ha
        · exact visOk_constNum f _
        · rcases List.mem_cons.1 ha with rfl | ha
          · exact ihi h.2 f (by omega)
          · simp at ha
      · have hd := fromIterWindow_ok "Delay" (fun n s => .delay n s [] 0) (n : ℚ) inner h.1
        rw [ratToUsize_natCast] at hd
        exact hd
  | tsRank n s hist ostree warmup ihs =>
    simp only [Op.wfB, Bool.and_eq_true, Bool.not_eq_true'] at h
    intro fuel hf
    simp only [Op.dep] at hf
    cases fuel with
    | zero => omega
    | succ f =>
      refine visOk_node "TSRank" [.constant (.num (n : ℚ)), s] rfl ?_ ?_ rfl
      · intro a ha
        rcases List.mem_cons.1 ha with rfl | ha
        · exact visOk_constNum f _
        · rcases List.mem_cons.1 ha with rfl | ha
          · exact ihs h.2 f (by omega)
          · simp at ha
      · have hd := fromIterWindow_ok "TSRank" (fun n s => .tsRank n s [] [] 0) (n : ℚ) s h.1
        rw [ratToUsize_natCast] at hd
        exact hd
  | tsQuantile n q r s hist ostree warmup ihs =>
    intro fuel hf
    simp only [Op.dep] at hf
    cases q with
    | num q2 =>
      simp only [Op.wfB, Bool.and_eq_true, Bool.not_eq_true', decide_eq_true_eq] at h
      cases fuel with
      | zero => omega
      | succ f =>
        refine visOk_node "TSQuantile"
          [.constant (.num (n : ℚ)), .constant (.num q2), s] rfl ?_ ?_ rfl
        · intro a ha
          rcases List.mem_cons.1 ha with rfl | ha
          · exact visOk_constNum f _
          · rcases List.mem_cons.1 ha with rfl | ha
            · exact visOk_constNum f _
            · rcases List.mem_cons.1 ha with rfl | ha
              · exact ihs h.2.2 f (by omega)
              · simp at ha
        · have hd := fromIterQuantile_ok n q2 h.1.1.2 s h.2.1
          rw [h.1.2]
          exact hd
    | nan => simp [Op.wfB] at h
    | inf => simp [Op.wfB] at h
    | ninf => simp [Op.wfB] at h
  | tsLogReturn n s cache warmup ihs =>
    simp only [Op.wfB, Bool.and_eq_true, Bool.not_eq_true'] at h
    intro fuel hf
    simp only [Op.dep] at hf
    cases fuel with
    | zero => omega
    | succ f =>
      refine visOk_node "TSLogReturn" [.constant (.num (n : ℚ)), s] rfl ?_ ?_ rfl
      · intro a ha
        rcases List.mem_cons.1 ha with rfl | ha
        · exact visOk_constNum f _
        · rcases List.mem_cons.1 ha with rfl | ha
          · exact ihs h.2 f (by omega)
          · simp at ha
      · have hd := fromIterWindow_ok "TSLogReturn" (fun n s => .tsLogReturn n s [] 0) (n : ℚ)
          s h.1
        rw [ratToUsize_natCast] at hd
        exact hd
  | sma inner n i window sum ihi =>
    simp only [Op.wfB] at h
    intro fuel hf
    simp only [Op.dep] at hf
    cases fuel with
    | zero => omega
    | succ f =>
      refine visOk_node "SMA" [.constant (.num (n : ℚ)), inner] rfl ?_ ?_ rfl
      · intro a ha
        rcases List.mem_cons.1 ha with rfl | ha
        · exact visOk_constNum f _
        · rcases List.mem_cons.1 ha with rfl | ha
          · exact ihi h f (by omega)
          · simp at ha
      · have hd := fromIterSMA_ok (n : ℚ) inner
        rw [ratToUsize_natCast] at hd
        exact hd

lemma dep_le_toToks (t : Op) : t.dep ≤ t.toToks.length := by
  induction t <;>
    simp only [Op.toToks, Op.dep, List.length_cons, List.length_append,
      List.length_nil] <;>
    omega

lemma reparsed_to_string (t : Op) : t.reparsed.to_string = t.to_string := by
  induction t <;> simp [Op.reparsed, Op.to_string, *]

lemma sexpr_shape (t : Op) (hc : t.isConst = false) :
    (∃ name idx, t = .getter name idx) ∨ ∃ func params, t.sexprOf = .list (func :: params) := by
  cases t with
  | getter name idx => exact Or.inl ⟨name, idx, rfl⟩
  | constant c => simp [Op.isConst] at hc
  | arith k l r i => exact Or.inr ⟨_, _, rfl⟩
  | arith1 k inner i => exact Or.inr ⟨_, _, rfl⟩
  | powOp k p s i => exact Or.inr ⟨_, _, rfl⟩
  | logic k l r i => exact Or.inr ⟨_, _, rfl⟩
  | notOp inner i => exact Or.inr ⟨_, _, rfl⟩
  | ifOp c t f i => exact Or.inr ⟨_, _, rfl⟩
  | tsSum n inner window sum i => exact Or.inr ⟨_, _, rfl⟩
  | tsMean n s hist x warmup => exact Or.inr ⟨_, _, rfl⟩
  | tsStdev n s hist x warmup => exact Or.inr ⟨_, _, rfl⟩
  | tsSkew n s hist x warmup => exact Or.inr ⟨_, _, rfl⟩
  | tsCorr n sx sy hist x y warmup => exact Or.inr ⟨_, _, rfl⟩
  | minmax k n s hist seq warmup => exact Or.inr ⟨_, _, rfl⟩
  | delay n inner window i => exact Or.inr ⟨_, _, rfl⟩
  | tsRank n s hist ostree warmup => exact Or.inr ⟨_, _, rfl⟩
  | tsQuantile n q r s hist ostree warmup => exact Or.inr ⟨_, _, rfl⟩
  | tsLogReturn n s cache warmup => exact Or.inr ⟨_, _, rfl⟩
  | sma inner n i window sum => exact Or.inr ⟨_, _, rfl⟩

lemma visOk_extract {fuel : ℕ} {t : Op} {func : Sexpr} {params : List Sexpr}
    (hsx : t.sexprOf = .list (func :: params)) (hv : VisOk fuel t)
    (hpar : t.paramOf = .operator t.reparsed) :
    visitF fuel (.list (func :: params)) = .ok t.reparsed := by
  have hv2 : (visitF fuel (.list (func :: params))).map Parameter.operator =
      .ok (.operator t.reparsed) := by
    have := hv
    rw [VisOk, hsx, hpar] at this
    exact this
  cases hres : visitF fuel (.list (func :: params)) with
  | error e => rw [hres] at hv2; simp [Except.map] at hv2
  | ok u =>
    rw [hres] at hv2
    simp only [Except.map, Except.ok.injEq] at hv2
    rw [Parameter.operator.injEq] at hv2
    rw [hv2]

lemma roundtrip (t : Op) (h : t.wfB = true) (hc : t.isConst = false) :
    from_str t.to_string = .ok t.reparsed := by
  have hlex : lex (Op.to_string t).data = t.toToks := by
    have h1 := lex_all t h [] rfl
    rw [List.append_nil, show lexGo [] ([] : List Char) = [] from rfl,
      List.append_nil] at h1
    exact h1
  have hbuild : buildS [] [] t.toToks = .ok t.sexprOf := by
    have h2 := build_all t h [] [] []
    simpa using h2
  show from_str (Op.to_string t) = .ok t.reparsed
  rw [from_str]
  rw [hlex, hbuild]
  rcases sexpr_shape t hc with ⟨name, idx, rfl⟩ | ⟨func, params, hsx⟩
  · show (match Op.sexprOf (.getter name idx) with
      | .sym sy =>
        match sy.data with
        | ':' :: restName => Except.ok (Op.getter ⟨restName⟩ none)
        | _ => Except.error (.err ("unexpected symbol " ++ sy))
      | .num _ => Except.error (.err "unexpected value")
      | .list [] => Except.error (.err "unexpected value")
      | .list (func :: params) =>
        visitF ((Op.toToks (.getter name idx)).length + 1) (.list (func :: params))) =
      Except.ok (Op.reparsed (.getter name idx))
    have hdat : (":" ++ name).data = ':' :: name.data := by
      simp [String.data_append, data_colon]
    show (match (":" ++ name).data with
      | ':' :: restName => Except.ok (Op.getter ⟨restName⟩ none)
      | _ => Except.error (.err ("unexpected symbol " ++ (":" ++ name)))) =
      Except.ok (Op.reparsed (.getter name idx))
    rw [hdat]
    rfl
  · rw [hsx]
    exact visOk_extract hsx
      (visit_all t h (t.toToks.length + 1) (le_trans (dep_le_toToks t) (Nat.le_succ _)))
      (paramOf_nonconst hc)

/-- C3 (amended): for every operator tree in the parser's image — getter
names free of delimiter characters, numeric constants whose shortest
decimal rendering re-reads to the same rational, window series given as
operators rather than bare constants, and the constructor-validated
ranges respected (`TSStd` effective window ≥ 2, `TSSkew` ≥ 3,
`TSQuantile` with `q ∈ [0, 1]` and a consistent cached rank) — that is
not itself a bare constant, parsing `F.to_string()` succeeds and yields
a factor whose canonical string equals `F.to_string()`; window operators
keep their `TS`-prefixed canonical names throughout.  Without the range
exclusions the claim is false (see the `TSStd` counterexample). -/
theorem C3_roundtrip_canonical (t : Op) (h : t.wfB = true) (hc : t.isConst = false) :
    ∃ u, from_str t.to_string = .ok u ∧ u.to_string = t.to_string :=
  ⟨t.reparsed, roundtrip t h hc, reparsed_to_string t⟩

/-- C3 witness: the amended round trip applied to the concrete factor
`(TSSum 2 :a)`. -/
theorem C3_roundtrip_canonical_witness :
    Op.wfB (.tsSum 2 (.getter "a" none) [] (.num 0) 0) = true ∧
    Op.isConst (.tsSum 2 (.getter "a" none) [] (.num 0) 0) = false ∧
    ∃ u, from_str (Op.to_string (.tsSum 2 (.getter "a" none) [] (.num 0) 0)) = .ok u ∧
      u.to_string = Op.to_string (.tsSum 2 (.getter "a" none) [] (.num 0) 0) :=
  ⟨by with_unfolding_all rfl, rfl,
    C3_roundtrip_canonical (.tsSum 2 (.getter "a" none) [] (.num 0) 0)
      (by with_unfolding_all rfl) rfl⟩

end FactorExpr
